import Mathlib

/-!
# Verification of the MCHPRS redpiler core against its specification

This file gives a shallow embedding, in Lean 4, of the parts of the
MCHPRS redstone compiler and threaded simulator that the specification
claims talk about, together with proofs settling each claim.

Machine integers (`u8`, `u16`, `u32`, `usize`) are modelled as `Nat`
with explicit wrap-around (`% 2 ^ w`) at the operations where the Rust
code can wrap; saturating subtraction on `Nat` is `Nat.sub` itself.
Fallible Rust code (parsers, `panic!`, `assert!`, `todo!`) is modelled
with `Except`, with distinct constructors separating a *returned* error
from a *panic*.
-/

namespace MCHPRS

/-! ## PossibleSS: bitsets over signal strengths 0..15
Embedded from `crates/redpiler/src/possible_signal_strength.rs`.
A value is a `u16` bitset, modelled as a `Nat` (kept `< 2 ^ 16`). -/

/-- Number of set bits of a `u16`; models `u16::count_ones` (values
live below `2 ^ 16`). -/
def popCount (n : Nat) : Nat := (List.range 16).countP (fun i => n.testBit i)

namespace PossibleSS

/-- `PossibleSS::POSITIVE`: `0xffff << 1` truncated to 16 bits. -/
def POSITIVE : Nat := (0xffff <<< 1) % 2 ^ 16

/-- `PossibleSS::EMPTY`. -/
def EMPTY : Nat := 0

/-- `PossibleSS::constant(ss)`: the singleton bitset `1 << ss`. -/
def constant (ss : Nat) : Nat := 1 <<< ss

/-- `PossibleSS::contains(ss)`: `self & (1 << ss) != 0`. -/
def contains (v ss : Nat) : Bool := v &&& (1 <<< ss) != 0

/-- `PossibleSS::max_ss`: `checked_ilog2`, with `0` for the empty set
(the source's `else` branch).  For a `u16` this is the index of the
highest set bit, `0` when there is none. -/
def max_ss (v : Nat) : Nat :=
  (List.range 16).foldl (fun acc i => if v.testBit i then i else acc) 0

/-- `PossibleSS::is_constant`: `count_ones <= 1`. -/
def is_constant (v : Nat) : Bool := popCount v ≤ 1

/-- `PossibleSS::get_constant`. -/
def get_constant (v : Nat) : Option Nat :=
  if is_constant v then some (max_ss v) else none

/-- `PossibleSS::subtract_ss(distance)`: `(self & 1) | (self >> distance)`. -/
def subtract_ss (v distance : Nat) : Nat := (v &&& 1) ||| (v >>> distance)

end PossibleSS

/-- Free function `dust_or` from `possible_signal_strength.rs`:
`a_lsb = a & 0u16.wrapping_sub(a)`, `a_mask = !a_lsb.saturating_sub(1)`
(bitwise not on 16 bits), result `(a | b) & a_mask & b_mask`. -/
def dust_or (a b : Nat) : Nat :=
  let a_lsb := a &&& ((2 ^ 16 - a) % 2 ^ 16)
  let a_mask := (a_lsb - 1) ^^^ 0xffff
  let b_lsb := b &&& ((2 ^ 16 - b) % 2 ^ 16)
  let b_mask := (b_lsb - 1) ^^^ 0xffff
  (a ||| b) &&& a_mask &&& b_mask

/-! ## NarrowOutputs helpers
Embedded from `crates/redpiler/src/passes/narrow_outputs.rs`. -/

/-- `narrow_outputs::remove_ss`: `(values & 1) | (values >> distance)`. -/
def remove_ss (values distance : Nat) : Nat := (values &&& 1) ||| (values >>> distance)

/-- `narrow_outputs::or_possible`:
`a_lsb = a & (u16::MAX - a)`, result
`(a | b) & a_lsb.wrapping_sub(1) & b_lsb.wrapping_sub(1)`.
(`u16::MAX - a` cannot underflow for `a ≤ 0xffff`; `wrapping_sub 1`
wraps `0` to `0xffff`.) -/
def or_possible (a b : Nat) : Nat :=
  let a_lsb := a &&& (0xffff - a)
  let b_lsb := b &&& (0xffff - b)
  (a ||| b) &&& ((a_lsb + 0xffff) % 2 ^ 16) &&& ((b_lsb + 0xffff) % 2 ^ 16)

/-! ## Comparator output
Embedded from `crates/redpiler/src/backend/threaded/mod.rs`,
`calculate_comparator_output`. Inputs are `u8`. -/

inductive ComparatorMode where
  | Compare
  | Subtract
deriving DecidableEq, Repr

/-- `calculate_comparator_output(mode, input_strength, power_on_sides)`:
`difference = input_strength.wrapping_sub(power_on_sides)` on `u8`;
if `difference <= 15` return `input_strength` (Compare) or `difference`
(Subtract), else `0`. -/
def calculate_comparator_output (mode : ComparatorMode)
    (input_strength power_on_sides : Nat) : Nat :=
  let difference := (input_strength + 2 ^ 8 - power_on_sides % 2 ^ 8) % 2 ^ 8
  if difference ≤ 15 then
    match mode with
    | .Compare => input_strength
    | .Subtract => difference
  else
    0

/-! ## The compile graph
The redpiler crate's `compile_graph` module (a petgraph `StableGraph`
with `CompileNode` weights and `CompileLink` edge weights) is used by
every pass and backend in `src/`.  Nodes are stored in slots (a removed
node leaves a vacant slot, node indices of live nodes are stable);
edges are kept in insertion order, and removing a node removes its
incident edges.  `add_node` is modelled as appending a fresh slot
(per spec §4.1, indices are not reused within a compile).  The unused
`annotations` field of `CompileNode` is elided. -/

inductive LinkType where
  | Default
  | Side
deriving DecidableEq, Repr

structure CompileLink where
  ty : LinkType
  ss : Nat
deriving DecidableEq, Repr

inductive CNodeType where
  | Repeater (delay : Nat) (facing_diode : Bool)
  | Torch
  | Comparator (mode : ComparatorMode) (far_input : Option Nat) (facing_diode : Bool)
  | Lamp
  | Button
  | Lever
  | PressurePlate
  | Trapdoor
  | Wire
  | Constant
  | NoteBlock (instrument : Nat) (note : Nat)
deriving DecidableEq, Repr

structure NodeState where
  powered : Bool
  repeater_locked : Bool
  output_strength : Nat
deriving DecidableEq, Repr

structure CompileNode where
  ty : CNodeType
  /-- World position of the backing block (`Option<(BlockPos, u32)>`);
  positions are abstracted to `Nat` ids and the block id is elided. -/
  block : Option Nat
  state : NodeState
  is_input : Bool
  is_output : Bool
  /-- `PossibleSS` bitset, a `u16`. -/
  possible_outputs : Nat
deriving DecidableEq, Repr

structure CEdge where
  source : Nat
  target : Nat
  weight : CompileLink
deriving DecidableEq, Repr

structure CompileGraph where
  nodes : List (Option CompileNode)
  edges : List CEdge
deriving DecidableEq, Repr

namespace CompileGraph

def node_bound (g : CompileGraph) : Nat := g.nodes.length

def node? (g : CompileGraph) (i : Nat) : Option CompileNode := (g.nodes.getD i none)

def contains_node (g : CompileGraph) (i : Nat) : Bool := (g.node? i).isSome

def add_node (g : CompileGraph) (n : CompileNode) : CompileGraph × Nat :=
  ({ g with nodes := g.nodes ++ [some n] }, g.nodes.length)

def add_edge (g : CompileGraph) (s t : Nat) (w : CompileLink) : CompileGraph :=
  { g with edges := g.edges ++ [⟨s, t, w⟩] }

/-- `edges_directed(i, Incoming)`, in insertion order. -/
def edges_in (g : CompileGraph) (i : Nat) : List CEdge :=
  g.edges.filter (fun e => e.target = i)

/-- `edges_directed(i, Outgoing)`, in insertion order. -/
def edges_out (g : CompileGraph) (i : Nat) : List CEdge :=
  g.edges.filter (fun e => e.source = i)

/-- `remove_node`: vacate the slot and drop all incident edges. -/
def remove_node (g : CompileGraph) (i : Nat) : CompileGraph :=
  { nodes := g.nodes.set i none,
    edges := g.edges.filter (fun e => ¬(e.source = i ∨ e.target = i)) }

/-- The `possible_outputs` of node `i` (an edge's endpoint always exists
in the live graph, so the default is never read on real inputs). -/
def possOf (g : CompileGraph) (i : Nat) : Nat :=
  ((g.node? i).map (·.possible_outputs)).getD 0

end CompileGraph

/-- `CompileNode::is_removable`.  Modelled from the spec: the
`compile_graph` module itself is not among the source files;
§4.3 defines "Removable" as not `is_input`, not `is_output`. -/
def is_removable (n : CompileNode) : Bool := !n.is_input && !n.is_output

/-! ## NarrowOutputs input combination
Embedded from `crates/redpiler/src/passes/narrow_outputs.rs`,
`calc_possible_inputs`. -/

/-- `calc_possible_inputs(graph, idx)`: fold every incoming edge's
`remove_ss(source.possible_outputs, ss)` into the `Default` or `Side`
accumulator with `or_possible`; apply the comparator `far_input`
override; replace an empty accumulator by `{0}`. -/
def calc_possible_inputs (g : CompileGraph) (idx : Nat) : Nat × Nat :=
  let acc := (g.edges_in idx).foldl
    (fun (acc : Nat × Nat) e =>
      let val := remove_ss (g.possOf e.source) e.weight.ss
      match e.weight.ty with
      | .Default => (or_possible acc.1 val, acc.2)
      | .Side => (acc.1, or_possible acc.2 val))
    (0, 0)
  let def_ := acc.1
  let side := acc.2
  let def_ :=
    match g.node? idx with
    | some { ty := .Comparator _ (some far_input) _, .. } =>
      if far_input = 0 then def_
      else if def_ &&& (1 <<< 15) ≠ 0 then (1 <<< 15) ||| (1 <<< far_input)
      else 1 <<< far_input
    | _ => def_
  (if def_ = 0 then 1 else def_, if side = 0 then 1 else side)

/-! ## Coalescing and constant folding
Embedded from `crates/redpiler/src/passes/coalesce2.rs` (`coalesce`)
and `crates/redpiler/src/passes/constant_fold2.rs` (`run_pass`). -/

/-- `coalesce(graph, node, into, extra_distance)`: re-source each
outgoing edge of `node` at `into` with `ss + extra_distance` (a `u8`
addition), dropping edges whose new distance is `≥ 15`; then remove
`node` (and with it all its remaining incident edges). -/
def coalesce (g : CompileGraph) (node into : Nat) (extra_distance : Nat) : CompileGraph :=
  if node = into then g
  else
    let g' := (g.edges_out node).foldl
      (fun g' e =>
        let ss := (e.weight.ss + extra_distance) % 2 ^ 8
        if ss < 15 then g'.add_edge into e.target ⟨e.weight.ty, ss⟩ else g')
      g
    g'.remove_node node

/-- The shared synthetic node `ConstantFold2` adds:
`Constant` with `NodeState::ss(15)` and `possible_outputs = {15}`. -/
def cfConstantNode : CompileNode :=
  { ty := .Constant
    block := none
    state := { powered := false, repeater_locked := false, output_strength := 15 }
    is_input := false
    is_output := false
    possible_outputs := PossibleSS.constant 15 }

/-- One iteration of `ConstantFold2::run_pass`'s loop over node
indices. -/
def cfStep (constant : Nat) (g : CompileGraph) (idx : Nat) : CompileGraph :=
  if idx = constant then g
  else
    match g.node? idx with
    | none => g
    | some node =>
      if !is_removable node then g
      else
        match PossibleSS.get_constant node.possible_outputs with
        | none => g
        | some ss => coalesce g idx constant (15 - ss)

/-- `ConstantFold2::run_pass`: add one shared `Constant` node of output
strength 15, then fold every removable node whose `possible_outputs`
is constant (`get_constant`) into it via `coalesce` with extra
distance `15 - k`. -/
def constantFold2 (g : CompileGraph) : CompileGraph :=
  let (g1, constant) := g.add_node cfConstantNode
  (List.range g1.node_bound).foldl (cfStep constant) g1

/-- Does `ConstantFold2` fold node `j` of `g`: present, removable, and
of constant `possible_outputs`? -/
def foldsB (g : CompileGraph) (j : Nat) : Bool :=
  match g.node? j with
  | some n => is_removable n && (PossibleSS.get_constant n.possible_outputs).isSome
  | none => false

/-- "Already folded" while `ConstantFold2`'s loop runs: the index was
processed and qualified for folding. -/
def cfRm (g : CompileGraph) (P : List Nat) (j : Nat) : Prop :=
  j ∈ P ∧ foldsB g j = true

/-- Loop invariant of `ConstantFold2::run_pass` after the node indices in
`P` have been processed: the constant slot holds the synthetic node,
unfolded slots are untouched, folded slots are vacated, every live edge is
an original edge between unfolded nodes or a redirected edge out of the
constant with `ss < 15`, originals between unfolded nodes survive, and
each processed foldable source's edges to unfolded targets have their
redirected copy whenever the adjusted distance stays below 15. -/
def CFInv (g : CompileGraph) (P : List Nat) (cur : CompileGraph) : Prop :=
  (cur.node? g.nodes.length = some cfConstantNode) ∧
  (∀ j, ¬ j = g.nodes.length → ¬ cfRm g P j → cur.node? j = g.node? j) ∧
  (∀ j, cfRm g P j → cur.node? j = none) ∧
  (∀ e ∈ cur.edges,
    (e ∈ g.edges ∧ ¬ cfRm g P e.source ∧ ¬ cfRm g P e.target) ∨
    (e.source = g.nodes.length ∧ ¬ cfRm g P e.target ∧ e.weight.ss < 15)) ∧
  (∀ e ∈ g.edges, ¬ cfRm g P e.source → ¬ cfRm g P e.target → e ∈ cur.edges) ∧
  (∀ e ∈ g.edges, ∀ n k, e.source ∈ P → g.node? e.source = some n →
    is_removable n = true → PossibleSS.get_constant n.possible_outputs = some k →
    foldsB g e.target = false → e.weight.ss + 15 - k < 15 →
    (⟨g.nodes.length, e.target, ⟨e.weight.ty, e.weight.ss + 15 - k⟩⟩ : CEdge) ∈ cur.edges)

/-! ## AIGER codec
Embedded from `crates/aigrs/src/networks/aiger.rs`.  Bytes are `Nat`s
(always `< 256` on real inputs); `usize` accumulation is modelled as
unbounded `Nat` (64-bit overflow is unreachable for the inputs the
claims range over).  A failing `assert_eq!` is a panic, kept distinct
from a returned `AigerParseError`. -/

/-- Outcome of an aborting code path: either a Rust panic (an
`assert_eq!` failure) or a returned `AigerParseError { index, message }`.
The source formats the message as text; here it is carried
structurally. -/
inductive AigerAbort where
  /-- `assert_eq!(magic, "aig".as_bytes())` failed; carries the token read. -/
  | panicBadMagic (got : List Nat)
  /-- `AigerParseError::ueof(pos)` (message "unexpected input"). -/
  | unexpectedInput (pos : Nat)
  /-- `AigerParseError::new(pos, format!("{m} != {i} + {l} + {a}"))`. -/
  | headerSum (pos m i l a : Nat)
deriving DecidableEq, Repr

/-- Is the abort a returned `AigerParseError` (as opposed to a panic)? -/
def AigerAbort.isParseError : AigerAbort → Bool
  | .panicBadMagic _ => false
  | .unexpectedInput _ => true
  | .headerSum _ _ _ _ _ => true

/-- The byte offset a returned `AigerParseError` carries. -/
def AigerAbort.pos : AigerAbort → Nat
  | .panicBadMagic _ => 0
  | .unexpectedInput p => p
  | .headerSum p _ _ _ _ => p

structure Parser where
  full : List Nat
  rest : List Nat
deriving DecidableEq, Repr

namespace Parser

def new (bytes : List Nat) : Parser := ⟨bytes, bytes⟩

/-- `self.bytes.len() - self.iter.len()`. -/
def pos (p : Parser) : Nat := p.full.length - p.rest.length

/-- `skip_while(f)`. -/
def skip_while (f : Nat → Bool) (p : Parser) : Parser :=
  { p with rest := p.rest.dropWhile f }

def skip_spaces (p : Parser) : Parser := p.skip_while (fun c => c = 32)

def skip_white (p : Parser) : Parser := p.skip_while (fun c => c ≤ 32)

/-- `text()`: the maximal run of bytes `> b' '` from the current
position, consumed. -/
def text (p : Parser) : List Nat × Parser :=
  (p.rest.takeWhile (fun c => 32 < c), p.skip_while (fun c => 32 < c))

def isDigit (c : Nat) : Bool := 48 ≤ c && c ≤ 57

/-- `num()`: skip spaces, then read a non-empty run of ASCII digits as
a decimal number; error `ueof` if no digit matched. -/
def num (p : Parser) : Except AigerAbort (Nat × Parser) :=
  let p := p.skip_spaces
  let ds := p.rest.takeWhile isDigit
  if ds.isEmpty then .error (.unexpectedInput p.pos)
  else .ok (ds.foldl (fun n c => n * 10 + (c - 48)) 0, p.skip_while isDigit)

/-- The accumulation loop of `var_int()`: `x |= (c & 127) << (i * 7)`,
stop after a byte `< 128`; running off the end returns what was
accumulated. -/
def var_int_aux : List Nat → Nat → Nat → Nat × List Nat
  | [], _, x => (x, [])
  | c :: cs, i, x =>
    let x' := x ||| ((c &&& 127) <<< (i * 7))
    if c < 128 then (x', cs) else var_int_aux cs (i + 1) x'

/-- `var_int()`: error `ueof` on empty input, else run the loop. -/
def var_int (p : Parser) : Except AigerAbort (Nat × Parser) :=
  match p.rest with
  | [] => .error (.unexpectedInput p.pos)
  | _ =>
    let (x, rest) := var_int_aux p.rest 0 0
    .ok (x, { p with rest := rest })

end Parser

/-- The `while x > 0` loop of `write_var_int`, bounded by a fuel that
dominates the iteration count (each step at least halves `x`). -/
def write_var_int_go : Nat → Nat → List Nat
  | 0, _ => []
  | fuel + 1, x =>
    if x = 0 then []
    else ((x &&& 127) ||| (if 128 ≤ x then 128 else 0)) :: write_var_int_go fuel (x >>> 7)

/-- `write_var_int(x)`: little-endian 7-bit groups, high bit set iff
more bytes follow; **writes nothing at all for `x = 0`**.  (`x` itself
bounds the loop's iteration count, so it serves as the fuel.) -/
def write_var_int (x : Nat) : List Nat := write_var_int_go x x

/-- The bytes of the magic token `aig`. -/
def aigMagic : List Nat := [97, 105, 103]

structure AigerHeader where
  max_index : Nat
  pi_count : Nat
  latch_count : Nat
  po_count : Nat
  and_count : Nat
deriving DecidableEq, Repr

/-- `AigerHeader::p`: read the magic token (`assert_eq!` panics when it
is not `aig`), five decimal numbers `M I L O A`, and return
`ParseError` when `M ≠ I + L + A`. -/
def AigerHeader.p (p : Parser) : Except AigerAbort (AigerHeader × Parser) := do
  let (magic, p) := p.text
  if magic ≠ aigMagic then
    throw (.panicBadMagic magic)
  let (max_index, p) ← p.num
  let (pi_count, p) ← p.num
  let (latch_count, p) ← p.num
  let (po_count, p) ← p.num
  let (and_count, p) ← p.num
  if max_index ≠ pi_count + latch_count + and_count then
    throw (.headerSum p.pos max_index pi_count latch_count and_count)
  return (⟨max_index, pi_count, latch_count, po_count, and_count⟩, p)

/-- `AigerHeader::parse(bytes)`. -/
def AigerHeader.parse (bytes : List Nat) : Except AigerAbort AigerHeader :=
  (AigerHeader.p (Parser.new bytes)).map Prod.fst

/-! ## The threaded backend
Embedded from `crates/redpiler/src/backend/threaded/{mod.rs, compile.rs}`.
The backend's `node.rs`, `tick.rs` and `update.rs` are not among the
source files; the node layout is reconstructed from its uses in
`mod.rs`/`compile.rs`, and `tick_node` / `update_node` are modelled
from the spec (§4.6), marked below.

Histogram entries (`ss_counts: [u8; 16]`) are modelled in `ℤ`: the
stored `u8` is the `ℤ` value modulo `2 ^ 8`, `+= 1`/`-= 1` commute with
that reduction, and the proven invariant pins every entry to an actual
edge count in `[0, 255]` between operations (compile rejects more than
255 inputs per type), so the two models agree on every reachable
state. -/

namespace Threaded

/-- Backend node types (`node.rs::NodeType`), reconstructed from the
`compile_node` lowering of `CNodeType` (a `NonMaxU8` far input is a
plain `Nat` here; `compile_node` refuses the value 255). -/
inductive TNodeType where
  | Repeater (delay : Nat) (facing_diode : Bool)
  | Torch
  | Comparator (mode : ComparatorMode) (far_input : Option Nat) (facing_diode : Bool)
  | Lamp
  | Button
  | Lever
  | PressurePlate
  | Trapdoor
  | Wire
  | Constant
  | NoteBlock (noteblock_id : Nat)
deriving DecidableEq, Repr

/-- `ForwardLink`: packed `(target, side, ss_distance)`. -/
structure ForwardLink where
  node : Nat
  side : Bool
  ss : Nat
deriving DecidableEq, Repr

/-- `NodeInput { ss_counts: [u8; 16] }`. -/
structure NodeInput where
  ss_counts : List Int
deriving DecidableEq, Repr

structure SNode where
  ty : TNodeType
  default_inputs : NodeInput
  side_inputs : NodeInput
  updates : List ForwardLink
  powered : Bool
  output_power : Nat
  locked : Bool
  /-- Wheel slot of the pending tick; `255` means none. -/
  pending_tick : Nat
  /-- `TickPriority` as `Nat`: Highest = 0, Higher = 1, High = 2, Normal = 3. -/
  pending_tick_priority : Nat
  changed : Bool
  is_io : Bool
  group_id : Nat
  input_group_id : Option Nat
deriving DecidableEq, Repr

/-- One wheel slot: 4 priority lanes (`Queues`). -/
def Queues := List (List Nat)
deriving instance DecidableEq, Repr for Queues

def emptyQueues : Queues := [[], [], [], []]

/-- `Group`: contiguous backend-id range, 16-slot scheduler, and the
two cross-group "has work" flags. -/
structure Group where
  nodes_start : Nat
  nodes_end : Nat
  scheduler : List Queues
  tick : List Bool
deriving DecidableEq, Repr

structure GroupsState where
  groups : List Group
  tick : Nat
deriving DecidableEq, Repr

structure Backend where
  nodes : List SNode
  groups : GroupsState
  events : List Nat
deriving DecidableEq, Repr

/-- `get_bool_input`: some `Default` histogram bucket `1..15` is
non-zero (the `u128` mask trick masks out byte 0). -/
def get_bool_input (n : SNode) : Bool :=
  (n.default_inputs.ss_counts.drop 1).any (fun c => c ≠ 0)

/-- `get_bool_side`. -/
def get_bool_side (n : SNode) : Bool :=
  (n.side_inputs.ss_counts.drop 1).any (fun c => c ≠ 0)

/-- `last_index_positive`: highest index with a non-zero byte, `0` when
all 16 are zero. -/
def last_index_positive (l : List Int) : Nat :=
  (List.range 16).foldl (fun acc i => if l.getD i 0 ≠ 0 then i else acc) 0

/-- `get_all_input`. -/
def get_all_input (n : SNode) : Nat × Nat :=
  (last_index_positive n.default_inputs.ss_counts,
   last_index_positive n.side_inputs.ss_counts)

/-- `TickScheduler::schedule_tick`: push into slot
`(tick + delay) % 16`, lane `priority`; returns the slot. -/
def schedule_tick_sched (sched : List Queues) (tick : Nat) (node : Nat)
    (delay : Nat) (priority : Nat) : List Queues × Nat :=
  let slot := (tick + delay) % 16
  let q := sched.getD slot emptyQueues
  (sched.set slot (q.set priority (q.getD priority [] ++ [node])), slot)

/-- `Groups::schedule_tick` followed by the free `schedule_tick` of
`mod.rs` (which also records `pending_tick` / `pending_tick_priority`
on the node). -/
def scheduleAndMark (s : Backend) (node_id : Nat) (n : SNode)
    (delay : Nat) (priority : Nat) : Backend :=
  let gid := n.group_id
  match s.groups.groups.get? gid with
  | none => s
  | some g =>
    let (sched, slot) := schedule_tick_sched g.scheduler s.groups.tick node_id delay priority
    { s with
      groups := { s.groups with
        groups := s.groups.groups.set gid { g with scheduler := sched } }
      nodes := s.nodes.set node_id
        { n with pending_tick := slot, pending_tick_priority := priority } }

/-- Write node `i` back. -/
def writeNode (s : Backend) (i : Nat) (n : SNode) : Backend :=
  { s with nodes := s.nodes.set i n }

/-- Histogram adjustment of `set_node`'s loop body:
`ss_counts[old_p] -= 1; ss_counts[new_p] += 1` (only reached when
`old_p ≠ new_p`). -/
def adjustInput (inp : NodeInput) (old_p new_p : Nat) : NodeInput :=
  let l := inp.ss_counts.set old_p (inp.ss_counts.getD old_p 0 - 1)
  ⟨l.set new_p (l.getD new_p 0 + 1)⟩

/-- `update::update_node`.  Modelled from the spec: `update.rs` is not
among the source files.  Per §4.6 it decides, from the freshly updated
histograms, whether the target must schedule its own tick (enqueueing
with the node's delay and priority and recording
`pending_tick`/`pending_tick_priority`), applies the immediate state
changes (repeater lock, lamp turn-on, trapdoor/note-block follow), and
touches neither `output_power`, nor `updates`, nor any histogram. -/
def update_node (s : Backend) (id : Nat) : Backend :=
  match s.nodes.get? id with
  | none => s
  | some node =>
    match node.ty with
    | .Repeater delay facing_diode =>
      let locked := get_bool_side node
      let node1 :=
        if locked ≠ node.locked then { node with locked := locked, changed := true }
        else node
      let should := get_bool_input node1
      if !node1.locked && should != node1.powered && node1.pending_tick == 255 then
        scheduleAndMark s id node1 delay (if facing_diode then 0 else 1)
      else writeNode s id node1
    | .Torch =>
      let should_off := get_bool_input node
      if should_off == node.powered && node.pending_tick == 255 then
        scheduleAndMark s id node 1 3
      else s
    | .Comparator mode _ facing_diode =>
      let (inp, sid) := get_all_input node
      let out := calculate_comparator_output mode inp sid
      if (out != node.output_power || decide (0 < out) != node.powered)
          && node.pending_tick == 255 then
        scheduleAndMark s id node 1 (if facing_diode then 2 else 1)
      else s
    | .Lamp =>
      let input := get_bool_input node
      if input && !node.powered then
        writeNode s id { node with powered := true, changed := true }
      else if !input && node.powered && node.pending_tick == 255 then
        scheduleAndMark s id node 2 3
      else s
    | .Trapdoor =>
      let input := get_bool_input node
      if input != node.powered then
        writeNode s id { node with powered := input, changed := true }
      else s
    | .NoteBlock _ =>
      let input := get_bool_input node
      if input != node.powered then
        writeNode s id { node with powered := input, changed := true }
      else s
    | _ => s

/-- The operations of the backend's mutual recursion
(`set_node` ↔ `tick_node`, and `tick` which dispatches `tick_node`),
defunctionalised so a single fuel parameter bounds the recursion
depth.  `setLoop` is the `for i in 0..node.updates.len()` loop of
`set_node` carrying the captured `old_power`/`new_power` and the
remaining links (the `updates` list of a node is never mutated, so the
snapshot agrees with the source's re-indexing). `tickGroups`/
`tickLanes`/`tickLane` are the group dispatch of `tick`, sequentialised
in group-index order (the rayon dispatch writes disjoint state per
group up to the cross-group reads the spec describes). -/
inductive Op where
  | set (priority : Nat) (node_id : Nat) (powered : Bool) (new_power : Nat)
  | setLoop (priority : Nat) (node_id : Nat) (old_power new_power : Nat)
      (rest : List ForwardLink)
  | tickN (priority : Nat) (group_id : Nat) (node_id : Nat)
  | tick
  | tickGroups (gs : List Nat)
  | tickLanes (g : Nat) (priority : Nat) (lanes : List (List Nat)) (gs : List Nat)
  | tickLane (g : Nat) (priority : Nat) (lane : List Nat)
      (lanes : List (List Nat)) (gs : List Nat)

/-- Finish one group inside `tick`: `end_tick` stores the drained
(cleared) queues back into the current slot, then the group's
`tick[(current_tick + 1) % 2]` flag is recomputed from slot
`next_tick` — which the source computes as `current_tick % 16`
**without** the `+ 1` (`ThreadedBackend::tick`, `mod.rs`), so it
inspects the just-cleared current slot. -/
def finishGroup (s : Backend) (gid : Nat) : Backend :=
  let current := s.groups.tick
  let next_tick := current % 16
  match s.groups.groups.get? gid with
  | none => s
  | some g =>
    let sched := g.scheduler.set (current % 16) emptyQueues
    let nonempty := (sched.getD next_tick emptyQueues).any (fun q => !q.isEmpty)
    let g' := { g with
      scheduler := sched
      tick := g.tick.set ((current + 1) % 2) nonempty }
    { s with groups := { s.groups with groups := s.groups.groups.set gid g' } }

/-- One step of the backend, fuel-bounded: `none` means the fuel ran
out or a Rust `panic`/out-of-bounds index was hit, i.e. the run is not
one the real backend completes. -/
def exec : Nat → Op → Backend → Option Backend
  | 0, _, _ => none
  | fuel + 1, op, s =>
    match op with
    | .set priority node_id powered new_power =>
      match s.nodes.get? node_id with
      | none => none
      | some node =>
        let old_power := node.output_power
        let s := writeNode s node_id
          { node with changed := true, powered := powered, output_power := new_power }
        exec fuel (.setLoop priority node_id old_power new_power node.updates) s
    | .setLoop _ _ _ _ [] => some s
    | .setLoop priority node_id old_power new_power (link :: rest) =>
      match s.nodes.get? node_id with
      | none => none
      | some node =>
        let tick_output := node.pending_tick == s.groups.tick
        let step1 :=
          if tick_output && decide (node.pending_tick_priority < priority) then
            exec fuel (.tickN node.pending_tick_priority node.group_id node_id) s
          else some s
        match step1 with
        | none => none
        | some s =>
          match s.nodes.get? link.node with
          | none => none
          | some target =>
            let old_p := old_power - link.ss
            let new_p := new_power - link.ss
            if old_p = new_p then
              exec fuel (.setLoop priority node_id old_power new_power rest) s
            else
              let target' :=
                if link.side then
                  { target with side_inputs := adjustInput target.side_inputs old_p new_p }
                else
                  { target with default_inputs := adjustInput target.default_inputs old_p new_p }
              let s := writeNode s link.node target'
              let s := update_node s link.node
              let step2 :=
                match s.nodes.get? node_id with
                | none => none
                | some node2 =>
                  if tick_output && decide (priority ≤ node2.pending_tick_priority) then
                    exec fuel (.tickN node2.pending_tick_priority node2.group_id node_id) s
                  else some s
              match step2 with
              | none => none
              | some s => exec fuel (.setLoop priority node_id old_power new_power rest) s
    | .tickN priority _group_id node_id =>
      -- Modelled from the spec: `tick.rs` is not among the source files.
      -- The per-type tick rules of §4.6, acting through `set_node`;
      -- running a node's tick clears its `pending_tick`.
      match s.nodes.get? node_id with
      | none => none
      | some node =>
        let s := writeNode s node_id { node with pending_tick := 255 }
        match node.ty with
        | .Repeater _ _ =>
          if node.locked then some s
          else if node.powered && !get_bool_input node then
            exec fuel (.set priority node_id false 0) s
          else if !node.powered then
            exec fuel (.set priority node_id true 15) s
          else some s
        | .Torch =>
          let should_off := get_bool_input node
          if node.powered && should_off then
            exec fuel (.set priority node_id false 0) s
          else if !node.powered && !should_off then
            exec fuel (.set priority node_id true 15) s
          else some s
        | .Comparator mode _ _ =>
          let (inp, sid) := get_all_input node
          let out := calculate_comparator_output mode inp sid
          if out != node.output_power || decide (0 < out) != node.powered then
            exec fuel (.set priority node_id (decide (0 < out)) out) s
          else some s
        | .Lamp =>
          if node.powered && !get_bool_input node then
            exec fuel (.set priority node_id false 0) s
          else some s
        | .Button =>
          if node.powered then
            exec fuel (.set priority node_id false 0) s
          else some s
        | .NoteBlock noteblock_id =>
          some { s with events := s.events ++ [noteblock_id] }
        | _ => some s
    | .tick =>
      let t := (s.groups.tick + 1) % 16
      let s := { s with groups := { s.groups with tick := t } }
      exec fuel (.tickGroups (List.range s.groups.groups.length)) s
    | .tickGroups [] => some s
    | .tickGroups (g :: gs) =>
      match s.groups.groups.get? g with
      | none => none
      | some grp =>
        -- `queues_this_tick`: take the current slot, leaving it empty.
        let slot := s.groups.tick % 16
        let lanes := grp.scheduler.getD slot emptyQueues
        let grp' := { grp with scheduler := grp.scheduler.set slot emptyQueues }
        let s := { s with groups :=
          { s.groups with groups := s.groups.groups.set g grp' } }
        exec fuel (.tickLanes g 0 lanes gs)
          s
    | .tickLanes g _ [] gs =>
      let s := finishGroup s g
      exec fuel (.tickGroups gs) s
    | .tickLanes g priority (lane :: lanes) gs =>
      exec fuel (.tickLane g priority lane lanes gs) s
    | .tickLane g priority [] lanes gs =>
      exec fuel (.tickLanes g (priority + 1) lanes gs) s
    | .tickLane g priority (node_id :: lane) lanes gs =>
      match s.nodes.get? node_id with
      | none => none
      | some node =>
        let skip :=
          match node.input_group_id with
          | some ig =>
            match s.groups.groups.get? ig with
            | some igrp => igrp.tick.getD (s.groups.tick % 2) false
            | none => false
          | none => false
        let step :=
          if skip then some s
          else exec fuel (.tickN priority g node_id) s
        match step with
        | none => none
        | some s => exec fuel (.tickLane g priority lane lanes gs) s

/-! ### `compile.rs`: grouping, node lowering, tick scheduling -/

/-- State of the group-discovery loop of `compile`
(`compile.rs` lines 168–215): the `visited` array, the flat
`node_to_group` assignment, the discovery order `nodeids`, the group
ranges, and the global `processed` cursor of the inner `while`. -/
structure GroupingState where
  visited : List Bool
  node_to_group : List Nat
  nodeids : List Nat
  groups : List (Nat × Nat)
  processed : Nat
deriving DecidableEq, Repr

/-- Body of the inner `while`: expand `nodeids[idx]` through each
outgoing edge to its target, then back through each of the target's
incoming edges, pushing every unvisited source. -/
def expandNode (g : CompileGraph) (st : GroupingState) (idx : Nat) : GroupingState :=
  let nodeid := st.nodeids.getD idx 0
  (g.edges_out nodeid).foldl
    (fun st eOut =>
      (g.edges_in eOut.target).foldl
        (fun st eIn =>
          let input := eIn.source
          if st.visited.getD input false then st
          else { st with
            visited := st.visited.set input true
            nodeids := st.nodeids ++ [input] })
        st)
    st

/-- One iteration of the seed loop of `compile`: skip absent or
visited nodes; otherwise open a new group, push the seed, run the
inner `while` — whose bound is `node_to_group.len()`, the number of
nodes of all *previous* groups, so the seed itself is expanded only
during the *next* group's iteration — then resize `node_to_group` and
record the group range. -/
def groupingStep (g : CompileGraph) (st : GroupingState) (nodeid : Nat) : GroupingState :=
  if ¬g.contains_node nodeid ∨ st.visited.getD nodeid false then st
  else
    let group_index := st.groups.length
    let group_start := st.node_to_group.length
    let st := { st with
      visited := st.visited.set nodeid true
      nodeids := st.nodeids ++ [nodeid] }
    let bound := st.node_to_group.length
    let st := (List.range' st.processed (bound - st.processed)).foldl (expandNode g) st
    let st := { st with processed := bound }
    let st := { st with
      node_to_group := st.node_to_group ++
        List.replicate (st.nodeids.length - st.node_to_group.length) group_index }
    { st with groups := st.groups ++ [(group_start, st.node_to_group.length)] }

/-- The whole group discovery of `compile`. -/
def runGrouping (g : CompileGraph) : GroupingState :=
  (List.range g.node_bound).foldl (groupingStep g)
    { visited := List.replicate g.node_bound false
      node_to_group := []
      nodeids := []
      groups := []
      processed := 0 }

/-- Constructor tag of a node type (`std::mem::discriminant`). -/
def tyDiscriminant : CNodeType → Nat
  | .Repeater _ _ => 0
  | .Torch => 1
  | .Comparator _ _ _ => 2
  | .Lamp => 3
  | .Button => 4
  | .Lever => 5
  | .PressurePlate => 6
  | .Trapdoor => 7
  | .Wire => 8
  | .Constant => 9
  | .NoteBlock _ _ => 10

/-- Insert into a key-sorted list after every element of `≤` key
(stable insertion). -/
def insertSorted {α : Type} (key : α → Nat) (x : α) : List α → List α
  | [] => [x]
  | y :: ys => if key y ≤ key x then y :: insertSorted key x ys else x :: y :: ys

/-- Stable sort by key: extensionally the `sorted_by_key` of
`compile_node` (itertools' sort is stable, so any stable sort produces
the same list). -/
def sortByKey {α : Type} (key : α → Nat) (l : List α) : List α :=
  l.foldl (fun acc x => insertSorted key x acc) []

/-- Stable grouping by key in first-encounter order: a deterministic
stand-in for `into_group_map_by(..).into_values().flatten()`, whose
hash-map ordering only determines the multiset of links. -/
def upsertGroup {α : Type} (k : Nat) (x : α) :
    List (Nat × List α) → List (Nat × List α)
  | [] => [(k, [x])]
  | (k', xs) :: rest =>
    if k' = k then (k', xs ++ [x]) :: rest else (k', xs) :: upsertGroup k x rest

def groupByKey {α : Type} (key : α → Nat) (l : List α) : List α :=
  ((l.foldl (fun acc x => upsertGroup (key x) x acc) []).map (·.2)).flatten

/-- Build one 16-bucket histogram from the incoming edges of one link
type: bucket index is `source.output_strength.saturating_sub(ss)`
(the checked array index panics — `none` — if it is `≥ 16`, and the
`MAX_INPUTS = 255` guard panics on a 256th input). -/
def buildHist (g : CompileGraph) (edges : List CEdge) : Option (List Int) :=
  if 256 ≤ edges.length then none
  else
    edges.foldlM
      (fun counts e => do
        let src ← g.node? e.source
        let ss := src.state.output_strength - e.weight.ss
        if ss < 16 then pure (counts.set ss (counts.getD ss 0 + 1)) else none)
      (List.replicate 16 (0 : Int))

/-- `compile_node`: lower one compile node to a backend node.  Returns
`none` on any panicking path (missing map entries, too many inputs, a
histogram bucket out of range, a `NonMaxU8` far input of 255, a note
block without a block position).  `nb` is the running
`noteblock_info.len()`. -/
def compile_node (g : CompileGraph) (nodeids node_to_group : List Nat)
    (nodes_len : Nat) (node_idx node_index nb : Nat) : Option (SNode × Nat) := do
  let node ← g.node? node_idx
  let nodes_map := fun i => (nodeids.findIdx? (· = i))
  let input_group_id ←
    match (g.edges_in node_idx).getLast? with
    | none => pure none
    | some e => do
      let bid ← nodes_map e.source
      pure (some (node_to_group.getD bid 0))
  let defaults ← buildHist g ((g.edges_in node_idx).filter (·.weight.ty = LinkType.Default))
  let sides ← buildHist g ((g.edges_in node_idx).filter (·.weight.ty = LinkType.Side))
  let updates ←
    if node.ty = .Constant then pure []
    else do
      let targeted ← (g.edges_out node_idx).mapM (fun e => do
        let bid ← nodes_map e.target
        let tnode ← g.node? e.target
        pure (e, bid, tnode.ty))
      let sorted := sortByKey (fun a => a.2.1) targeted
      let grouped := groupByKey (fun x => tyDiscriminant x.2.2) sorted
      grouped.mapM (fun (e, bid, _) =>
        if bid < nodes_len then
          pure (⟨bid, e.weight.ty = LinkType.Side, e.weight.ss⟩ : ForwardLink)
        else none)
  let ty ←
    match node.ty with
    | .Repeater delay fd => pure (TNodeType.Repeater delay fd)
    | .Torch => pure .Torch
    | .Comparator mode far fd =>
      match far with
      | some v => if v = 255 then none else pure (TNodeType.Comparator mode (some v) fd)
      | none => pure (TNodeType.Comparator mode none fd)
    | .Lamp => pure .Lamp
    | .Button => pure .Button
    | .Lever => pure .Lever
    | .PressurePlate => pure .PressurePlate
    | .Trapdoor => pure .Trapdoor
    | .Wire => pure .Wire
    | .Constant => pure .Constant
    | .NoteBlock _ _ => do
      let _ ← node.block
      pure (TNodeType.NoteBlock nb)
  let nb' := if let CNodeType.NoteBlock _ _ := node.ty then nb + 1 else nb
  pure
    ({ ty := ty
       default_inputs := ⟨defaults⟩
       side_inputs := ⟨sides⟩
       updates := updates
       powered := node.state.powered
       output_power := node.state.output_strength
       locked := node.state.repeater_locked
       pending_tick := 255
       pending_tick_priority := 3
       changed := false
       is_io := node.is_input || node.is_output
       group_id := node_to_group.getD node_index 0
       input_group_id := input_group_id }, nb')

structure TickEntry where
  pos : Nat
  ticks_left : Nat
  tick_priority : Nat
deriving DecidableEq, Repr

/-- The `compile` entry point of the threaded backend: group
discovery, per-node lowering, the position map, and scheduling of the
carried-over world ticks (which also sets `pending_tick` on the node,
and group flag `tick[0]` when `ticks_left == 1`). -/
def compileB (g : CompileGraph) (ticks : List TickEntry) : Option Backend := do
  let st := runGrouping g
  let nodes_len := st.nodeids.length
  let (nodes, _) ← st.nodeids.enum.foldlM
    (fun (acc : List SNode × Nat) (p : Nat × Nat) => do
      let (n, nb') ← compile_node g st.nodeids st.node_to_group nodes_len p.2 p.1 acc.2
      pure (acc.1 ++ [n], nb'))
    ([], 0)
  let groups := st.groups.map fun r =>
    ({ nodes_start := r.1
       nodes_end := r.2
       scheduler := List.replicate 16 emptyQueues
       tick := [false, false] } : Group)
  let blocks := st.nodeids.map fun idx => (g.node? idx).bind (·.block)
  -- `pos_map.insert` overwrites, so a position resolves to the last
  -- backend id carrying it.
  let posToNode := fun (pos : Nat) =>
    ((blocks.enum.filter (fun p => p.2 = some pos)).getLast?).map (·.1)
  let s0 : Backend := { nodes := nodes, groups := { groups := groups, tick := 0 }, events := [] }
  ticks.foldlM
    (fun s entry =>
      match posToNode entry.pos with
      | none => some s
      | some node_id => do
        let groupid := st.node_to_group.getD node_id 0
        let grp ← s.groups.groups.get? groupid
        let (sched, slot) := schedule_tick_sched grp.scheduler s.groups.tick node_id
          entry.ticks_left entry.tick_priority
        let grp := { grp with scheduler := sched }
        let grp := if entry.ticks_left = 1 then { grp with tick := grp.tick.set 0 true } else grp
        let node ← s.nodes.get? node_id
        pure { s with
          groups := { s.groups with groups := s.groups.groups.set groupid grp }
          nodes := s.nodes.set node_id { node with pending_tick := slot } })
    s0

/-- The states of the threaded backend the claims quantify over: the
result of `compile`, closed under `set_node` (with a signal strength
`≤ 15` — the source's safety comment "signal strength is never larger
than 15"), `tick_node`, and `tick`, each with any fuel that lets the
call complete. -/
inductive Reachable (g : CompileGraph) (ticks : List TickEntry) : Backend → Prop where
  | base (s : Backend) :
      compileB g ticks = some s → Reachable g ticks s
  | set (fuel priority node_id : Nat) (powered : Bool) (new_power : Nat)
      (s s' : Backend) : Reachable g ticks s → new_power ≤ 15 →
      (∀ n, s.nodes.get? node_id = some n → n.ty ≠ .Constant) →
      exec fuel (.set priority node_id powered new_power) s = some s' →
      Reachable g ticks s'
  | tickN (fuel priority group_id node_id : Nat) (s s' : Backend) :
      Reachable g ticks s →
      exec fuel (.tickN priority group_id node_id) s = some s' →
      Reachable g ticks s'
  | tick (fuel : Nat) (s s' : Backend) : Reachable g ticks s →
      exec fuel .tick s = some s' → Reachable g ticks s'

/-! ### Observers for the histogram invariant -/

/-- Histogram bucket `b` of node `t`'s `Side`/`Default` input. -/
def histVal (s : Backend) (t : Nat) (sd : Bool) (b : Nat) : Int :=
  match s.nodes.get? t with
  | some n => (if sd then n.side_inputs else n.default_inputs).ss_counts.getD b 0
  | none => 0

/-- The current output power of backend node `i`. -/
def outputOf (s : Backend) (i : Nat) : Nat :=
  ((s.nodes.get? i).map (·.output_power)).getD 0

/-- The static edge list of the simulator, in backend ids: every edge
of the compile graph, translated through the discovery order of
`compile`'s grouping (so it includes the edges out of `Constant`
nodes, which `compile_node` does not register as `updates` but whose
contributions sit in every histogram). -/
def staticEdges (g : CompileGraph) : List (Nat × Nat × Bool × Nat) :=
  let nodeids := (runGrouping g).nodeids
  g.edges.filterMap (fun e =>
    match nodeids.findIdx? (· = e.source), nodeids.findIdx? (· = e.target) with
    | some sb, some tb => some (sb, tb, e.weight.ty = LinkType.Side, e.weight.ss)
    | _, _ => none)

/-- How many edges of `E` deliver signal strength `b` to `(t, sd)`
under the output assignment `out` (saturating subtraction of the edge
distance). -/
def countDelE (E : List (Nat × Nat × Bool × Nat)) (out : Nat → Nat)
    (t : Nat) (sd : Bool) (b : Nat) : Nat :=
  E.countP (fun e => e.2.1 == t && e.2.2.1 == sd && (out e.1 - e.2.2.2 == b))

/-- The in-degree of `(t, sd)` in the static edge list. -/
def inDegreeE (E : List (Nat × Nat × Bool × Nat)) (t : Nat) (sd : Bool) : Nat :=
  E.countP (fun e => e.2.1 == t && e.2.2.1 == sd)

/-- Group `gid`'s flag `tick[(current_tick + 1) % 2]`. -/
def flagNext (s : Backend) (gid : Nat) : Bool :=
  ((s.groups.groups.getD gid
    ⟨0, 0, [], []⟩).tick).getD ((s.groups.tick + 1) % 2) false

/-- Is group `gid`'s wheel slot `(current_tick + 1) % 16` — the
next-tick slot — non-empty in some priority lane? -/
def nextSlotNonempty (s : Backend) (gid : Nat) : Bool :=
  (((s.groups.groups.getD gid ⟨0, 0, [], []⟩).scheduler.getD
    ((s.groups.tick + 1) % 16) emptyQueues).any (fun q => !q.isEmpty))

/-! ### The histogram-defect invariant: auxiliary definitions -/

/-- Count of forward links to `(t, sd)` whose distance satisfies `f`. -/
def cntL (L : List ForwardLink) (t : Nat) (sd : Bool) (f : Nat → Bool) : Nat :=
  L.countP (fun l => l.node == t && l.side == sd && f l.ss)

/-- Count of static edges from `id` to `(t, sd)` whose distance
satisfies `f`. -/
def cntE (E : List (Nat × Nat × Bool × Nat)) (id t : Nat) (sd : Bool) (f : Nat → Bool) : Nat :=
  E.countP (fun e => e.1 == id && e.2.1 == t && e.2.2.1 == sd && f e.2.2.2)

/-- The histogram defect: stored bucket value minus the number of
static edges currently delivering that strength. -/
def defect (g : CompileGraph) (s : Backend) (t : Nat) (sd : Bool) (b : Nat) : Int :=
  histVal s t sd b - (countDelE (staticEdges g) (outputOf s) t sd b : Int)

/-- How far an operation's histograms are allowed to move: a pending
`setLoop` still owes the move of its remaining links' contributions
from the `old` to the `new` power buckets; every other operation is
defect-neutral. -/
def opDelta : Op → Nat → Bool → Nat → Int
  | .setLoop _ _ old new rest, t, sd, b =>
    (cntL rest t sd (fun ss => new - ss == b) : Int) -
      (cntL rest t sd (fun ss => old - ss == b) : Int)
  | _, _, _, _ => 0

/-- Operation precondition: `set` carries the "never larger than 15"
safety contract and never targets a `Constant`; a pending `setLoop`
additionally knows its captured powers deliver in-range buckets. -/
def Pre (_g : CompileGraph) : Op → Backend → Prop
  | .set _ id _ np, s => np ≤ 15 ∧ (∀ n, s.nodes.get? id = some n → n.ty ≠ .Constant)
  | .setLoop _ _ old new rest, _ => new ≤ 15 ∧ (∀ l ∈ rest, old - l.ss < 16)
  | _, _ => True

/-- The structural facts every reachable state keeps: 16-entry
histograms, in-range delivered strengths, and agreement of each
non-`Constant` node's `updates` multiset with its static out-edges. -/
def Aux (g : CompileGraph) (s : Backend) : Prop :=
  (∀ id n, s.nodes.get? id = some n →
    n.default_inputs.ss_counts.length = 16 ∧ n.side_inputs.ss_counts.length = 16) ∧
  (∀ e ∈ staticEdges g, outputOf s e.1 - e.2.2.2 < 16) ∧
  (∀ id n, s.nodes.get? id = some n → n.ty ≠ .Constant →
    ∀ t sd f, cntL n.updates t sd f = cntE (staticEdges g) id t sd f)

/-- The simulation-relevant projection of a backend node: everything
except scheduling state and the `powered`/`changed`/`locked` flags. -/
def core (n : SNode) : TNodeType × NodeInput × NodeInput × List ForwardLink × Nat :=
  (n.ty, n.default_inputs, n.side_inputs, n.updates, n.output_power)

/-- Two states agree on every node's simulation-relevant fields. -/
def coreEq (s s' : Backend) : Prop :=
  ∀ t, (s'.nodes.get? t).map core = (s.nodes.get? t).map core

/-- Output strength of graph node `i` (the lowered node's initial
`output_power`). -/
def gOut (g : CompileGraph) (i : Nat) : Nat :=
  ((g.node? i).map (·.state.output_strength)).getD 0

/-- Invariant of `compile`'s group-discovery state: `visited` has the
node-bound length, in-range discovered ids are exactly the visited
ones, and the discovery order is duplicate-free unless some pushed
index was out of range (which makes compilation fail later). -/
def GInv (g : CompileGraph) (st : GroupingState) : Prop :=
  st.visited.length = g.node_bound ∧
  (∀ j ∈ st.nodeids, j < g.node_bound → st.visited.getD j false = true) ∧
  (∀ j, j < g.node_bound → st.visited.getD j false = true → j ∈ st.nodeids) ∧
  (st.nodeids.Nodup ∨ ∃ j ∈ st.nodeids, g.node_bound ≤ j)

/-- A state transformation made of conditional discovery pushes:
preserves the grouping invariant and only grows `nodeids`. -/
def GPres (g : CompileGraph) (st st' : GroupingState) : Prop :=
  (GInv g st → GInv g st') ∧ (∀ x ∈ st.nodeids, x ∈ st'.nodeids)

end Threaded

/-! ## petaig AIG builder and AIG lowering (stage A)
Embedded from `crates/aigrs/src/networks/petaig/mod.rs` and
`crates/redpiler/src/backend/aig/passes/contruct.rs`.  The petgraph
`StableDiGraph` is modelled as a node-weight list (indices are
allocation order; stage A never removes) plus an edge list
`(source, target, sign)`. -/

namespace Petaig

inductive AigNodeTy where
  | And
  | Input
  | Output
  | Latch
  | LocalInput
  | ConstFalse
deriving DecidableEq, Repr

/-- `AigLit(index, sign)`. -/
structure AigLit where
  index : Nat
  sign : Bool
deriving DecidableEq, Repr

/-- `Not for AigLit`. -/
def AigLit.notL (l : AigLit) : AigLit := ⟨l.index, !l.sign⟩

/-- `AigLit::xor(bool)` (flip the sign when the flag is set). -/
def AigLit.xorb (l : AigLit) (b : Bool) : AigLit := ⟨l.index, l.sign.xor b⟩

structure Aig where
  g_nodes : List AigNodeTy
  g_edges : List (Nat × Nat × Bool)
  f : Nat
deriving DecidableEq, Repr

namespace Aig

/-- `Aig::new()`: one `False` node at index 0. -/
def new : Aig := ⟨[.ConstFalse], [], 0⟩

def add_node (a : Aig) (ty : AigNodeTy) : Aig × Nat :=
  ({ a with g_nodes := a.g_nodes ++ [ty] }, a.g_nodes.length)

def add_edge (a : Aig) (s t : Nat) (w : Bool) : Aig :=
  { a with g_edges := a.g_edges ++ [(s, t, w)] }

def c (a : Aig) (sign : Bool) : AigLit := ⟨a.f, sign⟩

def fLit (a : Aig) : AigLit := a.c false

def input (a : Aig) : Aig × AigLit :=
  let (a, i) := a.add_node .Input
  (a, ⟨i, false⟩)

def output (a : Aig) (l : AigLit) : Aig :=
  let (a, o) := a.add_node .Output
  a.add_edge l.index o l.sign

/-- `local_input()`: a placeholder node (`Node`, whose literal has
sign `false`). -/
def local_input (a : Aig) : Aig × Nat :=
  let (a, i) := a.add_node .LocalInput
  (a, i)

/-- `latch()`: `(NextState, state literal)` on one fresh node. -/
def latch (a : Aig) : Aig × Nat × AigLit :=
  let (a, n) := a.add_node .Latch
  (a, n, ⟨n, false⟩)

def connect_drain (a : Aig) (drain : Nat) (l : AigLit) : Aig :=
  a.add_edge l.index drain l.sign

def latch2 (a : Aig) (l : AigLit) : Aig × AigLit :=
  let (a, next_state, state) := a.latch
  (a.connect_drain next_state l, state)

def andx (a : Aig) (x y : AigLit) (inv : Bool) : Aig × AigLit :=
  let (a, n) := a.add_node .And
  let a := a.add_edge x.index n x.sign
  let a := a.add_edge y.index n y.sign
  (a, ⟨n, inv⟩)

def andL (a : Aig) (x y : AigLit) : Aig × AigLit := a.andx x y false

def orL (a : Aig) (x y : AigLit) : Aig × AigLit :=
  let (a, l) := a.andL x.notL y.notL
  (a, l.notL)

def mux (a : Aig) (m t f : AigLit) : Aig × AigLit :=
  let (a, t') := a.andL m t
  let (a, f') := a.andL m.notL f
  a.orL t' f'

/-- `ors(inputs)`: balanced OR tree (`f()` for an empty slice). -/
def ors (a : Aig) (inputs : List AigLit) : Aig × AigLit :=
  match h : inputs with
  | [] => (a, a.fLit)
  | [x] => (a, x)
  | _ :: _ :: _ =>
    let left := a.ors (inputs.take (inputs.length / 2))
    let right := left.1.ors (inputs.drop (inputs.length / 2))
    right.1.orL left.2 right.2
termination_by inputs.length
decreasing_by
  · simp only [List.length_take, h, List.length_cons]
    omega
  · simp only [List.length_drop, h, List.length_cons]
    omega

end Aig

/-- Stage-A input slots (`contruct.rs::Input`). -/
inductive Input' where
  | none
  | Binary (n : Nat)
  | Hex (ns : List Nat)
deriving DecidableEq, Repr

/-- Stage-A output shapes (`contruct.rs::DOutput`). -/
inductive DOutput where
  | none
  | Binary (l : AigLit)
  | Hex (ls : List AigLit)
deriving DecidableEq, Repr

structure Data where
  default_input : Input'
  side_input : Input'
  output : DOutput
deriving DecidableEq, Repr

def Data.inputD (output : AigLit) : Data := ⟨.none, .none, .Binary output⟩

def Data.outputD (default_input : Nat) : Data := ⟨.Binary default_input, .none, .none⟩

def Data.unary (default_input : Nat) (output : AigLit) : Data :=
  ⟨.Binary default_input, .none, .Binary output⟩

/-- The state threaded through stage A of `ConstructAig::compile`. -/
structure StageAState where
  aig : Aig
  node_map : List (Nat × Data)
  input_to_pos : List Nat
  output_to_pos : List Nat
  input_state : List Bool
  output_state : List Bool
deriving DecidableEq, Repr

/-- How stage A aborts: `todo!("output state and pos map")` at the end
of the `Wire` arm, or the `todo!()` of an input/output node without a
block position.  The abort carries the state built so far, so the
construction done before the panic can be observed (a Rust panic
carries none, but discards the state just the same). -/
inductive ConstructAbort where
  | todoWire (st : StageAState)
  | todoBlock (idx : Nat)
deriving DecidableEq, Repr

/-- Allocate `n` local inputs (`[(); 15].map(|_| aig.local_input())`). -/
def localInputs (a : Aig) (n : Nat) : Aig × List Nat :=
  (List.range n).foldl
    (fun (acc : Aig × List Nat) _ =>
      let (a, i) := acc.1.local_input
      (a, acc.2 ++ [i]))
    (a, [])

/-- Stage-A lowering of one compile node
(`contruct.rs` lines 105–321). -/
def constructNode (g : CompileGraph) (st : StageAState) (index : Nat)
    (node : CompileNode) : Except ConstructAbort StageAState := do
  let a := st.aig
  match node.ty with
  | .Repeater delay _ =>
    let powered := node.state.powered
    let locking := (g.edges_in index).any (fun e => e.weight.ty = LinkType.Side)
    let (a, default_input) := a.local_input
    let i0 : AigLit := ⟨default_input, false⟩
    let latch_powered := powered
    let (a, latch_start, latch_end0) := a.latch
    let step := (List.range' 1 (delay - 1)).foldl
      (fun (acc : Aig × AigLit) _ =>
        let (a, le) := acc
        let (a, next_state, state) := a.latch
        let a := a.connect_drain next_state (le.xorb latch_powered)
        (a, state.xorb latch_powered))
      (a, latch_end0)
    let a := step.1
    let latch_end := step.2
    let output := latch_end
    let (a, i0, side_input) :=
      if locking then
        let (a, side) := a.local_input
        let (a, i0') := a.mux ⟨side, false⟩ latch_end i0
        (a, i0', Input'.Binary side)
      else (a, i0, Input'.none)
    -- `no_pulse_extension = true`: always the simple drain connection.
    let a := a.connect_drain latch_start (i0.xorb latch_powered)
    pure { st with
      aig := a
      node_map := st.node_map ++
        [(index, ⟨.Binary default_input, side_input, .Binary output⟩)] }
  | .Torch =>
    let lit := node.state.powered
    let (a, default_input) := a.local_input
    let (a, state) := a.latch2 (AigLit.mk default_input (!lit))
    let output := (state.xorb (!lit)).notL
    pure { st with
      aig := a
      node_map := st.node_map ++ [(index, Data.unary default_input output)] }
  | .Comparator mode far_input _ =>
    let (a, default_inputs) := localInputs a 15
    let (a, side_inputs) := localInputs a 15
    let outputs : List (List AigLit) := List.replicate 15 []
    let (a, outputs, start) :=
      match far_input with
      | some far =>
        if 0 < far then
          let far := far - 1
          match mode with
          | .Compare =>
            let signal := (AigLit.mk (default_inputs.getD 14 0) false).notL
            let (a, block) := a.ors ((side_inputs.drop (far + 1)).map (⟨·, false⟩))
            let (a, gate) := a.andL signal block.notL
            (a, outputs.set far (outputs.getD far [] ++ [gate]), 14)
          | .Subtract =>
            let signal := (AigLit.mk (default_inputs.getD 14 0) false).notL
            let acc := (List.range far).foldl
              (fun (acc : Aig × List (List AigLit)) power_on_sides =>
                let (a, outs) := acc
                let block : AigLit := ⟨side_inputs.getD power_on_sides 0, false⟩
                let (a, gate) := a.andL signal block.notL
                (a, outs.set (far - power_on_sides)
                  (outs.getD (far - power_on_sides) [] ++ [gate])))
              (a, outputs)
            (acc.1, acc.2, 14)
        else (a, outputs, 14)
      | none => (a, outputs, 0)
    let acc := (List.range' start (15 - start)).foldl
      (fun (acc : Aig × List (List AigLit)) input_strength =>
        let (a, outs) := acc
        match mode with
        | .Compare =>
          let signal : AigLit := ⟨default_inputs.getD input_strength 0, false⟩
          let (a, block) := a.ors ((side_inputs.drop (input_strength + 1)).map (⟨·, false⟩))
          let (a, gate) := a.andL signal block.notL
          (a, outs.set input_strength (outs.getD input_strength [] ++ [gate]))
        | .Subtract =>
          let signal : AigLit := ⟨default_inputs.getD input_strength 0, false⟩
          (List.range input_strength).foldl
            (fun (acc : Aig × List (List AigLit)) power_on_sides =>
              let (a, outs) := acc
              let block : AigLit := ⟨side_inputs.getD power_on_sides 0, false⟩
              let (a, gate) := a.andL signal block.notL
              (a, outs.set (input_strength - power_on_sides)
                (outs.getD (input_strength - power_on_sides) [] ++ [gate])))
            (a, outs))
      (a, outputs)
    let (a, outLits) := acc.2.foldl
      (fun (acc : Aig × List AigLit) lits =>
        let (a, orLit) := acc.1.ors lits
        let (a, state) := a.latch2 orLit
        (a, acc.2 ++ [state]))
      (acc.1, [])
    pure { st with
      aig := a
      node_map := st.node_map ++
        [(index, ⟨.Hex default_inputs, .Hex side_inputs, .Hex outLits⟩)] }
  | .Lamp =>
    let (a, default_input) := a.local_input
    let a := a.output ⟨default_input, false⟩
    let st := { st with
      aig := a
      node_map := st.node_map ++ [(index, Data.outputD default_input)]
      output_state := st.output_state ++ [node.state.powered] }
    match node.block with
    | none => throw (.todoBlock index)
    | some pos => pure { st with output_to_pos := st.output_to_pos ++ [pos] }
  | .Button =>
    let (a, l) := a.input
    let st := { st with
      aig := a
      node_map := st.node_map ++ [(index, Data.inputD l)]
      input_state := st.input_state ++ [node.state.powered] }
    match node.block with
    | none => throw (.todoBlock index)
    | some pos => pure { st with input_to_pos := st.input_to_pos ++ [pos] }
  | .Lever =>
    let (a, l) := a.input
    let st := { st with
      aig := a
      node_map := st.node_map ++ [(index, Data.inputD l)]
      input_state := st.input_state ++ [node.state.powered] }
    match node.block with
    | none => throw (.todoBlock index)
    | some pos => pure { st with input_to_pos := st.input_to_pos ++ [pos] }
  | .PressurePlate =>
    let (a, l) := a.input
    let st := { st with
      aig := a
      node_map := st.node_map ++ [(index, Data.inputD l)]
      input_state := st.input_state ++ [node.state.powered] }
    match node.block with
    | none => throw (.todoBlock index)
    | some pos => pure { st with input_to_pos := st.input_to_pos ++ [pos] }
  | .Trapdoor =>
    let (a, default_input) := a.local_input
    let a := a.output ⟨default_input, false⟩
    let st := { st with
      aig := a
      node_map := st.node_map ++ [(index, Data.outputD default_input)]
      output_state := st.output_state ++ [node.state.powered] }
    match node.block with
    | none => throw (.todoBlock index)
    | some pos => pure { st with output_to_pos := st.output_to_pos ++ [pos] }
  | .Wire =>
    let (a, default_inputs) := localInputs a 15
    let a := default_inputs.foldl (fun a i => a.output ⟨i, false⟩) a
    let st := { st with
      aig := a
      node_map := st.node_map ++ [(index, ⟨.Hex default_inputs, .none, .none⟩)] }
    throw (.todoWire st)
  | .Constant =>
    pure { st with
      node_map := st.node_map ++
        [(index, Data.inputD (a.c (decide (0 < node.state.output_strength))))] }
  | .NoteBlock _ _ =>
    let (a, default_input) := a.local_input
    let a := a.output ⟨default_input, false⟩
    let st := { st with
      aig := a
      node_map := st.node_map ++ [(index, Data.outputD default_input)]
      output_state := st.output_state ++ [node.state.powered] }
    match node.block with
    | none => throw (.todoBlock index)
    | some pos => pure { st with output_to_pos := st.output_to_pos ++ [pos] }

/-- Stage A of `ConstructAig::compile`: walk the live nodes in index
order, building each node's gates and placeholders. -/
def constructStageA (g : CompileGraph) : Except ConstructAbort StageAState :=
  (List.range g.node_bound).foldlM
    (fun st i =>
      match g.node? i with
      | none => pure st
      | some node => constructNode g st i node)
    { aig := Aig.new
      node_map := []
      input_to_pos := []
      output_to_pos := []
      input_state := []
      output_state := [] }

end Petaig

/-! ## Concrete inputs used to settle the claims -/

/-- Decimal ASCII rendering of a natural number (fuel-bounded; `n`
itself dominates the number of digits). -/
def decimalDigitsGo : Nat → Nat → List Nat
  | 0, n => [48 + n % 10]
  | fuel + 1, n =>
    if n < 10 then [48 + n] else decimalDigitsGo fuel (n / 10) ++ [48 + n % 10]

def decimalDigits (n : Nat) : List Nat := decimalDigitsGo n n

/-- The bytes of a well-formed header line `aig M I L O A`
(single spaces, canonical decimals, no trailing newline). -/
def mkHeaderBytes (m i l o a : Nat) : List Nat :=
  aigMagic ++ [32] ++ decimalDigits m ++ [32] ++ decimalDigits i ++ [32] ++
    decimalDigits l ++ [32] ++ decimalDigits o ++ [32] ++ decimalDigits a

/-- Bytes of `xyz 0`, whose leading token is not `aig`. -/
def c5BadMagicBytes : List Nat := [120, 121, 122, 32, 48]

/-- A compile node with the given type and fields (helper for the
example graphs; the state's `repeater_locked` is false and unspecified
fields default to off/none). -/
def mkCN (ty : CNodeType) (out : Nat) (inp outp : Bool) (poss : Nat)
    (blk : Option Nat := none) : CompileNode :=
  { ty := ty
    block := blk
    state := { powered := 0 < out, repeater_locked := false, output_strength := out }
    is_input := inp
    is_output := outp
    possible_outputs := poss }

/-- Two disjoint `lever → torch → lamp` chains (spec §8 scenario 6). -/
def c1TwoChains : CompileGraph :=
  { nodes :=
      [some (mkCN .Lever 0 true false 0x8001),
       some (mkCN .Torch 15 false false 0x8001),
       some (mkCN .Lamp 0 false true 0x8001),
       some (mkCN .Lever 0 true false 0x8001),
       some (mkCN .Torch 15 false false 0x8001),
       some (mkCN .Lamp 0 false true 0x8001)]
    edges :=
      [⟨0, 1, ⟨.Default, 0⟩⟩, ⟨1, 2, ⟨.Default, 0⟩⟩,
       ⟨3, 4, ⟨.Default, 0⟩⟩, ⟨4, 5, ⟨.Default, 0⟩⟩] }

/-- Two levers (`0` and `2`) sharing the output-target lamp `1`. -/
def c1Diamond : CompileGraph :=
  { nodes :=
      [some (mkCN .Lever 0 true false 0x8001),
       some (mkCN .Lamp 0 false true 0x8001),
       some (mkCN .Lever 0 true false 0x8001)]
    edges := [⟨0, 1, ⟨.Default, 0⟩⟩, ⟨2, 1, ⟨.Default, 0⟩⟩] }

/-- The group id `compile`'s grouping assigns to compile node `i`. -/
def groupOfCompileIdx (st : Threaded.GroupingState) (i : Nat) : Nat :=
  st.node_to_group.getD ((st.nodeids.findIdx? (· = i)).getD 0) 0

/-- Two sources with `possible_outputs = {0}` and `{1}` feeding a
torch: the second source can never deliver strength 0. -/
def c3Graph : CompileGraph :=
  { nodes :=
      [some (mkCN .Lever 0 true false 1),
       some (mkCN .Lever 1 true false 2),
       some (mkCN .Torch 15 false false 0xffff)]
    edges := [⟨0, 2, ⟨.Default, 0⟩⟩, ⟨1, 2, ⟨.Default, 0⟩⟩] }

/-- One `Wire` node (stage-A lowering input). -/
def c6WireGraph : CompileGraph :=
  { nodes := [some (mkCN .Wire 0 false false 0xffff)], edges := [] }

/-- The stage-A state at the `Wire` arm's `todo!`: the constant-false
node, 15 local inputs, and 15 primary outputs wired one-to-one. -/
def c6ExpectedAig : Petaig.Aig :=
  { g_nodes := [.ConstFalse] ++ List.replicate 15 .LocalInput ++ List.replicate 15 .Output
    g_edges := (List.range 15).map (fun i => (i + 1, i + 16, false))
    f := 0 }

/-- A lone delay-1 repeater with a block position, to carry a world
tick into the backend. -/
def c8Graph : CompileGraph :=
  { nodes := [some (mkCN (.Repeater 1 false) 0 false false 0x8001 (some 7))], edges := [] }

def c8Ticks : List Threaded.TickEntry := [⟨7, 2, 3⟩]

/-- A `Constant(15)` feeding a lamp: `compile_node` registers no
`updates` for the constant, so its histogram contribution is frozen. -/
def c7CxGraph : CompileGraph :=
  { nodes :=
      [some (mkCN .Constant 15 false false 0x8000),
       some (mkCN .Lamp 0 false true 0x8001)]
    edges := [⟨0, 1, ⟨.Default, 0⟩⟩] }

/-- A lever feeding a removable torch whose `possible_outputs` is the
singleton `{0}`, the torch feeding a lamp at edge distance 0: folding
gives the out-edge distance `0 + 15 - 0 = 15`, which `coalesce`
drops. -/
def c9Graph : CompileGraph :=
  { nodes :=
      [some (mkCN .Lever 15 true false 0x8000),
       some (mkCN .Torch 0 false false 1),
       some (mkCN .Lamp 0 false true 1)]
    edges := [⟨0, 1, ⟨.Default, 0⟩⟩, ⟨1, 2, ⟨.Default, 0⟩⟩] }

/-- A lever feeding a removable torch of constant `possible_outputs`
`{15}`, the torch feeding a lamp: the fold's redirected edge has
distance `0 + 15 - 15 = 0` and survives. -/
def c9WGraph : CompileGraph :=
  { nodes :=
      [some (mkCN .Lever 15 true false 0x8000),
       some (mkCN .Torch 15 false false 0x8000),
       some (mkCN .Lamp 0 false true 0x8001)]
    edges := [⟨0, 1, ⟨.Default, 0⟩⟩, ⟨1, 2, ⟨.Default, 0⟩⟩] }

/-- The compiled backend state of `c7CxGraph` (no carried-over world
ticks). -/
def c7Base : Threaded.Backend := (Threaded.compileB c7CxGraph []).getD ⟨[], ⟨[], 0⟩, []⟩

/-!
# Theorems

Shared helper lemmas first, then one theorem (with witness or
counterexample where required) per claim.
-/

/-- A 16-bit value and its 16-bit complement share no set bit. -/
theorem land_compl16 (a : Nat) (ha : a < 2 ^ 16) : a &&& (0xffff - a) = 0 := by
  have h : (0xffff : Nat) - a = 2 ^ 16 - (a + 1) := by omega
  rw [h]
  apply Nat.eq_of_testBit_eq
  intro i
  rw [Nat.testBit_and, Nat.testBit_two_pow_sub_succ ha, Nat.zero_testBit]
  cases h' : a.testBit i <;> simp [h']

/-! ### C2 — comparator output -/

/-- **C2, counterexample.**  The claim says Compare mode returns `d`
only when `d > s` and `0` otherwise; at `d = s = 1` the code returns
`1`, not `0`. -/
theorem C2_compare_counterexample :
    calculate_comparator_output ComparatorMode.Compare 1 1 ≠ 0 ∧ ¬ ((1 : Nat) > 1) := by
  decide

/-- **C2, amended.**  For signal strengths `d, s ≤ 15`,
`calculate_comparator_output` returns, in Compare mode, `d` when
`d ≥ s` (not `d > s`) and `0` otherwise, and in Subtract mode
`max(d − s, 0)` (truncated subtraction). -/
theorem C2_comparator_outputs (d s : Nat) (hd : d ≤ 15) (hs : s ≤ 15) :
    calculate_comparator_output .Compare d s = (if s ≤ d then d else 0) ∧
    calculate_comparator_output .Subtract d s = d - s := by
  have h8 : s % 2 ^ 8 = s := Nat.mod_eq_of_lt (by omega)
  have e8 : (2 : Nat) ^ 8 = 256 := by norm_num
  refine ⟨?_, ?_⟩ <;>
    · simp only [calculate_comparator_output, h8, e8]
      split <;> (try split) <;> omega

/-- **C2, witness.** -/
theorem C2_comparator_outputs_witness :
    calculate_comparator_output .Compare 3 2 = (if 2 ≤ 3 then 3 else 0) ∧
    calculate_comparator_output .Subtract 3 2 = 3 - 2 :=
  C2_comparator_outputs 3 2 (by decide) (by decide)

/-! ### C3 — NarrowOutputs input combination -/

/-- **C3, counterexample.**  In `calc_possible_inputs`, combining a
`{0}` source with a `{1}` source yields a Default set containing
strength 0 even though the `{1}` contribution cannot deliver 0 — so
the combination is not `dust_or` (which yields `{1}` here) and does
not preserve "contains 0 only when both contain 0". -/
theorem C3_dust_or_counterexample :
    PossibleSS.contains (calc_possible_inputs c3Graph 2).1 0 = true ∧
    PossibleSS.contains (remove_ss (c3Graph.possOf 1) 0) 0 = false ∧
    (calc_possible_inputs c3Graph 2).1 ≠
      dust_or (remove_ss (c3Graph.possOf 0) 0) (remove_ss (c3Graph.possOf 1) 0) := by
  decide

/-- **C3, amended.**  `calc_possible_inputs` combines same-type
contributions with `or_possible`, and `or_possible` is the plain
bitwise OR: its `a & (u16::MAX - a)` "lowest set bit" is identically
zero, so both masks wrap to `0xffff` and mask nothing.  In particular
the combined set contains strength 0 exactly when either operand
does. -/
theorem C3_or_possible_is_or (a b : Nat) (ha : a < 2 ^ 16) (hb : b < 2 ^ 16) :
    or_possible a b = a ||| b ∧
    PossibleSS.contains (or_possible a b) 0 =
      (PossibleSS.contains a 0 || PossibleSS.contains b 0) := by
  have h1 : or_possible a b = a ||| b := by
    simp only [or_possible, land_compl16 a ha, land_compl16 b hb]
    norm_num
    have hor : a ||| b < 2 ^ 16 := Nat.or_lt_two_pow ha hb
    have h65535 : (65535 : Nat) = 2 ^ 16 - 1 := by norm_num
    rw [h65535, Nat.and_pow_two_sub_one_of_lt_two_pow hor,
      Nat.and_pow_two_sub_one_of_lt_two_pow hor]
  refine ⟨h1, ?_⟩
  rw [h1]
  have e1 : (1 : Nat) <<< 0 = 1 := rfl
  simp only [PossibleSS.contains, e1, Nat.and_one_is_mod]
  have hor2 := Nat.or_mod_two_eq_one (a := a) (b := b)
  rcases Nat.mod_two_eq_zero_or_one a with h2 | h2 <;>
    rcases Nat.mod_two_eq_zero_or_one b with h3 | h3 <;>
      simp [h2, h3] at hor2 ⊢ <;> omega

/-- **C3, witness.** -/
theorem C3_or_possible_is_or_witness :
    or_possible 1 2 = 1 ||| 2 ∧
    PossibleSS.contains (or_possible 1 2) 0 =
      (PossibleSS.contains 1 0 || PossibleSS.contains 2 0) :=
  C3_or_possible_is_or 1 2 (by decide) (by decide)

/-! ### C10 — `is_constant` / `get_constant` on at-most-singleton sets -/

/-- **C10.**  A `PossibleSS` with at most one set bit (the empty set
included) is `is_constant`, and `get_constant` returns
`some (max_ss v)`; in particular `get_constant EMPTY = some 0`, the
same answer as for the constant-0 singleton, so `EMPTY` is
indistinguishable from `{0}` at this interface (and is folded as the
constant 0 by `ConstantFold2`, which reads only `get_constant`). -/
theorem C10_get_constant (v : Nat) (h : popCount v ≤ 1) :
    PossibleSS.is_constant v = true ∧
    PossibleSS.get_constant v = some (PossibleSS.max_ss v) ∧
    PossibleSS.get_constant PossibleSS.EMPTY = some 0 ∧
    PossibleSS.get_constant PossibleSS.EMPTY = PossibleSS.get_constant (PossibleSS.constant 0) := by
  have h1 : PossibleSS.is_constant v = true := by
    simp [PossibleSS.is_constant, h]
  refine ⟨h1, ?_, by decide, by decide⟩
  simp [PossibleSS.get_constant, h1]

/-! ### C4 — VarInt round-trip -/

theorem shiftRight7 (x : Nat) : x >>> 7 = x / 128 := by
  rw [Nat.shiftRight_eq_div_pow]

/-- Recombining the low 7-bit group with the rest: the disjoint-range
OR is addition. -/
theorem seven_bit_split (x i : Nat) :
    (x % 128) <<< (i * 7) ||| (x >>> 7) <<< ((i + 1) * 7) = x <<< (i * 7) := by
  have e : (i + 1) * 7 = i * 7 + 7 := by ring
  rw [shiftRight7, e, Nat.shiftLeft_eq, Nat.shiftLeft_eq, Nat.shiftLeft_eq]
  have epow : (2 : Nat) ^ (i * 7 + 7) = 2 ^ (i * 7) * 128 := by rw [pow_add]; norm_num
  have hb : x % 128 * 2 ^ (i * 7) < 2 ^ (i * 7 + 7) := by
    rw [epow]
    have hm : x % 128 < 128 := Nat.mod_lt _ (by norm_num)
    have hp : 0 < (2 : Nat) ^ (i * 7) := Nat.pos_pow_of_pos _ (by norm_num)
    calc x % 128 * 2 ^ (i * 7) < 128 * 2 ^ (i * 7) := by
          exact mul_lt_mul_of_pos_right hm hp
      _ ≤ 2 ^ (i * 7) * 128 := by rw [Nat.mul_comm]
  have key := Nat.mul_add_lt_is_or hb (x / 128)
  have lhs : 2 ^ (i * 7 + 7) * (x / 128) + x % 128 * 2 ^ (i * 7) = x * 2 ^ (i * 7) := by
    have hdm : 128 * (x / 128) + x % 128 = x := Nat.div_add_mod x 128
    calc 2 ^ (i * 7 + 7) * (x / 128) + x % 128 * 2 ^ (i * 7)
        = 2 ^ (i * 7) * (128 * (x / 128) + x % 128) := by rw [epow]; ring
      _ = x * 2 ^ (i * 7) := by rw [hdm, Nat.mul_comm]
  rw [← lhs, key, Nat.or_comm, Nat.mul_comm (x / 128) (2 ^ (i * 7 + 7))]

theorem write_var_int_go_zero (fuel : Nat) : write_var_int_go fuel 0 = [] := by
  cases fuel <;> simp [write_var_int_go]

theorem mod128_and : ∀ y : Nat, y &&& 127 = y % 128 := by
  intro y
  have h : (127 : Nat) = 2 ^ 7 - 1 := by norm_num
  rw [h, Nat.and_pow_two_sub_one_eq_mod]

/-- The decoder loop inverts the encoder loop, for any shift index and
accumulator. -/
theorem var_int_aux_spec (fuel : Nat) : ∀ x, 1 ≤ x → x ≤ fuel → ∀ i acc,
    Parser.var_int_aux (write_var_int_go fuel x) i acc = (acc ||| x <<< (i * 7), []) := by
  induction fuel with
  | zero => intro x h1 h2; omega
  | succ f ih =>
    intro x h1 h2 i acc
    simp only [write_var_int_go]
    rw [if_neg (by omega)]
    by_cases hx : 128 ≤ x
    · have hc : (x &&& 127) ||| (if 128 ≤ x then 128 else 0) = 128 + x % 128 := by
        rw [if_pos hx, mod128_and, Nat.or_comm]
        have hm : x % 128 < 2 ^ 7 := by omega
        have key2 := (Nat.mul_add_lt_is_or hm 1).symm
        simpa using key2
      rw [hc]
      simp only [Parser.var_int_aux]
      rw [if_neg (by omega)]
      rw [mod128_and]
      have hmod : (128 + x % 128) % 128 = x % 128 := by omega
      rw [hmod]
      have hx7 : 1 ≤ x >>> 7 := by rw [shiftRight7]; omega
      have hx7f : x >>> 7 ≤ f := by rw [shiftRight7]; omega
      rw [ih (x >>> 7) hx7 hx7f (i + 1) (acc ||| (x % 128) <<< (i * 7))]
      rw [Nat.or_assoc, seven_bit_split]
    · have hc : (x &&& 127) ||| (if 128 ≤ x then 128 else 0) = x := by
        rw [if_neg hx, mod128_and]
        simp
        omega
      rw [hc]
      have hx7 : x >>> 7 = 0 := by rw [shiftRight7]; omega
      rw [hx7, write_var_int_go_zero]
      simp only [Parser.var_int_aux]
      rw [if_pos (by omega)]
      rw [mod128_and]
      have : x % 128 = x := by omega
      rw [this]

/-- **C4, counterexample.**  The claim demands the round-trip for all
`x ∈ [0, 2^32)`; at `x = 0` the encoder emits no bytes at all, and the
decoder then returns `ueof`, not `0`. -/
theorem C4_zero_counterexample :
    write_var_int 0 = [] ∧
    Parser.var_int (Parser.new (write_var_int 0)) =
      .error (.unexpectedInput 0) := ⟨rfl, rfl⟩

/-- **C4, amended.**  For every `x ∈ [1, 2^32)` (zero excluded),
decoding the bytes `write_var_int` produces with `Parser::var_int`
yields `x` back, consuming the whole encoding. -/
theorem C4_var_int_roundtrip (x : Nat) (h1 : 1 ≤ x) (h2 : x < 2 ^ 32) :
    Parser.var_int (Parser.new (write_var_int x)) =
      .ok (x, ⟨write_var_int x, []⟩) := by
  have hgo := var_int_aux_spec x x h1 (le_refl x) 0 0
  have hne : write_var_int x ≠ [] := by
    obtain ⟨n, rfl⟩ : ∃ n, x = n + 1 := ⟨x - 1, by omega⟩
    simp only [write_var_int, write_var_int_go]
    rw [if_neg (by omega)]
    exact List.cons_ne_nil _ _
  unfold Parser.var_int Parser.new
  match hw : write_var_int x with
  | [] => exact absurd hw hne
  | c :: rest =>
    simp only []
    rw [← hw]
    rw [show Parser.var_int_aux (write_var_int x) 0 0 = (0 ||| x <<< (0 * 7), []) from hgo]
    simp

/-- **C4, witness.** -/
theorem C4_var_int_roundtrip_witness :
    Parser.var_int (Parser.new (write_var_int 300)) =
      .ok (300, ⟨write_var_int 300, []⟩) :=
  C4_var_int_roundtrip 300 (by decide) (by decide)

/-! ### C5 — AIGER header error handling -/

theorem decimalDigitsGo_ne_nil (fuel n : Nat) : decimalDigitsGo fuel n ≠ [] := by
  cases fuel with
  | zero => simp [decimalDigitsGo]
  | succ f =>
    simp only [decimalDigitsGo]
    split
    · simp
    · simp

theorem decimalDigitsGo_digits (fuel : Nat) : ∀ n, n ≤ fuel →
    ∀ c ∈ decimalDigitsGo fuel n, 48 ≤ c ∧ c ≤ 57 := by
  induction fuel with
  | zero =>
    intro n hn c hc
    simp only [decimalDigitsGo] at hc
    simp at hc
    omega
  | succ f ih =>
    intro n hn c hc
    simp only [decimalDigitsGo] at hc
    split at hc
    · rename_i h
      simp at hc
      omega
    · rename_i h
      rw [List.mem_append] at hc
      rcases hc with hc | hc
      · exact ih (n / 10) (by omega) c hc
      · simp at hc
        omega

theorem decimalDigits_digits (n : Nat) : ∀ c ∈ decimalDigits n, Parser.isDigit c = true := by
  intro c hc
  have := decimalDigitsGo_digits n n (le_refl n) c hc
  simp [Parser.isDigit]
  omega

theorem decimalDigitsGo_fold (fuel : Nat) : ∀ n, n ≤ fuel → ∀ acc,
    (decimalDigitsGo fuel n).foldl (fun a c => a * 10 + (c - 48)) acc =
      acc * 10 ^ (decimalDigitsGo fuel n).length + n := by
  induction fuel with
  | zero =>
    intro n hn acc
    simp only [decimalDigitsGo, List.foldl_cons, List.foldl_nil, List.length_cons,
      List.length_nil, pow_one]
    omega
  | succ f ih =>
    intro n hn acc
    simp only [decimalDigitsGo]
    split
    · rename_i h
      simp only [List.foldl_cons, List.foldl_nil, List.length_cons, List.length_nil, pow_one]
      omega
    · rename_i h
      rw [List.foldl_append, List.length_append]
      rw [ih (n / 10) (by omega) acc]
      simp
      rw [pow_succ]
      ring_nf
      omega

theorem takeWhile_digits (l r : List Nat) (hl : ∀ c ∈ l, Parser.isDigit c = true)
    (hr : ∀ c, r.head? = some c → Parser.isDigit c = false) :
    (l ++ r).takeWhile Parser.isDigit = l ∧ (l ++ r).dropWhile Parser.isDigit = r := by
  induction l with
  | nil =>
    simp only [List.nil_append]
    refine ⟨?_, ?_⟩
    · cases r with
      | nil => rfl
      | cons c cs =>
        rw [List.takeWhile_cons]
        rw [hr c rfl]
        rfl
    · cases r with
      | nil => rfl
      | cons c cs =>
        rw [List.dropWhile_cons]
        rw [hr c rfl]
        rfl
  | cons x xs ih =>
    have hx : Parser.isDigit x = true := hl x (by simp)
    have ihh := ih (fun c hc => hl c (by simp [hc]))
    simp only [List.cons_append, List.takeWhile_cons, List.dropWhile_cons, hx]
    simp [ihh.1, ihh.2]

theorem dropWhile_space_cons (l : List Nat) (hl : ∀ c, l.head? = some c → ¬ c = 32) :
    List.dropWhile (fun c => decide (c = 32)) (32 :: l) = l := by
  rw [List.dropWhile_cons]
  simp only [decide_eq_true_eq, if_pos rfl]
  cases l with
  | nil => rfl
  | cons c cs =>
    rw [List.dropWhile_cons]
    have hc : (decide (c = 32)) = false := decide_eq_false (hl c rfl)
    simp only [hc]
    rfl

theorem skip_spaces_space (full : List Nat) (l : List Nat)
    (hl : ∀ c, l.head? = some c → ¬ c = 32) :
    (⟨full, 32 :: l⟩ : Parser).skip_spaces = ⟨full, l⟩ := by
  show Parser.mk full (List.dropWhile (fun c => decide (c = 32)) (32 :: l)) = Parser.mk full l
  rw [dropWhile_space_cons l hl]

/-- `num` on a space, a canonical decimal, and a non-digit remainder:
returns the number and leaves the remainder. -/
theorem num_spec (n : Nat) (full r : List Nat)
    (hr : ∀ c, r.head? = some c → Parser.isDigit c = false) :
    Parser.num ⟨full, 32 :: (decimalDigits n ++ r)⟩ = .ok (n, ⟨full, r⟩) := by
  have hdig := decimalDigits_digits n
  have hne := decimalDigitsGo_ne_nil n n
  have htw := takeWhile_digits (decimalDigits n) r hdig hr
  have hsp := skip_spaces_space full (decimalDigits n ++ r) (by
    intro c hc
    cases hd : decimalDigits n with
    | nil => exact absurd hd hne
    | cons d ds =>
      rw [hd] at hc
      simp at hc
      have : Parser.isDigit d = true := hdig d (by simp [hd])
      simp [Parser.isDigit] at this
      omega)
  have hfold : (decimalDigits n).foldl (fun a c => a * 10 + (c - 48)) 0 = n := by
    have := decimalDigitsGo_fold n n (le_refl n) 0
    simpa [decimalDigits] using this
  have hie : (decimalDigits n).isEmpty = false := by
    cases hd : decimalDigits n with
    | nil => exact absurd hd hne
    | cons d ds => rfl
  unfold Parser.num
  rw [hsp]
  simp only []
  rw [htw.1, hie]
  simp only [Bool.false_eq_true, if_false]
  unfold Parser.skip_while
  rw [htw.2, hfold]

theorem text_magic (full rest : List Nat) :
    Parser.text ⟨full, 97 :: 105 :: 103 :: 32 :: rest⟩ =
      (aigMagic, ⟨full, 32 :: rest⟩) := by
  unfold Parser.text Parser.skip_while
  norm_num [List.takeWhile_cons, List.dropWhile_cons, aigMagic]

/-- `AigerHeader::p` on a well-formed header line: `ok` exactly when
`M = I + L + A`, a `ParseError` at the end-of-input offset
otherwise. -/
theorem p_header (full : List Nat) (m i l o a : Nat) :
    AigerHeader.p ⟨full, 97 :: 105 :: 103 :: 32 ::
        (decimalDigits m ++ (32 :: (decimalDigits i ++ (32 :: (decimalDigits l ++
          (32 :: (decimalDigits o ++ (32 :: (decimalDigits a ++ [])))))))))⟩ =
      (if m = i + l + a then .ok (⟨m, i, l, o, a⟩, ⟨full, []⟩)
       else .error (.headerSum (full.length - 0) m i l a)) := by
  have hnd : ∀ (x : List Nat) (c : Nat), (32 :: x).head? = some c → Parser.isDigit c = false := by
    intro x c hc
    simp at hc
    subst hc
    rfl
  have hnd0 : ∀ (c : Nat), ([] : List Nat).head? = some c → Parser.isDigit c = false := by
    intro c hc
    simp at hc
  unfold AigerHeader.p
  rw [text_magic]
  simp only [ne_eq, ite_not, if_true]
  rw [num_spec m full _ (hnd _)]
  simp only [bind, Except.bind, pure, Except.pure]
  rw [num_spec i full _ (hnd _)]
  simp only [bind, Except.bind, pure, Except.pure]
  rw [num_spec l full _ (hnd _)]
  simp only [bind, Except.bind, pure, Except.pure]
  rw [num_spec o full _ (hnd _)]
  simp only [bind, Except.bind, pure, Except.pure]
  rw [num_spec a full _ hnd0]
  simp only [bind, Except.bind, pure, Except.pure]
  split
  · simp [pure, Except.pure]
  · simp [pure, Except.pure, throw, throwThe, MonadExceptOf.throw, Parser.pos]

/-- A leading token other than `aig` makes `AigerHeader::parse` hit
the `assert_eq!` (a panic, not a returned error). -/
theorem bad_magic_spec (bytes : List Nat)
    (h : bytes.takeWhile (fun c => 32 < c) ≠ aigMagic) :
    AigerHeader.parse bytes = .error (.panicBadMagic (bytes.takeWhile (fun c => 32 < c))) := by
  unfold AigerHeader.parse AigerHeader.p Parser.new Parser.text Parser.skip_while
  simp only [ne_eq, ite_not]
  rw [if_neg (by simpa using h)]
  simp [bind, Except.bind, throw, throwThe, MonadExceptOf.throw, Except.map]

/-- **C5, counterexample.**  On input `xyz 0` (leading token not
`aig`) the parser panics via `assert_eq!` instead of returning a
`ParseError` to the caller. -/
theorem C5_bad_magic_counterexample :
    AigerHeader.parse c5BadMagicBytes = .error (.panicBadMagic [120, 121, 122]) ∧
    AigerAbort.isParseError (.panicBadMagic [120, 121, 122]) = false := ⟨rfl, rfl⟩

/-- **C5, amended.**  A leading token other than `aig` panics
(`assert_eq!`), it is not returned as a `ParseError`; a well-formed
header line `aig M I L O A` parses to the header when `M = I + L + A`
and otherwise returns a `ParseError` carrying the byte offset and the
mismatching numbers. -/
theorem C5_header_errors (bytes : List Nat) (m i l o a : Nat) :
    (bytes.takeWhile (fun c => 32 < c) ≠ aigMagic →
      AigerHeader.parse bytes = .error (.panicBadMagic (bytes.takeWhile (fun c => 32 < c)))) ∧
    (AigerHeader.parse (mkHeaderBytes m i l o a) =
      if m = i + l + a then .ok ⟨m, i, l, o, a⟩
      else .error (.headerSum (mkHeaderBytes m i l o a).length m i l a)) ∧
    AigerAbort.isParseError (.headerSum (mkHeaderBytes m i l o a).length m i l a) = true ∧
    AigerAbort.isParseError (.panicBadMagic (bytes.takeWhile (fun c => 32 < c))) = false := by
  refine ⟨bad_magic_spec bytes, ?_, rfl, rfl⟩
  have hB : mkHeaderBytes m i l o a = 97 :: 105 :: 103 :: 32 ::
      (decimalDigits m ++ (32 :: (decimalDigits i ++ (32 :: (decimalDigits l ++
        (32 :: (decimalDigits o ++ (32 :: (decimalDigits a ++ []))))))))) := by
    simp [mkHeaderBytes, aigMagic]
  rw [hB]
  unfold AigerHeader.parse Parser.new
  rw [p_header]
  split <;> simp [Except.map]

/-- **C5, witness.** -/
theorem C5_header_errors_witness :
    AigerHeader.parse [122] = .error (.panicBadMagic ([122].takeWhile (fun c => 32 < c))) ∧
    AigerHeader.parse (mkHeaderBytes 7 2 1 1 3) =
      (if 7 = 2 + 1 + 3 then .ok ⟨7, 2, 1, 1, 3⟩
       else .error (.headerSum (mkHeaderBytes 7 2 1 1 3).length 7 2 1 3)) := by
  have h := C5_header_errors [122] 7 2 1 1 3
  exact ⟨h.1 (by decide), h.2.1⟩

/-! ### C6 — Wire lowering in stage A -/

/-- **C6.**  On a compile graph holding one `Wire` node, stage A of
`ConstructAig::compile` allocates 15 local-input placeholders and
forwards each one-to-one as a primary output — and then hits
`todo!("output state and pos map")`, a panic: compilation never
completes normally.  The abort carries the state built up to the
panic, equal to the expected passthrough bus. -/
theorem C6_wire_todo :
    Petaig.constructStageA c6WireGraph =
      .error (.todoWire
        { aig := c6ExpectedAig
          node_map := [(0, ⟨.Hex [1, 2, 3, 4, 5, 6, 7, 8, 9, 10, 11, 12, 13, 14, 15],
            .none, .none⟩)]
          input_to_pos := []
          output_to_pos := []
          input_state := []
          output_state := [] }) := rfl

/-! ### C1 — threaded-backend grouping -/

/-- **C1, counterexample.**  On two disjoint `lever → torch → lamp`
chains, `compile`'s group discovery produces six groups of one node
each — not two groups of three. -/
theorem C1_two_chains_counterexample :
    (Threaded.runGrouping c1TwoChains).groups.length = 6 ∧
    (Threaded.runGrouping c1TwoChains).groups.map (fun r => r.2 - r.1) = [1, 1, 1, 1, 1, 1] := by
  decide

/-- **C1, amended.**  The group discovery of `compile` defers each
seed's expansion to the next group's iteration (its inner `while` is
bounded by `node_to_group.len()`, which does not yet count the seed),
so group `k` holds its seed plus the nodes first reached by expanding
group `k − 1` through `Outgoing`-then-`Incoming`.  Nodes sharing an
output-target can therefore land in different groups (the two levers
of `c1Diamond` share the lamp as target but get groups 0 and 1), and
two disjoint `lever → torch → lamp` chains produce six singleton
groups. -/
theorem C1_grouping_staggered :
    ((Threaded.runGrouping c1TwoChains).groups.map (fun r => r.2 - r.1) = [1, 1, 1, 1, 1, 1] ∧
      (Threaded.runGrouping c1TwoChains).node_to_group = [0, 1, 2, 3, 4, 5]) ∧
    (groupOfCompileIdx (Threaded.runGrouping c1Diamond) 0 = 0 ∧
      groupOfCompileIdx (Threaded.runGrouping c1Diamond) 2 = 1 ∧
      (c1Diamond.edges_out 0).map (·.target) = [1] ∧
      (c1Diamond.edges_out 2).map (·.target) = [1]) := by
  decide

/-! ### C8 — the next-tick flag after `tick` -/

/-- **C8.**  Evaluating the code at the failing input: compile a lone
delay-1 repeater with a world tick two ticks out (slot 2), then run
one `tick`.  The group's next-tick slot `(current_tick + 1) % 16 = 2`
still holds the queued node, but `tick[(current_tick + 1) % 2]` is
`false`: the source recomputes the flag from `next_tick =
current_tick % 16` (the `+ 1` is missing — contrast
`Groups::has_next_tick`) *after* `end_tick` has just cleared that very
slot, so the flag never reflects the next-tick slot. -/
theorem C8_flag_wrong_slot :
    ((Threaded.compileB c8Graph c8Ticks).bind (Threaded.exec 16 .tick)).map
      (fun s1 => (Threaded.flagNext s1 0, Threaded.nextSlotNonempty s1 0)) = some (false, true) := by
  decide

/-- **C10, witness.** -/
theorem C10_get_constant_witness :
    PossibleSS.is_constant 8 = true ∧
    PossibleSS.get_constant 8 = some (PossibleSS.max_ss 8) ∧
    PossibleSS.get_constant PossibleSS.EMPTY = some 0 ∧
    PossibleSS.get_constant PossibleSS.EMPTY = PossibleSS.get_constant (PossibleSS.constant 0) :=
  C10_get_constant 8 (by decide)


/-! ### C9 — ConstantFold2 -/

/-- `get_constant` only returns strengths `≤ 15`. -/
theorem get_constant_le (v k : Nat) (h : PossibleSS.get_constant v = some k) : k ≤ 15 := by
  unfold PossibleSS.get_constant at h
  split at h
  · have hmax : ∀ (l : List Nat) (acc : Nat), (∀ i ∈ l, i ≤ 15) → acc ≤ 15 →
        (l.foldl (fun acc i => if v.testBit i then i else acc) acc) ≤ 15 := by
      intro l
      induction l with
      | nil => intro acc _ hacc; simpa using hacc
      | cons x xs ih =>
        intro acc hl hacc
        simp only [List.foldl_cons]
        apply ih
        · intro i hi; exact hl i (by simp [hi])
        · split
          · exact hl x (by simp)
          · exact hacc
    have h15 := hmax (List.range 16) 0 (by intro i hi; simp at hi; omega) (by omega)
    simp only [PossibleSS.max_ss] at h
    injection h with h'
    omega
  · exact absurd h (by simp)

theorem node?_some_lt (g : CompileGraph) (j : Nat) (n : CompileNode)
    (h : g.node? j = some n) : j < g.nodes.length := by
  by_contra hge
  unfold CompileGraph.node? at h
  rw [List.getD_eq_getElem?_getD, List.getElem?_eq_none (by omega)] at h
  simp at h

/-- Edge-list shape of the add-loop inside `coalesce`. -/
theorem coalesce_fold_edges (c extra : Nat) :
    ∀ (L : List CEdge) (cur : CompileGraph),
    (L.foldl
      (fun g' e =>
        let ss := (e.weight.ss + extra) % 2 ^ 8
        if ss < 15 then g'.add_edge c e.target ⟨e.weight.ty, ss⟩ else g') cur) =
    { cur with edges := cur.edges ++ L.filterMap (fun e =>
        let ss := (e.weight.ss + extra) % 2 ^ 8
        if ss < 15 then some ⟨c, e.target, ⟨e.weight.ty, ss⟩⟩ else none) } := by
  intro L
  induction L with
  | nil => intro cur; simp
  | cons e es ih =>
    intro cur
    simp only [List.foldl_cons, List.filterMap_cons]
    split
    · rename_i hss
      rw [ih]
      simp [CompileGraph.add_edge, hss]
    · rename_i hss
      rw [ih]

theorem coalesce_spec (cur : CompileGraph) (j c extra : Nat) (hj : ¬ j = c) :
    (coalesce cur j c extra).nodes = cur.nodes.set j none ∧
    (coalesce cur j c extra).edges =
      (cur.edges ++ (cur.edges_out j).filterMap (fun e : CEdge =>
          let ss := (e.weight.ss + extra) % 2 ^ 8
          if ss < 15 then some (⟨c, e.target, ⟨e.weight.ty, ss⟩⟩ : CEdge) else none)).filter
        (fun e : CEdge => ¬(e.source = j ∨ e.target = j)) := by
  unfold coalesce
  rw [if_neg hj]
  rw [coalesce_fold_edges]
  exact ⟨rfl, rfl⟩

theorem node?_length_none (g : CompileGraph) : g.node? g.nodes.length = none := by
  unfold CompileGraph.node?
  rw [List.getD_eq_getElem?_getD, List.getElem?_eq_none (le_refl _)]
  rfl

theorem node?_set (g g' : CompileGraph) (j x : Nat)
    (h : g'.nodes = g.nodes.set j none) (hne : ¬ x = j) :
    g'.node? x = g.node? x := by
  unfold CompileGraph.node?
  rw [h, List.getD_eq_getElem?_getD, List.getElem?_set_ne (fun hh => hne hh.symm),
    ← List.getD_eq_getElem?_getD]

theorem node?_set_none (g g' : CompileGraph) (j : Nat)
    (h : g'.nodes = g.nodes.set j none) :
    g'.node? j = none := by
  unfold CompileGraph.node?
  rw [h, List.getD_eq_getElem?_getD]
  by_cases hj : j < g.nodes.length
  · rw [List.getElem?_set_self (by simpa using hj)]
    rfl
  · rw [List.getElem?_eq_none (by simp; omega)]
    rfl

theorem foldsB_some (g : CompileGraph) (j : Nat) (h : foldsB g j = true) :
    ∃ n, g.node? j = some n ∧ is_removable n = true ∧
      (PossibleSS.get_constant n.possible_outputs).isSome = true := by
  unfold foldsB at h
  cases hn : g.node? j with
  | none => rw [hn] at h; exact absurd h (by simp)
  | some n =>
    rw [hn] at h
    simp only [Bool.and_eq_true] at h
    exact ⟨n, rfl, h.1, h.2⟩

theorem cfRm_append (g : CompileGraph) (P : List Nat) (j x : Nat) :
    cfRm g (P ++ [j]) x ↔ cfRm g P x ∨ (x = j ∧ foldsB g j = true) := by
  unfold cfRm
  simp only [List.mem_append, List.mem_singleton]
  constructor
  · rintro ⟨hx | hx, hf⟩
    · exact Or.inl ⟨hx, hf⟩
    · subst hx; exact Or.inr ⟨rfl, hf⟩
  · rintro (⟨hx, hf⟩ | ⟨hx, hf⟩)
    · exact ⟨Or.inl hx, hf⟩
    · subst hx; exact ⟨Or.inr rfl, hf⟩

/-- If `j`'s folding is already accounted for, processing it again (or a
non-foldable `j`) leaves the invariant intact without touching the graph. -/
theorem cfInv_keep (g : CompileGraph) (P : List Nat) (cur : CompileGraph) (j : Nat)
    (hj : foldsB g j = true → j ∈ P)
    (h : CFInv g P cur) : CFInv g (P ++ [j]) cur := by
  obtain ⟨hA3, hA1, hA2, hB1, hB2, hB3⟩ := h
  have hRm : ∀ x, cfRm g (P ++ [j]) x ↔ cfRm g P x := by
    intro x
    rw [cfRm_append]
    constructor
    · rintro (hr | ⟨rfl, hf⟩)
      · exact hr
      · exact ⟨hj hf, hf⟩
    · exact Or.inl
  refine ⟨hA3, ?_, ?_, ?_, ?_, ?_⟩
  · intro x hx hrm
    exact hA1 x hx (fun hr => hrm ((hRm x).mpr hr))
  · intro x hrm
    exact hA2 x ((hRm x).mp hrm)
  · intro e he
    rcases hB1 e he with ⟨h1, h2, h3⟩ | ⟨h1, h2, h3⟩
    · exact Or.inl ⟨h1, fun hr => h2 ((hRm _).mp hr), fun hr => h3 ((hRm _).mp hr)⟩
    · exact Or.inr ⟨h1, fun hr => h2 ((hRm _).mp hr), h3⟩
  · intro e he h1 h2
    exact hB2 e he (fun hr => h1 ((hRm _).mpr hr)) (fun hr => h2 ((hRm _).mpr hr))
  · intro e he n k hsP hgn hrn hkn hft hlt
    rcases List.mem_append.mp hsP with hsP | hsP
    · exact hB3 e he n k hsP hgn hrn hkn hft hlt
    · have hfj : foldsB g e.source = true := by
        simp [foldsB, hgn, hrn, hkn]
      rw [List.mem_singleton] at hsP
      exact hB3 e he n k (by rw [hsP] at hfj ⊢; exact hj hfj) hgn hrn hkn hft hlt

theorem cfStep_inv (g : CompileGraph)
    (hss : ∀ e ∈ g.edges, e.weight.ss < 15)
    (P : List Nat) (cur : CompileGraph) (j : Nat)
    (h : CFInv g P cur) : CFInv g (P ++ [j]) (cfStep g.nodes.length cur j) := by
  obtain ⟨hA3, hA1, hA2, hB1, hB2, hB3⟩ := h
  by_cases hjc : j = g.nodes.length
  · have hstep : cfStep g.nodes.length cur j = cur := by
      unfold cfStep
      rw [if_pos hjc]
    rw [hstep]
    refine cfInv_keep g P cur j ?_ ⟨hA3, hA1, hA2, hB1, hB2, hB3⟩
    intro hfj
    obtain ⟨n, hn, -, -⟩ := foldsB_some g j hfj
    rw [hjc, node?_length_none] at hn
    exact absurd hn (by simp)
  cases hnj : cur.node? j with
  | none =>
    have hstep : cfStep g.nodes.length cur j = cur := by
      unfold cfStep
      rw [if_neg hjc, hnj]
    rw [hstep]
    refine cfInv_keep g P cur j ?_ ⟨hA3, hA1, hA2, hB1, hB2, hB3⟩
    intro hfj
    by_contra hmem
    have hnr : ¬ cfRm g P j := fun hr => hmem hr.1
    rw [hA1 j hjc hnr] at hnj
    obtain ⟨n, hn, -, -⟩ := foldsB_some g j hfj
    rw [hn] at hnj
    exact absurd hnj (by simp)
  | some node =>
    have hnr : ¬ cfRm g P j := by
      intro hr
      rw [hA2 j hr] at hnj
      exact absurd hnj (by simp)
    have hgj : g.node? j = some node := by rw [← hA1 j hjc hnr]; exact hnj
    by_cases hrem : is_removable node = true
    case neg =>
      simp only [Bool.not_eq_true] at hrem
      have hstep : cfStep g.nodes.length cur j = cur := by
        unfold cfStep
        rw [if_neg hjc, hnj]
        simp [hrem]
      rw [hstep]
      refine cfInv_keep g P cur j ?_ ⟨hA3, hA1, hA2, hB1, hB2, hB3⟩
      intro hfj
      obtain ⟨n, hn, hrn, -⟩ := foldsB_some g j hfj
      rw [hgj] at hn
      injection hn with hn
      rw [← hn, hrem] at hrn
      exact absurd hrn (by simp)
    case pos =>
      cases hk : PossibleSS.get_constant node.possible_outputs with
      | none =>
        have hstep : cfStep g.nodes.length cur j = cur := by
          unfold cfStep
          rw [if_neg hjc, hnj]
          simp [hrem, hk]
        rw [hstep]
        refine cfInv_keep g P cur j ?_ ⟨hA3, hA1, hA2, hB1, hB2, hB3⟩
        intro hfj
        obtain ⟨n, hn, -, hks⟩ := foldsB_some g j hfj
        rw [hgj] at hn
        injection hn with hn
        rw [← hn, hk] at hks
        exact absurd hks (by simp)
      | some k =>
        have hstep : cfStep g.nodes.length cur j =
            coalesce cur j g.nodes.length (15 - k) := by
          unfold cfStep
          rw [if_neg hjc, hnj]
          simp [hrem, hk]
        have hfj : foldsB g j = true := by
          simp [foldsB, hgj, hrem, hk]
        have hk15 : k ≤ 15 := get_constant_le _ _ hk
        rw [hstep]
        obtain ⟨hEn, hEe⟩ := coalesce_spec cur j g.nodes.length (15 - k) hjc
        have hRm : ∀ x, cfRm g (P ++ [j]) x ↔ cfRm g P x ∨ x = j := by
          intro x
          rw [cfRm_append]
          constructor
          · rintro (hr | ⟨rfl, -⟩)
            · exact Or.inl hr
            · exact Or.inr rfl
          · rintro (hr | rfl)
            · exact Or.inl hr
            · exact Or.inr ⟨rfl, hfj⟩
        have hmemE : ∀ e : CEdge, e ∈ (coalesce cur j g.nodes.length (15 - k)).edges ↔
            ((e ∈ cur.edges ∨ e ∈ (cur.edges_out j).filterMap (fun e0 : CEdge =>
              let ss := (e0.weight.ss + (15 - k)) % 2 ^ 8
              if ss < 15 then some (⟨g.nodes.length, e0.target, ⟨e0.weight.ty, ss⟩⟩ : CEdge)
              else none)) ∧ ¬(e.source = j ∨ e.target = j)) := by
          intro e
          rw [hEe, List.mem_filter, List.mem_append]
          simp only [decide_eq_true_eq]
        refine ⟨?_, ?_, ?_, ?_, ?_, ?_⟩
        · rw [node?_set cur _ j g.nodes.length hEn (fun h => hjc h.symm)]
          exact hA3
        · intro x hx hrm
          rw [hRm] at hrm
          push_neg at hrm
          rw [node?_set cur _ j x hEn hrm.2]
          exact hA1 x hx hrm.1
        · intro x hrm
          rw [hRm] at hrm
          by_cases hxj : x = j
          · rw [hxj]
            exact node?_set_none cur _ j hEn
          · have hxr : cfRm g P x := by
              rcases hrm with hr | hr
              · exact hr
              · exact absurd hr hxj
            rw [node?_set cur _ j x hEn hxj]
            exact hA2 x hxr
        · intro e he
          rw [hmemE] at he
          obtain ⟨hmem, hkeep⟩ := he
          push_neg at hkeep
          rcases hmem with hmem | hmem
          · rcases hB1 e hmem with ⟨h1, h2, h3⟩ | ⟨h1, h2, h3⟩
            · refine Or.inl ⟨h1, ?_, ?_⟩ <;> rw [hRm]
              · rintro (hr | hr)
                · exact h2 hr
                · exact hkeep.1 hr
              · rintro (hr | hr)
                · exact h3 hr
                · exact hkeep.2 hr
            · refine Or.inr ⟨h1, ?_, h3⟩
              rw [hRm]
              rintro (hr | hr)
              · exact h2 hr
              · exact hkeep.2 hr
          · rw [List.mem_filterMap] at hmem
            obtain ⟨e0, he0, hfe0⟩ := hmem
            simp only at hfe0
            split at hfe0
            case isFalse => exact absurd hfe0 (by simp)
            case isTrue hcond =>
            injection hfe0 with hfe0
            have he0c : e0 ∈ cur.edges ∧ e0.source = j := by
              unfold CompileGraph.edges_out at he0
              rw [List.mem_filter] at he0
              exact ⟨he0.1, by simpa using he0.2⟩
            have hnt0 : ¬ cfRm g P e0.target := by
              rcases hB1 e0 he0c.1 with ⟨-, -, h3⟩ | ⟨-, h3, -⟩ <;> exact h3
            refine Or.inr ⟨?_, ?_, ?_⟩
            · rw [← hfe0]
            · rw [← hfe0]
              rw [hRm]
              rintro (hr | hr)
              · exact hnt0 hr
              · rw [← hfe0] at hkeep
                exact hkeep.2 hr
            · rw [← hfe0]
              exact hcond
        · intro e he h1 h2
          rw [hRm] at h1 h2
          push_neg at h1 h2
          rw [hmemE]
          refine ⟨Or.inl (hB2 e he h1.1 h2.1), ?_⟩
          rintro (hr | hr)
          · exact h1.2 hr
          · exact h2.2 hr
        · intro e he n k0 hsP hgn hrn hkn hft hlt
          have htj : ¬ e.target = j := by
            intro h
            rw [h, hfj] at hft
            exact absurd hft (by simp)
          rw [hmemE]
          refine ⟨?_, ?_⟩
          · rcases List.mem_append.mp hsP with hsP | hsP
            · exact Or.inl (hB3 e he n k0 hsP hgn hrn hkn hft hlt)
            · rw [List.mem_singleton] at hsP
              have hnk : n = node := by
                rw [hsP, hgj] at hgn
                injection hgn with h
                exact h.symm
              have hkk : k0 = k := by
                rw [hnk, hk] at hkn
                injection hkn with h
                exact h.symm
              have hecur : e ∈ cur.edges := by
                refine hB2 e he ?_ ?_
                · rw [hsP]; exact hnr
                · intro hr
                  rw [hr.2] at hft
                  exact absurd hft (by simp)
              have heout : e ∈ cur.edges_out j := by
                unfold CompileGraph.edges_out
                rw [List.mem_filter]
                exact ⟨hecur, by simp [hsP]⟩
              refine Or.inr ?_
              rw [List.mem_filterMap]
              refine ⟨e, heout, ?_⟩
              have hess : e.weight.ss < 15 := hss e he
              have hmod : (e.weight.ss + (15 - k)) % 2 ^ 8 = e.weight.ss + 15 - k := by
                have h256 : (2 : Nat) ^ 8 = 256 := by norm_num
                rw [h256]
                omega
              simp only [hmod]
              rw [if_pos (by rw [← hkk]; exact hlt)]
              rw [hkk]
          · rintro (hr | hr)
            · exact hjc hr.symm
            · exact htj hr

theorem cf_fold_inv (g : CompileGraph)
    (hss : ∀ e ∈ g.edges, e.weight.ss < 15) :
    ∀ (L P : List Nat) (cur : CompileGraph), CFInv g P cur →
    CFInv g (P ++ L) (L.foldl (cfStep g.nodes.length) cur) := by
  intro L
  induction L with
  | nil => intro P cur h; simpa using h
  | cons j js ih =>
    intro P cur h
    have h1 := cfStep_inv g hss P cur j h
    have h2 := ih (P ++ [j]) _ h1
    simpa [List.append_assoc] using h2

theorem cf_base (g : CompileGraph) :
    CFInv g [] (g.add_node cfConstantNode).1 := by
  have hnone : ∀ x, ¬ cfRm g [] x := by
    intro x hr
    simp [cfRm] at hr
  refine ⟨?_, ?_, ?_, ?_, ?_, ?_⟩
  · show CompileGraph.node? _ _ = _
    unfold CompileGraph.node? CompileGraph.add_node
    simp only
    rw [List.getD_eq_getElem?_getD, List.getElem?_concat_length]
    rfl
  · intro x hx _
    show CompileGraph.node? _ _ = _
    unfold CompileGraph.node? CompileGraph.add_node
    simp only
    rw [List.getD_eq_getElem?_getD, List.getD_eq_getElem?_getD]
    by_cases hlt : x < g.nodes.length
    · rw [List.getElem?_append_left hlt]
    · rw [List.getElem?_eq_none (by simp; omega), List.getElem?_eq_none (by omega)]
  · intro x hr
    exact absurd hr (hnone x)
  · intro e he
    exact Or.inl ⟨he, hnone _, hnone _⟩
  · intro e he _ _
    exact he
  · intro e he n k hsP
    simp at hsP

theorem cfRm_range (g : CompileGraph) (x : Nat) :
    cfRm g (List.range (g.nodes.length + 1)) x ↔ foldsB g x = true := by
  constructor
  · exact fun h => h.2
  · intro h
    obtain ⟨n, hn, -, -⟩ := foldsB_some g x h
    exact ⟨List.mem_range.mpr (by have := node?_some_lt g x n hn; omega), h⟩

theorem constantFold2_inv (g : CompileGraph)
    (hss : ∀ e ∈ g.edges, e.weight.ss < 15) :
    CFInv g (List.range (g.nodes.length + 1)) (constantFold2 g) := by
  have hb := cf_base g
  have h := cf_fold_inv g hss
    (List.range ((g.add_node cfConstantNode).1.node_bound)) [] _ hb
  have hlen : (g.add_node cfConstantNode).1.node_bound = g.nodes.length + 1 := by
    unfold CompileGraph.add_node CompileGraph.node_bound
    simp
  rw [hlen] at h
  simpa [constantFold2, CompileGraph.add_node, CompileGraph.node_bound] using h

/-- **C9, counterexample.**  In `c9Graph` the torch (node 1, constant
`possible_outputs = {0}`) has an outgoing edge, but after
`ConstantFold2` no edge at all remains: the redirected edge's distance
`0 + 15 - 0 = 15` fails `coalesce`'s `ss < 15` guard and is dropped
(and the lever's edge into the folded torch is deleted too) — the
claim promises a redirected edge of weight `(ty, ss + 15 - k)`. -/
theorem C9_constant_fold2_counterexample :
    (constantFold2 c9Graph).edges = [] ∧ c9Graph.edges_out 1 ≠ [] := by
  decide

/-- **C9, amended.**  On a graph whose edges have distances `< 15`,
for a removable node `idx` of constant `possible_outputs = {k}`,
`ConstantFold2` adds the shared synthetic `Constant(15)` node (at
index `nodes.length`), vacates folded slots and keeps unfolded nodes
intact; every surviving edge is either an original edge between
unfolded nodes or a constant-sourced redirect of distance `< 15`;
original edges between unfolded nodes survive; and each outgoing edge
of `idx` to an unfolded target is redirected to the constant with
distance `ss + 15 - k`, but only when that distance stays below 15 —
edges into `idx`, edges whose adjusted distance reaches 15, and edges
between two folded nodes are deleted, not kept "unchanged". -/
theorem C9_constant_fold2 (g : CompileGraph) (idx k : Nat) (node : CompileNode)
    (hn : g.node? idx = some node)
    (hrem : is_removable node = true)
    (hk : PossibleSS.get_constant node.possible_outputs = some k)
    (hss : ∀ e ∈ g.edges, e.weight.ss < 15) :
    (constantFold2 g).node? g.nodes.length = some cfConstantNode ∧
    (constantFold2 g).node? idx = none ∧
    (∀ j n', g.node? j = some n' → foldsB g j = false →
      (constantFold2 g).node? j = some n') ∧
    (∀ e ∈ (constantFold2 g).edges,
      (e ∈ g.edges ∧ foldsB g e.source = false ∧ foldsB g e.target = false) ∨
      (e.source = g.nodes.length ∧ foldsB g e.target = false ∧ e.weight.ss < 15)) ∧
    (∀ e ∈ g.edges, foldsB g e.source = false → foldsB g e.target = false →
      e ∈ (constantFold2 g).edges) ∧
    (∀ e ∈ g.edges, e.source = idx → foldsB g e.target = false →
      e.weight.ss + 15 - k < 15 →
      (⟨g.nodes.length, e.target, ⟨e.weight.ty, e.weight.ss + 15 - k⟩⟩ : CEdge) ∈
        (constantFold2 g).edges) := by
  obtain ⟨hA3, hA1, hA2, hB1, hB2, hB3⟩ := constantFold2_inv g hss
  have hfidx : foldsB g idx = true := by
    simp [foldsB, hn, hrem, hk]
  have hnotf : ∀ x, foldsB g x = false → ¬ cfRm g (List.range (g.nodes.length + 1)) x := by
    intro x hx hr
    rw [(cfRm_range g x).mp hr] at hx
    exact absurd hx (by simp)
  refine ⟨hA3, ?_, ?_, ?_, ?_, ?_⟩
  · exact hA2 idx ((cfRm_range g idx).mpr hfidx)
  · intro j n' hj hfj
    have hjne : ¬ j = g.nodes.length := by
      intro h
      rw [h, node?_length_none] at hj
      exact absurd hj (by simp)
    rw [hA1 j hjne (hnotf j hfj)]
    exact hj
  · intro e he
    rcases hB1 e he with ⟨h1, h2, h3⟩ | ⟨h1, h2, h3⟩
    · refine Or.inl ⟨h1, ?_, ?_⟩
      · by_contra hx
        simp only [Bool.not_eq_false] at hx
        exact h2 ((cfRm_range g _).mpr hx)
      · by_contra hx
        simp only [Bool.not_eq_false] at hx
        exact h3 ((cfRm_range g _).mpr hx)
    · refine Or.inr ⟨h1, ?_, h3⟩
      by_contra hx
      simp only [Bool.not_eq_false] at hx
      exact h2 ((cfRm_range g _).mpr hx)
  · intro e he h1 h2
    exact hB2 e he (hnotf _ h1) (hnotf _ h2)
  · intro e he hsrc hft hlt
    have hmem : e.source ∈ List.range (g.nodes.length + 1) := by
      rw [hsrc]
      exact List.mem_range.mpr (by have := node?_some_lt g idx node hn; omega)
    exact hB3 e he node k hmem (by rw [hsrc]; exact hn) hrem hk hft hlt


/-- **C9, witness.**  Folding the constant-`{15}` torch of `c9WGraph`:
the synthetic constant appears at slot 3, the torch slot is vacated,
and its out-edge to the lamp is redirected with distance
`0 + 15 - 15 = 0`. -/
theorem C9_constant_fold2_witness :
    (constantFold2 c9WGraph).node? 3 = some cfConstantNode ∧
    (constantFold2 c9WGraph).node? 1 = none ∧
    (⟨3, 2, ⟨.Default, 0⟩⟩ : CEdge) ∈ (constantFold2 c9WGraph).edges := by
  have h := C9_constant_fold2 c9WGraph 1 15 (mkCN .Torch 15 false false 0x8000)
    (by decide) (by decide) (by decide) (by decide)
  exact ⟨h.1, h.2.1,
    h.2.2.2.2.2 ⟨1, 2, ⟨.Default, 0⟩⟩ (by decide) rfl (by decide) (by decide)⟩

/-! ### C7 — the threaded backend's histogram invariant -/

namespace Threaded

theorem coreEq_refl (s : Backend) : coreEq s s := fun _ => rfl

theorem coreEq_trans {s1 s2 s3 : Backend} (h12 : coreEq s1 s2) (h23 : coreEq s2 s3) :
    coreEq s1 s3 := fun t => (h23 t).trans (h12 t)

theorem coreEq_of_nodes_eq {s s' : Backend} (h : s'.nodes = s.nodes) : coreEq s s' := by
  intro t
  rw [h]

theorem histVal_coreEq {s s' : Backend} (h : coreEq s s') (t : Nat) (sd : Bool) (b : Nat) :
    histVal s' t sd b = histVal s t sd b := by
  unfold histVal
  have ht := h t
  cases h1 : s'.nodes.get? t with
  | none =>
    rw [h1] at ht
    cases h2 : s.nodes.get? t with
    | none => rfl
    | some n => rw [h2] at ht; exact absurd ht.symm (by simp)
  | some n =>
    rw [h1] at ht
    cases h2 : s.nodes.get? t with
    | none => rw [h2] at ht; exact absurd ht (by simp)
    | some m =>
      rw [h2] at ht
      have ht2 : some (core n) = some (core m) := ht
      injection ht2 with ht
      unfold core at ht
      have hd : n.default_inputs = m.default_inputs := congrArg (fun x => x.2.1) ht
      have hs : n.side_inputs = m.side_inputs := congrArg (fun x => x.2.2.1) ht
      cases sd
      · simp only [Bool.false_eq_true, if_false]
        rw [hd]
      · simp only [if_true]
        rw [hs]

theorem outputOf_coreEq {s s' : Backend} (h : coreEq s s') (t : Nat) :
    outputOf s' t = outputOf s t := by
  unfold outputOf
  have ht := h t
  cases h1 : s'.nodes.get? t with
  | none =>
    rw [h1] at ht
    cases h2 : s.nodes.get? t with
    | none => rfl
    | some n => rw [h2] at ht; exact absurd ht.symm (by simp)
  | some n =>
    rw [h1] at ht
    cases h2 : s.nodes.get? t with
    | none => rw [h2] at ht; exact absurd ht (by simp)
    | some m =>
      rw [h2] at ht
      have ht2 : some (core n) = some (core m) := ht
      injection ht2 with ht
      unfold core at ht
      have ho : n.output_power = m.output_power := congrArg (fun x => x.2.2.2.2) ht
      show n.output_power = m.output_power
      exact ho

theorem countDelE_congr_out (E : List (Nat × Nat × Bool × Nat)) (out out' : Nat → Nat)
    (h : ∀ i, out' i = out i) (t : Nat) (sd : Bool) (b : Nat) :
    countDelE E out' t sd b = countDelE E out t sd b := by
  unfold countDelE
  apply List.countP_congr
  intro e _
  rw [h e.1]

theorem defect_coreEq {g : CompileGraph} {s s' : Backend} (h : coreEq s s')
    (t : Nat) (sd : Bool) (b : Nat) : defect g s' t sd b = defect g s t sd b := by
  unfold defect
  rw [histVal_coreEq h, countDelE_congr_out (staticEdges g) (outputOf s) (outputOf s')
    (fun i => outputOf_coreEq h i)]

theorem Aux_coreEq {g : CompileGraph} {s s' : Backend} (h : coreEq s s')
    (hA : Aux g s) : Aux g s' := by
  obtain ⟨h1, h2, h3⟩ := hA
  refine ⟨?_, ?_, ?_⟩
  · intro id n hn
    have ht := h id
    rw [hn] at ht
    cases h2' : s.nodes.get? id with
    | none => rw [h2'] at ht; exact absurd ht (by simp)
    | some m =>
      rw [h2'] at ht
      have ht2 : some (core n) = some (core m) := ht
      injection ht2 with ht
      unfold core at ht
      have hd : n.default_inputs = m.default_inputs := congrArg (fun x => x.2.1) ht
      have hs : n.side_inputs = m.side_inputs := congrArg (fun x => x.2.2.1) ht
      rw [hd, hs]
      exact h1 id m h2'
  · intro e he
    rw [outputOf_coreEq h]
    exact h2 e he
  · intro id n hn hty t sd f
    have ht := h id
    rw [hn] at ht
    cases h2' : s.nodes.get? id with
    | none => rw [h2'] at ht; exact absurd ht (by simp)
    | some m =>
      rw [h2'] at ht
      have ht2 : some (core n) = some (core m) := ht
      injection ht2 with ht
      unfold core at ht
      have hty' : n.ty = m.ty := congrArg (fun x => x.1) ht
      have hu : n.updates = m.updates := congrArg (fun x => x.2.2.2.1) ht
      rw [hu]
      exact h3 id m h2' (by rw [← hty']; exact hty) t sd f

theorem get?_set_self' {α : Type} (l : List α) (i : Nat) (a : α) (h : i < l.length) :
    (l.set i a).get? i = some a := by
  rw [List.get?_eq_getElem?, List.getElem?_set_self h]

theorem get?_set_ne' {α : Type} (l : List α) (i t : Nat) (a : α) (h : ¬ t = i) :
    (l.set i a).get? t = l.get? t := by
  rw [List.get?_eq_getElem?, List.get?_eq_getElem?, List.getElem?_set_ne (fun e => h e.symm)]

theorem get?_some_lt' {α : Type} (l : List α) (i : Nat) (a : α) (h : l.get? i = some a) :
    i < l.length := by
  by_contra hge
  rw [List.get?_eq_getElem?, List.getElem?_eq_none (by omega)] at h
  exact absurd h (by simp)

theorem coreEq_ite {s : Backend} (b : Bool) (s1 s2 : Backend)
    (h1 : coreEq s s1) (h2 : coreEq s s2) : coreEq s (if b then s1 else s2) := by
  cases b
  · exact h2
  · exact h1

theorem coreEq_writeNode {s : Backend} {i : Nat} {n0 n : SNode}
    (h0 : s.nodes.get? i = some n0) (hc : core n = core n0) :
    coreEq s (writeNode s i n) := by
  intro t
  unfold writeNode
  by_cases ht : t = i
  · subst ht
    show (Option.map core ((s.nodes.set t n).get? t)) = _
    rw [get?_set_self' _ _ _ (get?_some_lt' _ _ _ h0), h0]
    show some (core n) = some (core n0)
    rw [hc]
  · show (Option.map core ((s.nodes.set i n).get? t)) = _
    rw [get?_set_ne' _ _ _ _ ht]

theorem coreEq_of_nodes_set {s s2 : Backend} {i : Nat} {n0 n : SNode}
    (h0 : s.nodes.get? i = some n0) (hc : core n = core n0)
    (h2 : s2.nodes = s.nodes.set i n) : coreEq s s2 := by
  intro t
  rw [h2]
  by_cases ht : t = i
  · subst ht
    rw [get?_set_self' _ _ _ (get?_some_lt' _ _ _ h0), h0]
    show some (core n) = some (core n0)
    rw [hc]
  · rw [get?_set_ne' _ _ _ _ ht]

theorem scheduleAndMark_cases (s : Backend) (id : Nat) (n : SNode) (d p : Nat) :
    (scheduleAndMark s id n d p).nodes = s.nodes ∨
    ∃ pt, (scheduleAndMark s id n d p).nodes =
      s.nodes.set id { n with pending_tick := pt, pending_tick_priority := p } := by
  simp only [scheduleAndMark]
  cases hg : s.groups.groups.get? n.group_id with
  | none => exact Or.inl rfl
  | some g => exact Or.inr ⟨_, rfl⟩

theorem coreEq_scheduleAndMark {s : Backend} {id : Nat} {n0 n : SNode}
    (h0 : s.nodes.get? id = some n0) (hc : core n = core n0)
    (delay priority : Nat) :
    coreEq s (scheduleAndMark s id n delay priority) := by
  rcases scheduleAndMark_cases s id n delay priority with h | ⟨pt, h⟩
  · exact coreEq_of_nodes_eq h
  · intro t
    rw [h]
    by_cases ht : t = id
    · subst ht
      rw [get?_set_self' _ _ _ (get?_some_lt' _ _ _ h0), h0]
      show some (core { n with pending_tick := pt, pending_tick_priority := priority }) =
        some (core n0)
      rw [show core { n with pending_tick := pt, pending_tick_priority := priority } = core n
        from rfl, hc]
    · rw [get?_set_ne' _ _ _ _ ht]

theorem coreEq_update_node (s : Backend) (id : Nat) :
    coreEq s (update_node s id) := by
  unfold update_node
  cases hn : s.nodes.get? id with
  | none => exact coreEq_refl s
  | some node =>
    obtain ⟨ty, di, si, upd, pw, op, lk, pt, ptp, ch, io, gid, igid⟩ := node
    cases ty with
    | Repeater delay fd =>
      exact coreEq_ite _ _ _
        (coreEq_scheduleAndMark hn (by split <;> rfl) _ _)
        (coreEq_writeNode hn (by split <;> rfl))
    | Torch =>
      exact coreEq_ite _ _ _ (coreEq_scheduleAndMark hn rfl _ _) (coreEq_refl s)
    | Comparator mode far fd =>
      exact coreEq_ite _ _ _ (coreEq_scheduleAndMark hn rfl _ _) (coreEq_refl s)
    | Lamp =>
      exact coreEq_ite _ _ _ (coreEq_writeNode hn rfl)
        (coreEq_ite _ _ _ (coreEq_scheduleAndMark hn rfl _ _) (coreEq_refl s))
    | Trapdoor =>
      exact coreEq_ite _ _ _ (coreEq_writeNode hn rfl) (coreEq_refl s)
    | NoteBlock nid =>
      exact coreEq_ite _ _ _ (coreEq_writeNode hn rfl) (coreEq_refl s)
    | Button => exact coreEq_refl s
    | Lever => exact coreEq_refl s
    | PressurePlate => exact coreEq_refl s
    | Wire => exact coreEq_refl s
    | Constant => exact coreEq_refl s

theorem get?_writeNode_self {s : Backend} {id : Nat} {node : SNode}
    (hn : s.nodes.get? id = some node) (n : SNode) :
    (writeNode s id n).nodes.get? id = some n := by
  unfold writeNode
  exact get?_set_self' _ _ _ (get?_some_lt' _ _ _ hn)

theorem get?_writeNode_ne (s : Backend) (id : Nat) (n : SNode) (t : Nat) (h : ¬ t = id) :
    (writeNode s id n).nodes.get? t = s.nodes.get? t := by
  unfold writeNode
  exact get?_set_ne' _ _ _ _ h

theorem outputOf_writeNode_self {s : Backend} {id : Nat} {node : SNode}
    (hn : s.nodes.get? id = some node) (n : SNode) :
    outputOf (writeNode s id n) id = n.output_power := by
  unfold outputOf
  rw [get?_writeNode_self hn]
  rfl

theorem outputOf_writeNode_ne (s : Backend) (id : Nat) (n : SNode) (t : Nat) (h : ¬ t = id) :
    outputOf (writeNode s id n) t = outputOf s t := by
  unfold outputOf
  rw [get?_writeNode_ne _ _ _ _ h]

theorem histVal_writeNode_self {s : Backend} {id : Nat} {node : SNode}
    (hn : s.nodes.get? id = some node) (n : SNode) (sd : Bool) (b : Nat) :
    histVal (writeNode s id n) id sd b =
      (if sd then n.side_inputs else n.default_inputs).ss_counts.getD b 0 := by
  unfold histVal
  rw [get?_writeNode_self hn]

theorem histVal_writeNode_ne (s : Backend) (id : Nat) (n : SNode) (t : Nat) (h : ¬ t = id)
    (sd : Bool) (b : Nat) :
    histVal (writeNode s id n) t sd b = histVal s t sd b := by
  unfold histVal
  rw [get?_writeNode_ne _ _ _ _ h]

theorem histVal_some {s : Backend} {t : Nat} {n : SNode} (hn : s.nodes.get? t = some n)
    (sd : Bool) (b : Nat) :
    histVal s t sd b = (if sd then n.side_inputs else n.default_inputs).ss_counts.getD b 0 := by
  unfold histVal
  rw [hn]

/-- Bucket formula for `adjustInput` on a 16-entry histogram. -/
theorem adjust_getD (l : List Int) (hl : l.length = 16) (op np b : Nat)
    (hop : op < 16) (hnp : np < 16) :
    (adjustInput ⟨l⟩ op np).ss_counts.getD b 0 =
      l.getD b 0 + (if b = np then 1 else 0) - (if b = op then 1 else 0) := by
  unfold adjustInput
  simp only
  have hlen1 : (l.set op (l.getD op 0 - 1)).length = 16 := by rw [List.length_set, hl]
  by_cases hbn : b = np
  · subst hbn
    rw [List.getD_eq_getElem?_getD, List.getElem?_set_self (by omega),
      Option.getD_some]
    by_cases hbo : b = op
    · subst hbo
      rw [List.getD_eq_getElem?_getD, List.getElem?_set_self (by omega), Option.getD_some]
      simp
    · rw [List.getD_eq_getElem?_getD, List.getElem?_set_ne (fun e => hbo e.symm),
        ← List.getD_eq_getElem?_getD]
      simp [hbo]
  · rw [List.getD_eq_getElem?_getD, List.getElem?_set_ne (fun e => hbn e.symm),
      ← List.getD_eq_getElem?_getD]
    by_cases hbo : b = op
    · subst hbo
      rw [List.getD_eq_getElem?_getD, List.getElem?_set_self (by omega), Option.getD_some]
      simp [hbn]
    · rw [List.getD_eq_getElem?_getD, List.getElem?_set_ne (fun e => hbo e.symm),
        ← List.getD_eq_getElem?_getD]
      simp [hbn, hbo]

theorem adjust_getD' (inp : NodeInput) (hl : inp.ss_counts.length = 16) (op np b : Nat)
    (hop : op < 16) (hnp : np < 16) :
    (adjustInput inp op np).ss_counts.getD b 0 =
      inp.ss_counts.getD b 0 + (if b = np then 1 else 0) - (if b = op then 1 else 0) := by
  obtain ⟨l⟩ := inp
  exact adjust_getD l hl op np b hop hnp

theorem adjust_length (inp : NodeInput) (op np : Nat) :
    (adjustInput inp op np).ss_counts.length = inp.ss_counts.length := by
  unfold adjustInput
  simp

/-- Swapping one node's output in the delivery count: only the edges
out of `id` move buckets. -/
theorem countDelE_set_out (E : List (Nat × Nat × Bool × Nat)) (out out' : Nat → Nat)
    (id : Nat) (h : ∀ x, ¬ x = id → out' x = out x) (t : Nat) (sd : Bool) (b : Nat) :
    countDelE E out' t sd b + cntE E id t sd (fun ss => out id - ss == b) =
    countDelE E out t sd b + cntE E id t sd (fun ss => out' id - ss == b) := by
  induction E with
  | nil => rfl
  | cons e E ih =>
    obtain ⟨s0, t0, sd0, ss0⟩ := e
    simp only [countDelE, cntE, List.countP_cons] at ih ⊢
    by_cases hid : s0 = id
    · subst hid
      simp only [beq_self_eq_true, Bool.true_and]
      omega
    · rw [h s0 hid]
      have hid' : (s0 == id) = false := by simp [hid]
      rw [hid']
      simp only [Bool.false_and, Bool.false_eq_true, if_false]
      omega

theorem Aux_write_same_links {g : CompileGraph} {s : Backend} {id : Nat} {n0 n : SNode}
    (hA : Aux g s) (hn : s.nodes.get? id = some n0)
    (hty : n.ty = n0.ty) (hupd : n.updates = n0.updates)
    (hout : n.output_power = n0.output_power)
    (hdl : n.default_inputs.ss_counts.length = 16)
    (hsl : n.side_inputs.ss_counts.length = 16) :
    Aux g (writeNode s id n) := by
  obtain ⟨h1, h2, h3⟩ := hA
  refine ⟨?_, ?_, ?_⟩
  · intro t m hm
    by_cases ht : t = id
    · subst ht
      rw [get?_writeNode_self hn] at hm
      injection hm with hm
      rw [← hm]
      exact ⟨hdl, hsl⟩
    · rw [get?_writeNode_ne _ _ _ _ ht] at hm
      exact h1 t m hm
  · intro e he
    by_cases ht : e.1 = id
    · rw [ht, outputOf_writeNode_self hn, hout]
      have := h2 e he
      rw [ht] at this
      unfold outputOf at this
      rw [hn] at this
      exact this
    · rw [outputOf_writeNode_ne _ _ _ _ ht]
      exact h2 e he
  · intro t m hm hmty ty sd f
    by_cases ht : t = id
    · subst ht
      rw [get?_writeNode_self hn] at hm
      injection hm with hm
      rw [← hm, hupd]
      exact h3 t n0 hn (by rw [← hty, hm]; exact hmty) ty sd f
    · rw [get?_writeNode_ne _ _ _ _ ht] at hm
      exact h3 t m hm hmty ty sd f

theorem Aux_out_write {g : CompileGraph} {s : Backend} {id : Nat} {node : SNode}
    (hA : Aux g s) (hn : s.nodes.get? id = some node) (np : Nat)
    (hnp : np ≤ 15) (pw : Bool) :
    Aux g (writeNode s id
      { node with changed := true, powered := pw, output_power := np }) := by
  obtain ⟨h1, h2, h3⟩ := hA
  refine ⟨?_, ?_, ?_⟩
  · intro t m hm
    by_cases ht : t = id
    · subst ht
      rw [get?_writeNode_self hn] at hm
      injection hm with hm
      rw [← hm]
      exact h1 t node hn
    · rw [get?_writeNode_ne _ _ _ _ ht] at hm
      exact h1 t m hm
  · intro e he
    by_cases ht : e.1 = id
    · rw [ht, outputOf_writeNode_self hn]
      show np - e.2.2.2 < 16
      omega
    · rw [outputOf_writeNode_ne _ _ _ _ ht]
      exact h2 e he
  · intro t m hm hmty ty sd f
    by_cases ht : t = id
    · subst ht
      rw [get?_writeNode_self hn] at hm
      injection hm with hm
      rw [← hm]
      exact h3 t node hn (by
        have : m.ty = node.ty := by rw [← hm]
        rw [← this]
        exact hmty) ty sd f
    · rw [get?_writeNode_ne _ _ _ _ ht] at hm
      exact h3 t m hm hmty ty sd f

theorem outputOf_out_write_pt {s : Backend} {id : Nat} {node : SNode}
    (hn : s.nodes.get? id = some node) (np : Nat) (pw : Bool) (x : Nat) (hx : ¬ x = id) :
    outputOf (writeNode s id
      { node with changed := true, powered := pw, output_power := np }) x = outputOf s x :=
  outputOf_writeNode_ne _ _ _ _ hx

theorem defect_out_write {g : CompileGraph} {s : Backend} {id : Nat} {node : SNode}
    (hn : s.nodes.get? id = some node) (np : Nat) (pw : Bool)
    (hLI : ∀ t sd f, cntL node.updates t sd f = cntE (staticEdges g) id t sd f)
    (t : Nat) (sd : Bool) (b : Nat) :
    defect g (writeNode s id
        { node with changed := true, powered := pw, output_power := np }) t sd b =
      defect g s t sd b
        - (cntL node.updates t sd (fun ss => np - ss == b) : Int)
        + (cntL node.updates t sd (fun ss => node.output_power - ss == b) : Int) := by
  have hhist : histVal (writeNode s id
      { node with changed := true, powered := pw, output_power := np }) t sd b =
      histVal s t sd b := by
    by_cases ht : t = id
    · subst ht
      rw [histVal_writeNode_self hn, histVal_some hn]
    · exact histVal_writeNode_ne _ _ _ _ ht _ _
  have hset := countDelE_set_out (staticEdges g) (outputOf s)
    (outputOf (writeNode s id { node with changed := true, powered := pw, output_power := np }))
    id (fun x hx => outputOf_out_write_pt hn np pw x hx) t sd b
  have hoid : outputOf s id = node.output_power := by
    unfold outputOf
    rw [hn]
    rfl
  have hoid' : outputOf (writeNode s id
      { node with changed := true, powered := pw, output_power := np }) id = np :=
    outputOf_writeNode_self hn _
  rw [hoid, hoid'] at hset
  rw [hLI t sd (fun ss => np - ss == b), hLI t sd (fun ss => node.output_power - ss == b)]
  unfold defect
  rw [hhist]
  omega

theorem cntE_pos_exists {E : List (Nat × Nat × Bool × Nat)} {id t : Nat} {sd : Bool}
    {f : Nat → Bool} (h : 0 < cntE E id t sd f) :
    ∃ e ∈ E, e.1 = id ∧ e.2.1 = t ∧ e.2.2.1 = sd ∧ f e.2.2.2 = true := by
  unfold cntE at h
  rw [List.countP_pos_iff] at h
  obtain ⟨e, he, hp⟩ := h
  simp only [Bool.and_eq_true, beq_iff_eq] at hp
  obtain ⟨⟨⟨h1', h2'⟩, h3'⟩, h4'⟩ := hp
  exact ⟨e, he, h1', h2', h3', h4'⟩

theorem cntL_mem_pos {L : List ForwardLink} {l : ForwardLink} (hl : l ∈ L) :
    0 < cntL L l.node l.side (fun ss => ss == l.ss) := by
  unfold cntL
  rw [List.countP_pos_iff]
  exact ⟨l, hl, by simp⟩

theorem last_index_positive_le (l : List Int) : last_index_positive l ≤ 15 := by
  unfold last_index_positive
  have hmax : ∀ (r : List Nat) (acc : Nat), (∀ i ∈ r, i ≤ 15) → acc ≤ 15 →
      (r.foldl (fun acc i => if l.getD i 0 ≠ 0 then i else acc) acc) ≤ 15 := by
    intro r
    induction r with
    | nil => intro acc _ hacc; simpa using hacc
    | cons x xs ih =>
      intro acc hr hacc
      simp only [List.foldl_cons]
      apply ih
      · intro i hi; exact hr i (by simp [hi])
      · split
        · exact hr x (by simp)
        · exact hacc
  exact hmax (List.range 16) 0 (by intro i hi; simp at hi; omega) (by omega)

theorem calculate_comparator_output_le (m : ComparatorMode) (d s : Nat) (hd : d ≤ 15) :
    calculate_comparator_output m d s ≤ 15 := by
  cases m
  · show (if (d + 2 ^ 8 - s % 2 ^ 8) % 2 ^ 8 ≤ 15 then d else 0) ≤ 15
    split
    all_goals omega
  · show (if (d + 2 ^ 8 - s % 2 ^ 8) % 2 ^ 8 ≤ 15
        then (d + 2 ^ 8 - s % 2 ^ 8) % 2 ^ 8 else 0) ≤ 15
    split
    all_goals omega

theorem defect_adjust_write {g : CompileGraph} {s : Backend} {tgt : Nat} {target : SNode}
    (hn : s.nodes.get? tgt = some target) (sdl : Bool) (op np : Nat)
    (hdl : target.default_inputs.ss_counts.length = 16)
    (hsl : target.side_inputs.ss_counts.length = 16)
    (hop : op < 16) (hnp : np < 16) (t : Nat) (sd : Bool) (b : Nat) :
    defect g (writeNode s tgt (if sdl then
        { target with side_inputs := adjustInput target.side_inputs op np }
      else
        { target with default_inputs := adjustInput target.default_inputs op np })) t sd b =
    defect g s t sd b + (if t = tgt ∧ sd = sdl ∧ b = np then 1 else 0)
      - (if t = tgt ∧ sd = sdl ∧ b = op then 1 else 0) := by
  have hout : ∀ x, outputOf (writeNode s tgt (if sdl then
      { target with side_inputs := adjustInput target.side_inputs op np }
    else
      { target with default_inputs := adjustInput target.default_inputs op np })) x =
      outputOf s x := by
    intro x
    by_cases hx : x = tgt
    · subst hx
      rw [outputOf_writeNode_self hn]
      cases sdl
      · show target.output_power = _
        unfold outputOf
        rw [hn]
        rfl
      · show target.output_power = _
        unfold outputOf
        rw [hn]
        rfl
    · exact outputOf_writeNode_ne _ _ _ _ hx
  have hhist : histVal (writeNode s tgt (if sdl then
      { target with side_inputs := adjustInput target.side_inputs op np }
    else
      { target with default_inputs := adjustInput target.default_inputs op np })) t sd b =
      histVal s t sd b + (if t = tgt ∧ sd = sdl ∧ b = np then 1 else 0)
        - (if t = tgt ∧ sd = sdl ∧ b = op then 1 else 0) := by
    by_cases ht : t = tgt
    · subst ht
      rw [histVal_writeNode_self hn, histVal_some hn]
      cases hsd : sd <;> cases hsdl : sdl
      · -- default, default adjust
        simp only [Bool.false_eq_true, if_false, hsd]
        show (adjustInput target.default_inputs op np).ss_counts.getD b 0 = _
        rw [adjust_getD' target.default_inputs hdl op np b hop hnp]
        simp
      · -- sd = false, side adjust: untouched
        simp only [Bool.false_eq_true, if_false]
        show target.default_inputs.ss_counts.getD b 0 = _
        simp
      · -- sd = true, default adjust: untouched
        simp only [if_true]
        show target.side_inputs.ss_counts.getD b 0 = _
        simp
      · -- side, side adjust
        simp only [if_true]
        show (adjustInput target.side_inputs op np).ss_counts.getD b 0 = _
        rw [adjust_getD' target.side_inputs hsl op np b hop hnp]
        simp
    · rw [histVal_writeNode_ne _ _ _ _ ht]
      simp [ht]
  unfold defect
  rw [countDelE_congr_out (staticEdges g) (outputOf s) _ hout, hhist]
  omega

theorem exec_set_succ (fuel p id : Nat) (pw : Bool) (np : Nat) (s : Backend) :
    exec (fuel+1) (.set p id pw np) s =
      match s.nodes.get? id with
      | none => none
      | some node =>
        exec fuel (.setLoop p id node.output_power np node.updates)
          (writeNode s id { node with changed := true, powered := pw, output_power := np }) :=
  rfl

theorem exec_setLoop_nil (fuel p id old new : Nat) (s : Backend) :
    exec (fuel+1) (.setLoop p id old new []) s = some s := rfl

theorem exec_setLoop_cons (fuel p id old new : Nat) (link : ForwardLink)
    (rest : List ForwardLink) (s : Backend) :
    exec (fuel+1) (.setLoop p id old new (link :: rest)) s =
      match s.nodes.get? id with
      | none => none
      | some node =>
        match (if (node.pending_tick == s.groups.tick &&
            decide (node.pending_tick_priority < p)) = true then
            exec fuel (.tickN node.pending_tick_priority node.group_id id) s
          else some s) with
        | none => none
        | some s1 =>
          match s1.nodes.get? link.node with
          | none => none
          | some target =>
            if old - link.ss = new - link.ss then
              exec fuel (.setLoop p id old new rest) s1
            else
              match (match (update_node (writeNode s1 link.node
                  (if link.side then
                    { target with side_inputs :=
                        adjustInput target.side_inputs (old - link.ss) (new - link.ss) }
                  else
                    { target with default_inputs :=
                        adjustInput target.default_inputs (old - link.ss) (new - link.ss) }))
                  link.node).nodes.get? id with
                | none => none
                | some node2 =>
                  if (node.pending_tick == s.groups.tick &&
                      decide (p ≤ node2.pending_tick_priority)) = true then
                    exec fuel (.tickN node2.pending_tick_priority node2.group_id id)
                      (update_node (writeNode s1 link.node
                        (if link.side then
                          { target with side_inputs :=
                              adjustInput target.side_inputs (old - link.ss) (new - link.ss) }
                        else
                          { target with default_inputs :=
                              adjustInput target.default_inputs (old - link.ss) (new - link.ss) }))
                        link.node)
                  else some (update_node (writeNode s1 link.node
                    (if link.side then
                      { target with side_inputs :=
                          adjustInput target.side_inputs (old - link.ss) (new - link.ss) }
                    else
                      { target with default_inputs :=
                          adjustInput target.default_inputs (old - link.ss) (new - link.ss) }))
                    link.node)) with
              | none => none
              | some s3 => exec fuel (.setLoop p id old new rest) s3 := rfl

theorem exec_tickN_succ (fuel p gid id : Nat) (s : Backend) :
    exec (fuel+1) (.tickN p gid id) s =
      match s.nodes.get? id with
      | none => none
      | some node =>
        match node.ty with
        | .Repeater _ _ =>
          if node.locked then some (writeNode s id { node with pending_tick := 255 })
          else if node.powered && !get_bool_input node then
            exec fuel (.set p id false 0) (writeNode s id { node with pending_tick := 255 })
          else if !node.powered then
            exec fuel (.set p id true 15) (writeNode s id { node with pending_tick := 255 })
          else some (writeNode s id { node with pending_tick := 255 })
        | .Torch =>
          if node.powered && get_bool_input node then
            exec fuel (.set p id false 0) (writeNode s id { node with pending_tick := 255 })
          else if !node.powered && !get_bool_input node then
            exec fuel (.set p id true 15) (writeNode s id { node with pending_tick := 255 })
          else some (writeNode s id { node with pending_tick := 255 })
        | .Comparator mode _ _ =>
          if (calculate_comparator_output mode (get_all_input node).1
                (get_all_input node).2 != node.output_power ||
              decide (0 < calculate_comparator_output mode (get_all_input node).1
                (get_all_input node).2) != node.powered) then
            exec fuel (.set p id
              (decide (0 < calculate_comparator_output mode (get_all_input node).1
                (get_all_input node).2))
              (calculate_comparator_output mode (get_all_input node).1 (get_all_input node).2))
              (writeNode s id { node with pending_tick := 255 })
          else some (writeNode s id { node with pending_tick := 255 })
        | .Lamp =>
          if node.powered && !get_bool_input node then
            exec fuel (.set p id false 0) (writeNode s id { node with pending_tick := 255 })
          else some (writeNode s id { node with pending_tick := 255 })
        | .Button =>
          if node.powered then
            exec fuel (.set p id false 0) (writeNode s id { node with pending_tick := 255 })
          else some (writeNode s id { node with pending_tick := 255 })
        | .NoteBlock nid =>
          some { writeNode s id { node with pending_tick := 255 } with
            events := (writeNode s id { node with pending_tick := 255 }).events ++ [nid] }
        | _ => some (writeNode s id { node with pending_tick := 255 }) := rfl

theorem exec_tick_succ (fuel : Nat) (s : Backend) :
    exec (fuel+1) .tick s =
      exec fuel (.tickGroups (List.range s.groups.groups.length))
        { s with
          groups := { s.groups with
            tick := (s.groups.tick + 1) % 16 } } := rfl

theorem exec_tickGroups_nil (fuel : Nat) (s : Backend) :
    exec (fuel+1) (.tickGroups []) s = some s := rfl

theorem exec_tickGroups_cons (fuel gg : Nat) (gs : List Nat) (s : Backend) :
    exec (fuel+1) (.tickGroups (gg :: gs)) s =
      match s.groups.groups.get? gg with
      | none => none
      | some grp =>
        exec fuel (.tickLanes gg 0 (grp.scheduler.getD (s.groups.tick % 16) emptyQueues) gs)
          { s with
            groups := { s.groups with
              groups := s.groups.groups.set gg { grp with
                scheduler := grp.scheduler.set (s.groups.tick % 16) emptyQueues } } } :=
  rfl

theorem exec_tickLanes_nil (fuel gl pr : Nat) (gs : List Nat) (s : Backend) :
    exec (fuel+1) (.tickLanes gl pr [] gs) s =
      exec fuel (.tickGroups gs) (finishGroup s gl) := rfl

theorem exec_tickLanes_cons (fuel gl pr : Nat) (lane : List Nat) (lanes : List (List Nat))
    (gs : List Nat) (s : Backend) :
    exec (fuel+1) (.tickLanes gl pr (lane :: lanes) gs) s =
      exec fuel (.tickLane gl pr lane lanes gs) s := rfl

theorem exec_tickLane_nil (fuel gl pr : Nat) (lanes : List (List Nat)) (gs : List Nat)
    (s : Backend) :
    exec (fuel+1) (.tickLane gl pr [] lanes gs) s =
      exec fuel (.tickLanes gl (pr + 1) lanes gs) s := rfl

theorem exec_tickLane_cons (fuel gl pr nid : Nat) (lane : List Nat)
    (lanes : List (List Nat)) (gs : List Nat) (s : Backend) :
    exec (fuel+1) (.tickLane gl pr (nid :: lane) lanes gs) s =
      match s.nodes.get? nid with
      | none => none
      | some node =>
        match (if (match node.input_group_id with
            | some ig =>
              match s.groups.groups.get? ig with
              | some igrp => igrp.tick.getD (s.groups.tick % 2) false
              | none => false
            | none => false) then some s
          else exec fuel (.tickN pr gl nid) s) with
        | none => none
        | some s2 => exec fuel (.tickLane gl pr lane lanes gs) s2 := rfl

theorem cntL_cons (l : ForwardLink) (L : List ForwardLink) (t : Nat) (sd : Bool)
    (f : Nat → Bool) :
    cntL (l :: L) t sd f =
      cntL L t sd f + (if (l.node == t && l.side == sd && f l.ss) = true then 1 else 0) :=
  List.countP_cons _ _ _

theorem exec_defect (g : CompileGraph) : ∀ (fuel : Nat) (op : Op) (s s' : Backend),
    exec fuel op s = some s' → Aux g s → Pre g op s →
    Aux g s' ∧ ∀ t sd b, b < 16 →
      defect g s' t sd b = defect g s t sd b + opDelta op t sd b := by
  intro fuel
  induction fuel with
  | zero =>
    intro op s s' h _ _
    exact absurd h (by simp [exec])
  | succ fuel ih =>
    intro op s s' h hA hP
    cases op with
    | set priority node_id powered new_power =>
      rw [exec_set_succ] at h
      split at h
      case h_1 => exact absurd h (by simp)
      case h_2 node hn =>
        obtain ⟨hnp, hnc⟩ := hP
        have hA1 : Aux g (writeNode s node_id
            { node with changed := true, powered := powered, output_power := new_power }) :=
          Aux_out_write hA hn new_power hnp powered
        have hold : ∀ l ∈ node.updates, node.output_power - l.ss < 16 := by
          intro l hl
          have hLI := hA.2.2 node_id node hn (hnc node hn) l.node l.side (fun ss => ss == l.ss)
          have hpos := cntL_mem_pos hl
          rw [hLI] at hpos
          obtain ⟨e, he, he1, _, _, hf⟩ := cntE_pos_exists hpos
          have hwf := hA.2.1 e he
          rw [he1] at hwf
          have hout0 : outputOf s node_id = node.output_power := by
            unfold outputOf
            rw [hn]
            rfl
          rw [hout0] at hwf
          have hss' : e.2.2.2 = l.ss := by simpa using hf
          omega
        obtain ⟨hA', hd⟩ := ih _ _ _ h hA1 ⟨hnp, hold⟩
        refine ⟨hA', ?_⟩
        intro t sd b hb
        rw [hd t sd b hb]
        have hdow := defect_out_write hn new_power powered
          (hA.2.2 node_id node hn (hnc node hn)) t sd b
        rw [hdow]
        simp only [opDelta]
        omega
    | setLoop priority node_id old_power new_power rest =>
      cases rest with
      | nil =>
        rw [exec_setLoop_nil] at h
        injection h with h
        subst h
        refine ⟨hA, ?_⟩
        intro t sd b hb
        simp [opDelta, cntL]
      | cons link rest =>
        obtain ⟨hnew, hrests⟩ := hP
        have hlink : old_power - link.ss < 16 := hrests link (by simp)
        have hrest' : ∀ l ∈ rest, old_power - l.ss < 16 :=
          fun l hl => hrests l (by simp [hl])
        rw [exec_setLoop_cons] at h
        split at h
        case h_1 => exact absurd h (by simp)
        case h_2 node hn =>
          split at h
          case h_1 => exact absurd h (by simp)
          case h_2 s1 hstep1 =>
            have h1 : Aux g s1 ∧ ∀ t sd b, b < 16 →
                defect g s1 t sd b = defect g s t sd b := by
              split at hstep1
              · obtain ⟨hA2, hd2⟩ := ih _ _ _ hstep1 hA trivial
                exact ⟨hA2, fun t sd b hb => by
                  rw [hd2 t sd b hb]
                  simp [opDelta]⟩
              · injection hstep1 with hstep1
                subst hstep1
                exact ⟨hA, fun _ _ _ _ => rfl⟩
            split at h
            case h_1 => exact absurd h (by simp)
            case h_2 target htgt =>
              split at h
              case isTrue heq =>
                obtain ⟨hA', hd⟩ := ih _ _ _ h h1.1 ⟨hnew, hrest'⟩
                refine ⟨hA', ?_⟩
                intro t sd b hb
                rw [hd t sd b hb, h1.2 t sd b hb]
                simp only [opDelta, cntL_cons]
                rw [heq]
                push_cast
                omega
              case isFalse hne =>
                have hnp : new_power - link.ss < 16 := by omega
                have hlen := h1.1.1 link.node target htgt
                have hAW : Aux g (writeNode s1 link.node
                    (if link.side then
                      { target with side_inputs := adjustInput target.side_inputs (old_power - link.ss) (new_power - link.ss) }
                    else
                      { target with default_inputs := adjustInput target.default_inputs (old_power - link.ss) (new_power - link.ss) })) := by
                  apply Aux_write_same_links h1.1 htgt
                  · split <;> rfl
                  · split <;> rfl
                  · split <;> rfl
                  · split
                    · exact hlen.1
                    · show (adjustInput target.default_inputs (old_power - link.ss)
                        (new_power - link.ss)).ss_counts.length = 16
                      rw [adjust_length]
                      exact hlen.1
                  · split
                    · show (adjustInput target.side_inputs (old_power - link.ss)
                        (new_power - link.ss)).ss_counts.length = 16
                      rw [adjust_length]
                      exact hlen.2
                    · exact hlen.2
                have hdefW := @defect_adjust_write g s1 link.node target htgt link.side
                  (old_power - link.ss) (new_power - link.ss) hlen.1 hlen.2 hlink hnp
                have hCE4 : coreEq (writeNode s1 link.node
                    (if link.side then
                      { target with side_inputs := adjustInput target.side_inputs (old_power - link.ss) (new_power - link.ss) }
                    else
                      { target with default_inputs := adjustInput target.default_inputs (old_power - link.ss) (new_power - link.ss) }))
                    (update_node (writeNode s1 link.node
                    (if link.side then
                      { target with side_inputs := adjustInput target.side_inputs (old_power - link.ss) (new_power - link.ss) }
                    else
                      { target with default_inputs := adjustInput target.default_inputs (old_power - link.ss) (new_power - link.ss) })) link.node) :=
                  coreEq_update_node _ _
                have hA4 : Aux g (update_node (writeNode s1 link.node
                    (if link.side then
                      { target with side_inputs := adjustInput target.side_inputs (old_power - link.ss) (new_power - link.ss) }
                    else
                      { target with default_inputs := adjustInput target.default_inputs (old_power - link.ss) (new_power - link.ss) })) link.node) :=
                  Aux_coreEq hCE4 hAW
                split at h
                case h_1 => exact absurd h (by simp)
                case h_2 s3 hstep2 =>
                  have hmid : Aux g s3 ∧ ∀ t sd b, b < 16 →
                      defect g s3 t sd b = defect g (update_node (writeNode s1 link.node
                        (if link.side then
                          { target with side_inputs := adjustInput target.side_inputs (old_power - link.ss) (new_power - link.ss) }
                        else
                          { target with default_inputs := adjustInput target.default_inputs (old_power - link.ss) (new_power - link.ss) }))
                        link.node) t sd b := by
                    split at hstep2
                    case h_1 => exact absurd hstep2 (by simp)
                    case h_2 node2 hn2 =>
                      split at hstep2
                      · obtain ⟨hA3, hd3⟩ := ih _ _ _ hstep2 hA4 trivial
                        exact ⟨hA3, fun t sd b hb => by
                          rw [hd3 t sd b hb]
                          simp [opDelta]⟩
                      · injection hstep2 with hstep2
                        subst hstep2
                        exact ⟨hA4, fun _ _ _ _ => rfl⟩
                  obtain ⟨hA', hd⟩ := ih _ _ _ h hmid.1 ⟨hnew, hrest'⟩
                  refine ⟨hA', ?_⟩
                  intro t sd b hb
                  rw [hd t sd b hb, hmid.2 t sd b hb, defect_coreEq hCE4,
                    hdefW t sd b, h1.2 t sd b hb]
                  simp only [opDelta, cntL_cons]
                  have hindN : (if t = link.node ∧ sd = link.side ∧
                        b = new_power - link.ss then (1:Int) else 0) =
                      (if (link.node == t && link.side == sd &&
                        (new_power - link.ss == b)) = true then (1:Int) else 0) := by
                    by_cases h1' : t = link.node
                    · subst h1'
                      by_cases h2' : sd = link.side
                      · subst h2'
                        by_cases h3' : b = new_power - link.ss
                        · subst h3'
                          simp
                        · have hcb : (new_power - link.ss == b) = false := by
                            rw [beq_eq_false_iff_ne]
                            exact fun hc => h3' hc.symm
                          simp [h3', hcb]
                      · have hf : (link.side == sd) = false := by
                          rw [beq_eq_false_iff_ne]
                          exact fun hc => h2' hc.symm
                        simp [h2', hf]
                    · have hf : (link.node == t) = false := by
                        rw [beq_eq_false_iff_ne]
                        exact fun hc => h1' hc.symm
                      simp [h1', hf]
                  have hindO : (if t = link.node ∧ sd = link.side ∧
                        b = old_power - link.ss then (1:Int) else 0) =
                      (if (link.node == t && link.side == sd &&
                        (old_power - link.ss == b)) = true then (1:Int) else 0) := by
                    by_cases h1' : t = link.node
                    · subst h1'
                      by_cases h2' : sd = link.side
                      · subst h2'
                        by_cases h3' : b = old_power - link.ss
                        · subst h3'
                          simp
                        · have hcb : (old_power - link.ss == b) = false := by
                            rw [beq_eq_false_iff_ne]
                            exact fun hc => h3' hc.symm
                          simp [h3', hcb]
                      · have hf : (link.side == sd) = false := by
                          rw [beq_eq_false_iff_ne]
                          exact fun hc => h2' hc.symm
                        simp [h2', hf]
                    · have hf : (link.node == t) = false := by
                        rw [beq_eq_false_iff_ne]
                        exact fun hc => h1' hc.symm
                      simp [h1', hf]
                  rw [hindN, hindO]
                  push_cast
                  omega
    | tickN priority group_id node_id =>
      rw [exec_tickN_succ] at h
      split at h
      case h_1 => exact absurd h (by simp)
      case h_2 node hn =>
        have hCE : coreEq s (writeNode s node_id { node with pending_tick := 255 }) :=
          coreEq_writeNode hn rfl
        have hA1 : Aux g (writeNode s node_id { node with pending_tick := 255 }) :=
          Aux_coreEq hCE hA
        have hself : (writeNode s node_id { node with pending_tick := 255 }).nodes.get?
            node_id = some { node with pending_tick := 255 } := get?_writeNode_self hn _
        have hkeep : s' = writeNode s node_id { node with pending_tick := 255 } →
            Aux g s' ∧ ∀ t sd b, b < 16 →
              defect g s' t sd b = defect g s t sd b +
                opDelta (.tickN priority group_id node_id) t sd b := by
          intro hs'
          subst hs'
          exact ⟨hA1, fun t sd b hb => by
            rw [defect_coreEq hCE]
            simp [opDelta]⟩
        have hstep : ∀ pw np, np ≤ 15 → node.ty ≠ .Constant →
            exec fuel (.set priority node_id pw np)
              (writeNode s node_id { node with pending_tick := 255 }) = some s' →
            Aux g s' ∧ ∀ t sd b, b < 16 →
              defect g s' t sd b = defect g s t sd b +
                opDelta (.tickN priority group_id node_id) t sd b := by
          intro pw np hnp hnc hx
          obtain ⟨hA', hd⟩ := ih _ _ _ hx hA1 ⟨hnp, by
            intro n1 hn1
            rw [hself] at hn1
            injection hn1 with hn1
            rw [← hn1]
            exact hnc⟩
          refine ⟨hA', ?_⟩
          intro t sd b hb
          rw [hd t sd b hb, defect_coreEq hCE]
          simp [opDelta]
        split at h
        case h_1 d fd hty =>
          split at h
          · exact hkeep (Option.some.inj h).symm
          · split at h
            · exact hstep false 0 (by omega) (by rw [hty]; nofun) h
            · split at h
              · exact hstep true 15 (by omega) (by rw [hty]; nofun) h
              · exact hkeep (Option.some.inj h).symm
        case h_2 hty =>
          split at h
          · exact hstep false 0 (by omega) (by rw [hty]; nofun) h
          · split at h
            · exact hstep true 15 (by omega) (by rw [hty]; nofun) h
            · exact hkeep (Option.some.inj h).symm
        case h_3 mode far fd hty =>
          split at h
          · exact hstep _ _ (calculate_comparator_output_le _ _ _
              (last_index_positive_le _)) (by rw [hty]; nofun) h
          · exact hkeep (Option.some.inj h).symm
        case h_4 hty =>
          split at h
          · exact hstep false 0 (by omega) (by rw [hty]; nofun) h
          · exact hkeep (Option.some.inj h).symm
        case h_5 hty =>
          split at h
          · exact hstep false 0 (by omega) (by rw [hty]; nofun) h
          · exact hkeep (Option.some.inj h).symm
        case h_6 nid hty =>
          have hs' : s' = { writeNode s node_id { node with pending_tick := 255 } with
              events := (writeNode s node_id { node with pending_tick := 255 }).events
                ++ [nid] } := (Option.some.inj h).symm
          subst hs'
          have hCE2 : coreEq s { writeNode s node_id { node with pending_tick := 255 } with
              events := (writeNode s node_id { node with pending_tick := 255 }).events
                ++ [nid] } :=
            coreEq_trans hCE (coreEq_of_nodes_eq rfl)
          exact ⟨Aux_coreEq hCE2 hA, fun t sd b hb => by
            rw [defect_coreEq hCE2]
            simp [opDelta]⟩
        case h_7 =>
          exact hkeep (Option.some.inj h).symm
    | tick =>
      rw [exec_tick_succ] at h
      have hCE : coreEq s { s with
          groups := { s.groups with
            tick := (s.groups.tick + 1) % 16 } } :=
        coreEq_of_nodes_eq rfl
      obtain ⟨hA', hd⟩ := ih _ _ _ h (Aux_coreEq hCE hA) trivial
      refine ⟨hA', ?_⟩
      intro t sd b hb
      rw [hd t sd b hb, defect_coreEq hCE]
      simp [opDelta]
    | tickGroups gs =>
      cases gs with
      | nil =>
        rw [exec_tickGroups_nil] at h
        injection h with h
        subst h
        exact ⟨hA, fun t sd b hb => by simp [opDelta]⟩
      | cons gg gs =>
        rw [exec_tickGroups_cons] at h
        split at h
        case h_1 => exact absurd h (by simp)
        case h_2 grp hg =>
          have hCE : coreEq s { s with
              groups := { s.groups with
                groups := s.groups.groups.set gg { grp with
                  scheduler := grp.scheduler.set (s.groups.tick % 16) emptyQueues } } } :=
            coreEq_of_nodes_eq rfl
          obtain ⟨hA', hd⟩ := ih _ _ _ h (Aux_coreEq hCE hA) trivial
          refine ⟨hA', ?_⟩
          intro t sd b hb
          rw [hd t sd b hb, defect_coreEq hCE]
          simp [opDelta]
    | tickLanes gl priority lanes gs =>
      cases lanes with
      | nil =>
        rw [exec_tickLanes_nil] at h
        have hCE : coreEq s (finishGroup s gl) := by
          apply coreEq_of_nodes_eq
          unfold finishGroup
          cases s.groups.groups.get? gl <;> rfl
        obtain ⟨hA', hd⟩ := ih _ _ _ h (Aux_coreEq hCE hA) trivial
        refine ⟨hA', ?_⟩
        intro t sd b hb
        rw [hd t sd b hb, defect_coreEq hCE]
        simp [opDelta]
      | cons lane lanes =>
        rw [exec_tickLanes_cons] at h
        obtain ⟨hA', hd⟩ := ih _ _ _ h hA trivial
        refine ⟨hA', ?_⟩
        intro t sd b hb
        rw [hd t sd b hb]
        simp [opDelta]
    | tickLane gl priority lane lanes gs =>
      cases lane with
      | nil =>
        rw [exec_tickLane_nil] at h
        obtain ⟨hA', hd⟩ := ih _ _ _ h hA trivial
        refine ⟨hA', ?_⟩
        intro t sd b hb
        rw [hd t sd b hb]
        simp [opDelta]
      | cons node_id lane =>
        rw [exec_tickLane_cons] at h
        split at h
        case h_1 => exact absurd h (by simp)
        case h_2 node hn =>
          split at h
          case h_1 => exact absurd h (by simp)
          case h_2 s2 hstep =>
            have hmid : Aux g s2 ∧ ∀ t sd b, b < 16 →
                defect g s2 t sd b = defect g s t sd b := by
              split at hstep
              · injection hstep with hstep
                subst hstep
                exact ⟨hA, fun t sd b hb => rfl⟩
              · obtain ⟨hA2, hd2⟩ := ih _ _ _ hstep hA trivial
                exact ⟨hA2, fun t sd b hb => by
                  rw [hd2 t sd b hb]
                  simp [opDelta]⟩
            obtain ⟨hA', hd⟩ := ih _ _ _ h hmid.1 trivial
            refine ⟨hA', ?_⟩
            intro t sd b hb
            rw [hd t sd b hb, hmid.2 t sd b hb]
            rfl

theorem buildHist_go (g : CompileGraph) :
    ∀ (L : List CEdge) (c0 h : List Int), c0.length = 16 →
    (L.foldlM
      (fun counts e => do
        let src ← g.node? e.source
        let ss := src.state.output_strength - e.weight.ss
        if ss < 16 then pure (counts.set ss (counts.getD ss 0 + 1)) else none)
      c0) = some h →
    h.length = 16 ∧
    (∀ e ∈ L, (g.node? e.source).isSome = true ∧ gOut g e.source - e.weight.ss < 16) ∧
    (∀ b, b < 16 →
      h.getD b 0 = c0.getD b 0 +
        (L.countP (fun e => gOut g e.source - e.weight.ss == b) : Int)) := by
  intro L
  induction L with
  | nil =>
    intro c0 h hlen hf
    injection hf with hf
    subst hf
    refine ⟨hlen, by simp, ?_⟩
    intro b hb
    simp [List.countP_nil]
  | cons e L ihL =>
    intro c0 h hlen hf
    rw [List.foldlM_cons] at hf
    cases hsrc : g.node? e.source with
    | none =>
      simp only [hsrc, bind, Option.bind] at hf
      exact absurd hf (by simp)
    | some src =>
      simp only [hsrc, bind, Option.bind, pure] at hf
      split at hf
      case h_1 => exact absurd hf (by simp)
      case h_2 acc1 heq =>
       split at heq
       case isFalse => exact absurd heq (by simp)
       case isTrue hlt =>
        injection heq with heq
        subst heq
        have hgOut : gOut g e.source = src.state.output_strength := by
          unfold gOut
          rw [hsrc]
          rfl
        have hlen1 : (c0.set (src.state.output_strength - e.weight.ss)
            (c0.getD (src.state.output_strength - e.weight.ss) 0 + 1)).length = 16 := by
          rw [List.length_set]
          exact hlen
        obtain ⟨h1, h2, h3⟩ := ihL _ h hlen1 hf
        refine ⟨h1, ?_, ?_⟩
        · intro e' he'
          rcases List.mem_cons.mp he' with he' | he'
          · subst he'
            exact ⟨by rw [hsrc]; rfl, by rw [hgOut]; exact hlt⟩
          · exact h2 e' he'
        · intro b hb
          rw [h3 b hb, List.countP_cons]
          by_cases hbe : src.state.output_strength - e.weight.ss = b
          · have hbeq : (gOut g e.source - e.weight.ss == b) = true := by
              rw [hgOut, hbe]
              simp
            have hpe : (if (gOut g e.source - e.weight.ss == b) = true
                then 1 else 0) = 1 := by
              rw [hbeq]
              rfl
            rw [hpe, List.getD_eq_getElem?_getD, hbe,
              List.getElem?_set_self (by rw [hlen]; omega), Option.getD_some]
            push_cast
            ring
          · have hbne : (if (gOut g e.source - e.weight.ss == b) = true
                then 1 else 0) = 0 := by
              have hf' : (gOut g e.source - e.weight.ss == b) = false := by
                rw [beq_eq_false_iff_ne, hgOut]
                exact hbe
              rw [hf']
              rfl
            rw [hbne, List.getD_eq_getElem?_getD,
              List.getElem?_set_ne hbe, ← List.getD_eq_getElem?_getD]
            push_cast
            ring

theorem buildHist_char (g : CompileGraph) (L : List CEdge) (h : List Int)
    (hb : buildHist g L = some h) :
    h.length = 16 ∧
    (∀ e ∈ L, (g.node? e.source).isSome = true ∧ gOut g e.source - e.weight.ss < 16) ∧
    (∀ b, b < 16 →
      h.getD b 0 = (L.countP (fun e => gOut g e.source - e.weight.ss == b) : Int)) := by
  unfold buildHist at hb
  split at hb
  · exact absurd hb (by simp)
  · obtain ⟨h1, h2, h3⟩ := buildHist_go g L (List.replicate 16 (0 : Int)) h (by simp) hb
    refine ⟨h1, h2, ?_⟩
    intro b hbb
    rw [h3 b hbb]
    rw [List.getD_eq_getElem?_getD, List.getElem?_replicate_of_lt (by omega)]
    simp

theorem mapM_countP {α β : Type} (f : α → Option β) :
    ∀ (l : List α) (r : List β), l.mapM f = some r →
    ∀ p : β → Bool, r.countP p =
      l.countP (fun a => ((f a).map p).getD false) := by
  intro l
  induction l with
  | nil =>
    intro r hr p
    injection hr with hr
    subst hr
    rfl
  | cons a l ihl =>
    intro r hr p
    rw [List.mapM_cons] at hr
    cases hfa : f a with
    | none =>
      rw [hfa] at hr
      exact absurd hr (by simp)
    | some b =>
      rw [hfa] at hr
      cases hl : l.mapM f with
      | none =>
        rw [hl] at hr
        exact absurd hr (by simp)
      | some r' =>
        rw [hl] at hr
        have hr' : some (b :: r') = some r := hr
        injection hr' with hr'
        subst hr'
        rw [List.countP_cons, List.countP_cons, ihl r' hl p, hfa]
        have hmb : ((some b).map p).getD false = p b := rfl
        rw [hmb]

theorem countP_insertSorted {α : Type} (key : α → Nat) (x : α) :
    ∀ (l : List α) (p : α → Bool),
    (insertSorted key x l).countP p = l.countP p + (if p x then 1 else 0) := by
  intro l
  induction l with
  | nil => intro p; simp [insertSorted, List.countP_cons]
  | cons y ys ih =>
    intro p
    unfold insertSorted
    split
    · rw [List.countP_cons, ih p, List.countP_cons]
      omega
    · rw [List.countP_cons, List.countP_cons]

theorem countP_sortByKey {α : Type} (key : α → Nat) (l : List α) (p : α → Bool) :
    (sortByKey key l).countP p = l.countP p := by
  unfold sortByKey
  suffices hgen : ∀ (l acc : List α),
      (l.foldl (fun acc x => insertSorted key x acc) acc).countP p =
        acc.countP p + l.countP p by
    rw [hgen l []]
    simp
  intro l
  induction l with
  | nil => intro acc; simp
  | cons x xs ih =>
    intro acc
    rw [List.foldl_cons, ih, countP_insertSorted, List.countP_cons]
    omega

theorem countP_upsertGroup {α : Type} (k : Nat) (x : α) (p : α → Bool) :
    ∀ (acc : List (Nat × List α)),
    (((upsertGroup k x acc).map (·.2)).flatten).countP p =
      ((acc.map (·.2)).flatten).countP p + (if p x then 1 else 0) := by
  intro acc
  induction acc with
  | nil => simp [upsertGroup, List.countP_cons]
  | cons kv rest ih =>
    obtain ⟨k', xs⟩ := kv
    unfold upsertGroup
    split
    · simp only [List.map_cons, List.flatten_cons, List.countP_append,
        List.countP_cons, List.countP_nil]
      omega
    · simp only [List.map_cons, List.flatten_cons, List.countP_append, ih]
      omega

theorem countP_groupByKey {α : Type} (key : α → Nat) (l : List α) (p : α → Bool) :
    (groupByKey key l).countP p = l.countP p := by
  unfold groupByKey
  suffices hgen : ∀ (l : List α) (acc : List (Nat × List α)),
      ((((l.foldl (fun acc x => upsertGroup (key x) x acc) acc)).map (·.2)).flatten).countP p =
        ((acc.map (·.2)).flatten).countP p + l.countP p by
    rw [hgen l []]
    simp
  intro l
  induction l with
  | nil => intro acc; simp
  | cons x xs ih =>
    intro acc
    rw [List.foldl_cons, ih, countP_upsertGroup, List.countP_cons]
    omega

theorem findIdx?_self_of_nodup {l : List Nat} (hnd : l.Nodup) (k : Nat)
    (hk : k < l.length) :
    l.findIdx? (fun x => x = l[k]) = some k := by
  have hex : ∃ x ∈ l, (fun x => decide (x = l[k])) x = true :=
    ⟨l[k], List.getElem_mem hk, by simp⟩
  rw [List.findIdx?_eq_some_of_exists hex]
  congr 1
  have hlt := List.findIdx_lt_length_of_exists hex
  have hp := @List.findIdx_getElem Nat (fun x => decide (x = l[k])) l hlt
  have heq : l[List.findIdx (fun x => decide (x = l[k])) l] = l[k] := by
    simpa using hp
  exact (List.Nodup.getElem_inj_iff hnd).mp heq

theorem GInv_push (g : CompileGraph) (st : GroupingState) (input : Nat)
    (extra1 : List Nat) (extra2 : List (Nat × Nat)) (extra3 : Nat)
    (hG : GInv g st) (hv : st.visited.getD input false = false) :
    GInv g { visited := st.visited.set input true,
             node_to_group := extra1,
             nodeids := st.nodeids ++ [input],
             groups := extra2,
             processed := extra3 } := by
  obtain ⟨hlen, hmv, hvm, hnd⟩ := hG
  refine ⟨?_, ?_, ?_, ?_⟩
  · simp only [List.length_set]
    exact hlen
  · intro j hj hjb
    rcases List.mem_append.mp hj with hj | hj
    · show (st.visited.set input true).getD j false = true
      by_cases hji : j = input
      · subst hji
        rw [List.getD_eq_getElem?_getD, List.getElem?_set_self (by omega), Option.getD_some]
      · rw [List.getD_eq_getElem?_getD, List.getElem?_set_ne (fun hc => hji hc.symm),
          ← List.getD_eq_getElem?_getD]
        exact hmv j hj hjb
    · rw [List.mem_singleton] at hj
      subst hj
      show (st.visited.set j true).getD j false = true
      rw [List.getD_eq_getElem?_getD, List.getElem?_set_self (by omega), Option.getD_some]
  · intro j hjb hjv
    by_cases hji : j = input
    · subst hji
      exact List.mem_append.mpr (Or.inr (by simp))
    · show j ∈ st.nodeids ++ [input]
      refine List.mem_append.mpr (Or.inl ?_)
      apply hvm j hjb
      rw [List.getD_eq_getElem?_getD,
        ← List.getElem?_set_ne (a := true) (fun hc => hji hc.symm) (l := st.visited)
          (i := input), ← List.getD_eq_getElem?_getD]
      exact hjv
  · by_cases hib : input < g.node_bound
    · rcases hnd with hnd | hex
      · left
        apply List.Nodup.append hnd (by simp)
        intro x hx hx'
        rw [List.mem_singleton] at hx'
        subst hx'
        rw [hmv x hx hib] at hv
        exact absurd hv (by simp)
      · right
        obtain ⟨j, hj, hjb⟩ := hex
        exact ⟨j, List.mem_append.mpr (Or.inl hj), hjb⟩
    · right
      exact ⟨input, List.mem_append.mpr (Or.inr (by simp)), by omega⟩

theorem GPres_refl (g : CompileGraph) (st : GroupingState) : GPres g st st :=
  ⟨id, fun _ hx => hx⟩

theorem GPres_trans {g : CompileGraph} {u v w : GroupingState}
    (h12 : GPres g u v) (h23 : GPres g v w) : GPres g u w :=
  ⟨fun h => h23.1 (h12.1 h), fun x hx => h23.2 x (h12.2 x hx)⟩

theorem GPres_of_fields {g : CompileGraph} {u w : GroupingState}
    (hvis : w.visited = u.visited) (hnid : w.nodeids = u.nodeids) : GPres g u w := by
  constructor
  · intro hG
    unfold GInv at hG ⊢
    rw [hvis, hnid]
    exact hG
  · intro x hx
    rw [hnid]
    exact hx

theorem GPres_foldl {g : CompileGraph} {β : Type} (f : GroupingState → β → GroupingState)
    (hf : ∀ st x, GPres g st (f st x)) :
    ∀ (l : List β) (st : GroupingState), GPres g st (l.foldl f st) := by
  intro l
  induction l with
  | nil => intro st; exact GPres_refl g st
  | cons x xs ih =>
    intro st
    rw [List.foldl_cons]
    exact GPres_trans (hf st x) (ih (f st x))

theorem GPres_expand_inner (g : CompileGraph) (st : GroupingState) (eIn : CEdge) :
    GPres g st (if st.visited.getD eIn.source false then st
      else { st with
        visited := st.visited.set eIn.source true
        nodeids := st.nodeids ++ [eIn.source] }) := by
  split
  · exact GPres_refl g st
  · rename_i hv
    simp only [Bool.not_eq_true] at hv
    constructor
    · intro hG
      exact GInv_push g st eIn.source _ _ _ hG hv
    · intro x hx
      exact List.mem_append.mpr (Or.inl hx)

theorem GPres_expandNode (g : CompileGraph) (st : GroupingState) (idx : Nat) :
    GPres g st (expandNode g st idx) := by
  unfold expandNode
  apply GPres_foldl
  intro st1 eOut
  apply GPres_foldl
  intro st2 eIn
  exact GPres_expand_inner g st2 eIn

theorem GPres_groupingStep (g : CompileGraph) (st : GroupingState) (i : Nat) :
    GPres g st (groupingStep g st i) := by
  unfold groupingStep
  split
  · exact GPres_refl g st
  · rename_i hguard
    push_neg at hguard
    have hv : st.visited.getD i false = false := by
      have := hguard.2
      simp only [Bool.not_eq_true] at this
      exact this
    have hA : GPres g st { st with
        visited := st.visited.set i true
        nodeids := st.nodeids ++ [i] } := by
      constructor
      · intro hG
        exact GInv_push g st i _ _ _ hG hv
      · intro x hx
        exact List.mem_append.mpr (Or.inl hx)
    refine GPres_trans hA ?_
    refine GPres_trans (GPres_foldl (expandNode g)
      (fun st' x => GPres_expandNode g st' x)
      (List.range' st.processed (st.node_to_group.length - st.processed))
      { st with
        visited := st.visited.set i true
        nodeids := st.nodeids ++ [i] }) ?_
    exact GPres_of_fields rfl rfl

theorem groupingStep_mem_self (g : CompileGraph) (st : GroupingState) (i : Nat)
    (hG : GInv g st) (hci : g.contains_node i = true) :
    i ∈ (groupingStep g st i).nodeids := by
  have hib : i < g.node_bound := by
    unfold CompileGraph.contains_node at hci
    cases hn : g.node? i with
    | none => rw [hn] at hci; exact absurd hci (by simp)
    | some n => exact node?_some_lt g i n hn
  unfold groupingStep
  split
  · rename_i hguard
    rcases hguard with hg | hg
    · exact absurd hci hg
    · exact hG.2.2.1 i hib hg
  · have hmemA : i ∈ ({ st with
        visited := st.visited.set i true
        nodeids := st.nodeids ++ [i] } : GroupingState).nodeids :=
      List.mem_append.mpr (Or.inr (by simp))
    have hB := (GPres_foldl (expandNode g) (fun st' x => GPres_expandNode g st' x)
      (List.range' st.processed (st.node_to_group.length - st.processed))
      { st with
        visited := st.visited.set i true
        nodeids := st.nodeids ++ [i] }).2 i hmemA
    exact (GPres_of_fields (g := g) rfl rfl).2 i hB

theorem GInv_runGrouping (g : CompileGraph) : GInv g (runGrouping g) ∧
    ∀ i, i < g.node_bound → g.contains_node i → i ∈ (runGrouping g).nodeids := by
  have hinit : GInv g
      { visited := List.replicate g.node_bound false
        node_to_group := []
        nodeids := []
        groups := []
        processed := 0 } := by
    refine ⟨by simp, by simp, ?_, Or.inl (by simp)⟩
    intro j hj hjv
    rw [List.getD_eq_getElem?_getD, List.getElem?_replicate_of_lt hj] at hjv
    exact absurd hjv (by simp)
  have hmem : ∀ (L : List Nat) (st : GroupingState), GInv g st →
      (∀ i ∈ L, g.contains_node i → i ∈ (L.foldl (groupingStep g) st).nodeids) := by
    intro L
    induction L with
    | nil =>
      intro st _ i hi
      exact absurd hi (by simp)
    | cons j js ih =>
      intro st hG i hi hci
      rw [List.foldl_cons]
      rcases List.mem_cons.mp hi with hi | hi
      · subst hi
        exact (GPres_foldl (groupingStep g) (fun st' x => GPres_groupingStep g st' x)
          js (groupingStep g st i)).2 i (groupingStep_mem_self g st i hG hci)
      · exact ih (groupingStep g st j) ((GPres_groupingStep g st j).1 hG) i hi hci
  constructor
  · exact (GPres_foldl (groupingStep g) (fun st' x => GPres_groupingStep g st' x)
      (List.range g.node_bound) _).1 hinit
  · intro i hib hci
    exact hmem (List.range g.node_bound) _ hinit i (List.mem_range.mpr hib) hci

theorem mapM_mem_exists {α β : Type} (f : α → Option β) :
    ∀ (l : List α) (r : List β), l.mapM f = some r →
    ∀ a ∈ l, ∃ b, f a = some b ∧ b ∈ r := by
  intro l
  induction l with
  | nil =>
    intro r _ a ha
    exact absurd ha (by simp)
  | cons x xs ih =>
    intro r hr a ha
    rw [List.mapM_cons] at hr
    cases hfx : f x with
    | none =>
      rw [hfx] at hr
      exact absurd hr (by simp)
    | some b =>
      rw [hfx] at hr
      cases hxs : xs.mapM f with
      | none =>
        rw [hxs] at hr
        exact absurd hr (by simp)
      | some r' =>
        rw [hxs] at hr
        have hr' : some (b :: r') = some r := hr
        injection hr' with hr'
        subst hr'
        rcases List.mem_cons.mp ha with ha | ha
        · subst ha
          exact ⟨b, hfx, by simp⟩
        · obtain ⟨b', hb', hmem⟩ := ih r' hxs a ha
          exact ⟨b', hb', by simp [hmem]⟩

theorem mem_groupSort {α : Type} [DecidableEq α] (k1 k2 : α → Nat) (l : List α)
    (x : α) (hx : x ∈ l) : x ∈ groupByKey k2 (sortByKey k1 l) := by
  have h1 : 0 < l.countP (fun y => y == x) :=
    List.countP_pos_iff.mpr ⟨x, hx, by simp⟩
  rw [← countP_sortByKey k1 l, ← countP_groupByKey k2 (sortByKey k1 l)] at h1
  obtain ⟨y, hy, hyx⟩ := List.countP_pos_iff.mp h1
  rw [show (y == x) = true ↔ y = x from by simp] at hyx
  subst hyx
  exact hy

theorem compile_node_tail_char (g : CompileGraph) (nodeids n2g : List Nat)
    (len k nb idx : Nat) (node : CompileNode) (igv : Option Nat) (n : SNode) (nb2 : Nat)
    (hcn : (do
      let defaults ← buildHist g
        ((g.edges_in idx).filter (fun e => e.weight.ty = LinkType.Default))
      let sides ← buildHist g
        ((g.edges_in idx).filter (fun e => e.weight.ty = LinkType.Side))
      let updates ←
        if node.ty = CNodeType.Constant then pure []
        else do
          let targeted ← (g.edges_out idx).mapM (fun e => do
            let bid ← nodeids.findIdx? (· = e.target)
            let tnode ← g.node? e.target
            pure (e, bid, tnode.ty))
          let sorted := sortByKey (fun a => a.2.1) targeted
          let grouped := groupByKey (fun x => tyDiscriminant x.2.2) sorted
          grouped.mapM (fun (e, bid, _) =>
            if bid < len then
              pure (⟨bid, e.weight.ty = LinkType.Side, e.weight.ss⟩ : ForwardLink)
            else none)
      let ty ←
        match node.ty with
        | .Repeater delay fd => pure (TNodeType.Repeater delay fd)
        | .Torch => pure TNodeType.Torch
        | .Comparator mode far fd =>
          match far with
          | some v => if v = 255 then none else pure (TNodeType.Comparator mode (some v) fd)
          | none => pure (TNodeType.Comparator mode none fd)
        | .Lamp => pure TNodeType.Lamp
        | .Button => pure TNodeType.Button
        | .Lever => pure TNodeType.Lever
        | .PressurePlate => pure TNodeType.PressurePlate
        | .Trapdoor => pure TNodeType.Trapdoor
        | .Wire => pure TNodeType.Wire
        | .Constant => pure TNodeType.Constant
        | .NoteBlock _ _ => do
          let _ ← node.block
          pure (TNodeType.NoteBlock nb)
      let nb3 := if let CNodeType.NoteBlock _ _ := node.ty then nb + 1 else nb
      pure
        (({ ty := ty
            default_inputs := ⟨defaults⟩
            side_inputs := ⟨sides⟩
            updates := updates
            powered := node.state.powered
            output_power := node.state.output_strength
            locked := node.state.repeater_locked
            pending_tick := 255
            pending_tick_priority := 3
            changed := false
            is_io := node.is_input || node.is_output
            group_id := n2g.getD k 0
            input_group_id := igv } : SNode), nb3)) = some (n, nb2)) :
    n.output_power = node.state.output_strength ∧
    (n.ty = TNodeType.Constant ↔ node.ty = CNodeType.Constant) ∧
    buildHist g ((g.edges_in idx).filter (fun e => e.weight.ty = LinkType.Default)) =
      some n.default_inputs.ss_counts ∧
    buildHist g ((g.edges_in idx).filter (fun e => e.weight.ty = LinkType.Side)) =
      some n.side_inputs.ss_counts ∧
    (node.ty ≠ CNodeType.Constant →
      (∀ e ∈ g.edges_out idx,
        (∃ bid, nodeids.findIdx? (fun x => x = e.target) = some bid ∧ bid < len) ∧
        (g.node? e.target).isSome = true) ∧
      (∀ p : ForwardLink → Bool, n.updates.countP p =
        (g.edges_out idx).countP (fun e =>
          match nodeids.findIdx? (fun x => x = e.target) with
          | some bid => p ⟨bid, e.weight.ty = LinkType.Side, e.weight.ss⟩
          | none => false))) := by
  have hfin : ∀ (tyv : TNodeType) (dflt sds : List Int) (upd : List ForwardLink) (nbv : Nat),
      (tyv = TNodeType.Constant ↔ node.ty = CNodeType.Constant) →
      buildHist g ((g.edges_in idx).filter (fun e => e.weight.ty = LinkType.Default)) =
        some dflt →
      buildHist g ((g.edges_in idx).filter (fun e => e.weight.ty = LinkType.Side)) =
        some sds →
      (node.ty ≠ CNodeType.Constant →
        (∀ e ∈ g.edges_out idx,
          (∃ bid, nodeids.findIdx? (fun x => x = e.target) = some bid ∧ bid < len) ∧
          (g.node? e.target).isSome = true) ∧
        (∀ p : ForwardLink → Bool, upd.countP p =
          (g.edges_out idx).countP (fun e =>
            match nodeids.findIdx? (fun x => x = e.target) with
            | some bid => p ⟨bid, e.weight.ty = LinkType.Side, e.weight.ss⟩
            | none => false))) →
      (some (({ ty := tyv
                default_inputs := ⟨dflt⟩
                side_inputs := ⟨sds⟩
                updates := upd
                powered := node.state.powered
                output_power := node.state.output_strength
                locked := node.state.repeater_locked
                pending_tick := 255
                pending_tick_priority := 3
                changed := false
                is_io := node.is_input || node.is_output
                group_id := n2g.getD k 0
                input_group_id := igv } : SNode), nbv) : Option (SNode × Nat)) =
        some (n, nb2) →
      n.output_power = node.state.output_strength ∧
      (n.ty = TNodeType.Constant ↔ node.ty = CNodeType.Constant) ∧
      buildHist g ((g.edges_in idx).filter (fun e => e.weight.ty = LinkType.Default)) =
        some n.default_inputs.ss_counts ∧
      buildHist g ((g.edges_in idx).filter (fun e => e.weight.ty = LinkType.Side)) =
        some n.side_inputs.ss_counts ∧
      (node.ty ≠ CNodeType.Constant →
        (∀ e ∈ g.edges_out idx,
          (∃ bid, nodeids.findIdx? (fun x => x = e.target) = some bid ∧ bid < len) ∧
          (g.node? e.target).isSome = true) ∧
        (∀ p : ForwardLink → Bool, n.updates.countP p =
          (g.edges_out idx).countP (fun e =>
            match nodeids.findIdx? (fun x => x = e.target) with
            | some bid => p ⟨bid, e.weight.ty = LinkType.Side, e.weight.ss⟩
            | none => false))) := by
    intro tyv dflt sds upd nbv hiff hd hs hupd he
    injection he with he
    injection he with he1 he2
    subst he1
    exact ⟨rfl, hiff, hd, hs, hupd⟩
  simp only [bind, Option.bind, pure] at hcn
  split at hcn
  case h_1 => exact absurd hcn (by simp)
  case h_2 defaults hdflt =>
    beta_reduce at hcn
    split at hcn
    case h_1 => exact absurd hcn (by simp)
    case h_2 sides hside =>
      beta_reduce at hcn
      by_cases hC : node.ty = CNodeType.Constant
      · rw [if_pos hC] at hcn
        rw [hC] at hcn
        exact hfin _ _ _ _ _ (by rw [hC]; simp) hdflt hside (fun hne => absurd hC hne) hcn
      · rw [if_neg hC] at hcn
        split at hcn
        next => exact absurd hcn (by simp)
        next targeted hT =>
          beta_reduce at hcn
          split at hcn
          case h_1 => exact absurd hcn (by simp)
          case h_2 upd hU =>
            beta_reduce at hcn
            have hPERE : ∀ e ∈ g.edges_out idx,
                (∃ bid, nodeids.findIdx? (fun x => x = e.target) = some bid ∧ bid < len) ∧
                (g.node? e.target).isSome = true := by
              intro e he
              obtain ⟨b, hb, hbmem⟩ := mapM_mem_exists _ _ _ hT e he
              beta_reduce at hb
              split at hb
              case h_1 => exact absurd hb (by simp)
              case h_2 bid hfi =>
                beta_reduce at hb
                split at hb
                case h_1 => exact absurd hb (by simp)
                case h_2 tn htn =>
                  injection hb with hb
                  subst hb
                  have hbg : (e, bid, tn.ty) ∈ groupByKey (fun x => tyDiscriminant x.2.2)
                      (sortByKey (fun a => a.2.1) targeted) :=
                    mem_groupSort _ _ targeted _ hbmem
                  obtain ⟨lk, hlk, _⟩ := mapM_mem_exists _ _ _ hU _ hbg
                  have hlk' : (if bid < len then
                      some (⟨bid, e.weight.ty = LinkType.Side, e.weight.ss⟩ : ForwardLink)
                    else none) = some lk := hlk
                  by_cases hbl : bid < len
                  · exact ⟨⟨bid, hfi, hbl⟩, by rw [htn]; rfl⟩
                  · rw [if_neg hbl] at hlk'
                    exact absurd hlk' (by simp)
            have hCNT : ∀ p : ForwardLink → Bool, upd.countP p =
                (g.edges_out idx).countP (fun e =>
                  match nodeids.findIdx? (fun x => x = e.target) with
                  | some bid => p ⟨bid, e.weight.ty = LinkType.Side, e.weight.ss⟩
                  | none => false) := by
              intro p
              rw [mapM_countP _ _ _ hU p, countP_groupByKey, countP_sortByKey,
                mapM_countP _ _ _ hT]
              apply List.countP_congr
              intro e he
              obtain ⟨⟨bid, hfi, hbl⟩, htn⟩ := hPERE e he
              obtain ⟨tn, htn'⟩ := Option.isSome_iff_exists.mp htn
              simp [hfi, htn', hbl]
            split at hcn
            case h_1 d fd hty =>
              exact hfin _ _ _ _ _ (by rw [hty]; simp) hdflt hside
                (fun hne => ⟨hPERE, hCNT⟩) hcn
            case h_2 hty =>
              exact hfin _ _ _ _ _ (by rw [hty]; simp) hdflt hside
                (fun hne => ⟨hPERE, hCNT⟩) hcn
            case h_3 mode far fd hty =>
              split at hcn
              next v hfar =>
                split at hcn
                next => exact Option.noConfusion hcn
                next =>
                  exact hfin _ _ _ _ _ (by rw [hty]; simp) hdflt hside
                    (fun hne => ⟨hPERE, hCNT⟩) hcn
              next hfar =>
                exact hfin _ _ _ _ _ (by rw [hty]; simp) hdflt hside
                  (fun hne => ⟨hPERE, hCNT⟩) hcn
            case h_4 hty =>
              exact hfin _ _ _ _ _ (by rw [hty]; simp) hdflt hside
                (fun hne => ⟨hPERE, hCNT⟩) hcn
            case h_5 hty =>
              exact hfin _ _ _ _ _ (by rw [hty]; simp) hdflt hside
                (fun hne => ⟨hPERE, hCNT⟩) hcn
            case h_6 hty =>
              exact hfin _ _ _ _ _ (by rw [hty]; simp) hdflt hside
                (fun hne => ⟨hPERE, hCNT⟩) hcn
            case h_7 hty =>
              exact hfin _ _ _ _ _ (by rw [hty]; simp) hdflt hside
                (fun hne => ⟨hPERE, hCNT⟩) hcn
            case h_8 hty =>
              exact hfin _ _ _ _ _ (by rw [hty]; simp) hdflt hside
                (fun hne => ⟨hPERE, hCNT⟩) hcn
            case h_9 hty =>
              exact hfin _ _ _ _ _ (by rw [hty]; simp) hdflt hside
                (fun hne => ⟨hPERE, hCNT⟩) hcn
            case h_10 hty => exact absurd hty hC
            case h_11 instr note hty =>
              split at hcn
              next => exact Option.noConfusion hcn
              next blk hblk =>
                beta_reduce at hcn
                exact hfin _ _ _ _ _ (by rw [hty]; simp) hdflt hside
                  (fun hne => ⟨hPERE, hCNT⟩) hcn

theorem compile_node_char (g : CompileGraph) (nodeids n2g : List Nat)
    (len k idx nb : Nat) (n : SNode) (nb2 : Nat)
    (hcn : compile_node g nodeids n2g len idx k nb = some (n, nb2)) :
    ∃ node, g.node? idx = some node ∧
      n.output_power = node.state.output_strength ∧
      (n.ty = TNodeType.Constant ↔ node.ty = CNodeType.Constant) ∧
      buildHist g ((g.edges_in idx).filter (fun e => e.weight.ty = LinkType.Default)) =
        some n.default_inputs.ss_counts ∧
      buildHist g ((g.edges_in idx).filter (fun e => e.weight.ty = LinkType.Side)) =
        some n.side_inputs.ss_counts ∧
      (node.ty ≠ CNodeType.Constant →
        (∀ e ∈ g.edges_out idx,
          (∃ bid, nodeids.findIdx? (fun x => x = e.target) = some bid ∧ bid < len) ∧
          (g.node? e.target).isSome = true) ∧
        (∀ p : ForwardLink → Bool, n.updates.countP p =
          (g.edges_out idx).countP (fun e =>
            match nodeids.findIdx? (fun x => x = e.target) with
            | some bid => p ⟨bid, e.weight.ty = LinkType.Side, e.weight.ss⟩
            | none => false))) := by
  unfold compile_node at hcn
  simp only [bind, Option.bind] at hcn
  split at hcn
  next => exact absurd hcn (by simp)
  next node hnode =>
    beta_reduce at hcn
    refine ⟨node, hnode, ?_⟩
    split at hcn
    next hLast =>
      exact compile_node_tail_char g nodeids n2g len k nb idx node none n nb2 hcn
    next e hLast =>
      split at hcn
      next => exact absurd hcn (by simp)
      next bid hbid =>
        beta_reduce at hcn
        exact compile_node_tail_char g nodeids n2g len k nb idx node
          (some (n2g.getD bid 0)) n nb2 hcn

theorem findIdx?_some_facts {α : Type} {p : α → Bool} {l : List α} {j : Nat}
    (h : l.findIdx? p = some j) : ∃ hj : j < l.length, p (l[j]) = true := by
  rw [List.findIdx?_eq_some_iff_findIdx_eq] at h
  obtain ⟨hj, hfi⟩ := h
  refine ⟨hj, ?_⟩
  have := @List.findIdx_getElem α p l (by rw [hfi]; exact hj)
  simp only [hfi] at this
  exact this

theorem nodesFold_char (g : CompileGraph) (nodeids n2g : List Nat) (len : Nat) :
    ∀ (l : List (Nat × Nat)) (acc : List SNode) (nb0 : Nat) (out : List SNode × Nat),
    (l.foldlM (fun (acc : List SNode × Nat) (p : Nat × Nat) => do
        let (n, nb') ← compile_node g nodeids n2g len p.2 p.1 acc.2
        pure (acc.1 ++ [n], nb')) (acc, nb0)) = some out →
    out.1.length = acc.length + l.length ∧
    (∀ j, j < acc.length → out.1[j]? = acc[j]?) ∧
    (∀ kk, ∀ hk : kk < l.length, ∃ nbk r nbk2,
      compile_node g nodeids n2g len (l.get ⟨kk, hk⟩).2 (l.get ⟨kk, hk⟩).1 nbk =
        some (r, nbk2) ∧
      out.1[acc.length + kk]? = some r) := by
  intro l
  induction l with
  | nil =>
    intro acc nb0 out hf
    rw [List.foldlM_nil] at hf
    injection hf with hf
    subst hf
    exact ⟨by simp, fun j hj => rfl, fun kk hk => absurd hk (by simp)⟩
  | cons p l' ih =>
    intro acc nb0 out hf
    rw [List.foldlM_cons] at hf
    cases hcn : compile_node g nodeids n2g len p.2 p.1 nb0 with
    | none =>
      rw [hcn] at hf
      exact absurd hf (by simp)
    | some pr =>
      obtain ⟨nn, nb1⟩ := pr
      rw [hcn] at hf
      have hf' : l'.foldlM (fun (acc : List SNode × Nat) (p : Nat × Nat) => do
          let (n, nb') ← compile_node g nodeids n2g len p.2 p.1 acc.2
          pure (acc.1 ++ [n], nb')) (acc ++ [nn], nb1) = some out := hf
      obtain ⟨ih1, ih2, ih3⟩ := ih (acc ++ [nn]) nb1 out hf'
      refine ⟨?_, ?_, ?_⟩
      · rw [ih1]
        simp
        omega
      · intro j hj
        rw [ih2 j (by simp; omega), List.getElem?_append_left hj]
      · intro kk hk
        cases kk with
        | zero =>
          refine ⟨nb0, nn, nb1, hcn, ?_⟩
          rw [show acc.length + 0 = acc.length from rfl,
            ih2 acc.length (by simp), List.getElem?_concat_length]
        | succ kk' =>
          obtain ⟨nbk, r, nbk2, hc, hg⟩ := ih3 kk' (by simp at hk ⊢; omega)
          refine ⟨nbk, r, nbk2, ?_, ?_⟩
          · have : (p :: l').get ⟨kk' + 1, hk⟩ = l'.get ⟨kk', by simp at hk; omega⟩ := rfl
            rw [this]
            exact hc
          · rw [show acc.length + (kk' + 1) = (acc ++ [nn]).length + kk' from by simp; omega]
            exact hg

theorem foldlM_coreEq {β : Type} (f : Backend → β → Option Backend)
    (hf : ∀ s x s', f s x = some s' → coreEq s s') :
    ∀ (l : List β) (s0 s1 : Backend), l.foldlM f s0 = some s1 → coreEq s0 s1 := by
  intro l
  induction l with
  | nil =>
    intro s0 s1 h
    rw [List.foldlM_nil] at h
    injection h with h
    subst h
    exact coreEq_refl s0
  | cons x xs ih =>
    intro s0 s1 h
    rw [List.foldlM_cons] at h
    cases hx : f s0 x with
    | none =>
      rw [hx] at h
      exact absurd h (by simp)
    | some s2 =>
      rw [hx] at h
      exact coreEq_trans (hf s0 x s2 hx) (ih s2 s1 h)

theorem base_aux (g : CompileGraph) (nodes : List SNode)
    (hlen : nodes.length = (runGrouping g).nodeids.length)
    (hget : ∀ kk, ∀ hk : kk < (runGrouping g).nodeids.length, ∃ r node,
      nodes[kk]? = some r ∧
      g.node? ((runGrouping g).nodeids[kk]) = some node ∧
      r.output_power = node.state.output_strength ∧
      (r.ty = TNodeType.Constant ↔ node.ty = CNodeType.Constant) ∧
      buildHist g ((g.edges_in ((runGrouping g).nodeids[kk])).filter
        (fun e => e.weight.ty = LinkType.Default)) = some r.default_inputs.ss_counts ∧
      buildHist g ((g.edges_in ((runGrouping g).nodeids[kk])).filter
        (fun e => e.weight.ty = LinkType.Side)) = some r.side_inputs.ss_counts ∧
      (node.ty ≠ CNodeType.Constant →
        (∀ e ∈ g.edges_out ((runGrouping g).nodeids[kk]),
          (∃ bid, (runGrouping g).nodeids.findIdx? (fun x => x = e.target) = some bid ∧
            bid < (runGrouping g).nodeids.length) ∧
          (g.node? e.target).isSome = true) ∧
        (∀ p : ForwardLink → Bool, r.updates.countP p =
          (g.edges_out ((runGrouping g).nodeids[kk])).countP (fun e =>
            match (runGrouping g).nodeids.findIdx? (fun x => x = e.target) with
            | some bid => p ⟨bid, e.weight.ty = LinkType.Side, e.weight.ss⟩
            | none => false))))
    (s0 : Backend) (hs0 : s0.nodes = nodes) :
    Aux g s0 ∧ ∀ t sd b, b < 16 → defect g s0 t sd b = 0 := by
  have hcontained : ∀ j ∈ (runGrouping g).nodeids, j < g.node_bound := by
    intro j hj
    obtain ⟨kk, hk, hjk⟩ := List.mem_iff_getElem.mp hj
    obtain ⟨r, node, _, hnode, _⟩ := hget kk hk
    have := node?_some_lt g _ node hnode
    unfold CompileGraph.node_bound
    rw [show (runGrouping g).nodeids[kk] = j from hjk] at hnode
    exact node?_some_lt g j node hnode
  have hnodup : (runGrouping g).nodeids.Nodup := by
    rcases (GInv_runGrouping g).1.2.2.2 with hnd | ⟨j, hj, hjb⟩
    · exact hnd
    · exact absurd (hcontained j hj) (by omega)
  have hfself : ∀ (kk : Nat) (hk : kk < (runGrouping g).nodeids.length),
      (runGrouping g).nodeids.findIdx?
        (fun x => x = (runGrouping g).nodeids[kk]) = some kk :=
    fun kk hk => findIdx?_self_of_nodup hnodup kk hk
  have hcomplete : ∀ i n, g.node? i = some n → i ∈ (runGrouping g).nodeids := by
    intro i n hn
    refine (GInv_runGrouping g).2 i (node?_some_lt g i n hn) ?_
    unfold CompileGraph.contains_node
    rw [hn]
    rfl
  have hmemN : ∀ i ∈ (runGrouping g).nodeids,
      ∃ kk, ∃ hk : kk < (runGrouping g).nodeids.length,
        (runGrouping g).nodeids[kk] = i := by
    intro i hi
    obtain ⟨kk, hk, hik⟩ := List.mem_iff_getElem.mp hi
    exact ⟨kk, hk, hik⟩
  have hgetN : ∀ kk, kk < (runGrouping g).nodeids.length → s0.nodes.get? kk = nodes[kk]? := by
    intro kk hk
    rw [hs0, List.get?_eq_getElem?]
  have houtOf : ∀ (kk : Nat) (hk : kk < (runGrouping g).nodeids.length),
      outputOf s0 kk = gOut g ((runGrouping g).nodeids[kk]) := by
    intro kk hk
    obtain ⟨r, node, hr, hnode, hop, _⟩ := hget kk hk
    unfold outputOf gOut
    rw [hgetN kk hk, hr, hnode]
    simp [hop]
  have hnone : ∀ kk, (runGrouping g).nodeids.length ≤ kk → s0.nodes.get? kk = none := by
    intro kk hk
    rw [hs0, List.get?_eq_getElem?, List.getElem?_eq_none (by omega)]
  have hcountE : ∀ p : (Nat × Nat × Bool × Nat) → Bool,
      (staticEdges g).countP p = g.edges.countP (fun e0 =>
        match (runGrouping g).nodeids.findIdx? (fun x => x = e0.source),
          (runGrouping g).nodeids.findIdx? (fun x => x = e0.target) with
        | some sb, some tb =>
          p (sb, tb, e0.weight.ty = LinkType.Side, e0.weight.ss)
        | _, _ => false) := by
    intro p
    unfold staticEdges
    rw [List.countP_filterMap]
    apply List.countP_congr
    intro e0 _
    cases hs' : (runGrouping g).nodeids.findIdx? (fun x => x = e0.source) <;>
      cases ht' : (runGrouping g).nodeids.findIdx? (fun x => x = e0.target) <;>
      simp [hs', ht']
  have hEmem : ∀ en ∈ staticEdges g, ∃ e0 ∈ g.edges,
      ∃ (h1 : en.1 < (runGrouping g).nodeids.length)
        (h2 : en.2.1 < (runGrouping g).nodeids.length),
      (runGrouping g).nodeids[en.1] = e0.source ∧
      (runGrouping g).nodeids[en.2.1] = e0.target ∧
      en.2.2.1 = decide (e0.weight.ty = LinkType.Side) ∧ en.2.2.2 = e0.weight.ss := by
    intro en hen
    unfold staticEdges at hen
    rw [List.mem_filterMap] at hen
    obtain ⟨e0, he0, htr⟩ := hen
    split at htr
    next sb tb hs' ht' =>
      injection htr with htr
      subst htr
      obtain ⟨hsb, hps⟩ := findIdx?_some_facts hs'
      obtain ⟨htb, hpt⟩ := findIdx?_some_facts ht'
      exact ⟨e0, he0, hsb, htb, by simpa using hps, by simpa using hpt, rfl, rfl⟩
    next => exact absurd htr (by simp)
  refine ⟨⟨?_, ?_, ?_⟩, ?_⟩
  · -- histogram lengths
    intro id n hn
    have hid : id < (runGrouping g).nodeids.length := by
      by_contra hge
      rw [hnone id (by omega)] at hn
      exact absurd hn (by simp)
    obtain ⟨r, node, hr, hnode, hop, hiff, hbd, hbs, hupd⟩ := hget id hid
    rw [hgetN id hid, hr] at hn
    injection hn with hn
    subst hn
    exact ⟨(buildHist_char g _ _ hbd).1, (buildHist_char g _ _ hbs).1⟩
  · -- delivered strengths in range
    intro en hen
    obtain ⟨e0, he0, h1, h2, hsrc, htgt, hside, hss⟩ := hEmem en hen
    obtain ⟨r, node, hr, hnode, hop, hiff, hbd, hbs, hupd⟩ := hget en.2.1 h2
    have he0in : e0 ∈ g.edges_in ((runGrouping g).nodeids[en.2.1]) := by
      unfold CompileGraph.edges_in
      rw [List.mem_filter]
      exact ⟨he0, by simp [← htgt]⟩
    rw [houtOf en.1 h1, hsrc, hss]
    cases hty : e0.weight.ty with
    | Default =>
      have hmem : e0 ∈ (g.edges_in ((runGrouping g).nodeids[en.2.1])).filter
          (fun e => e.weight.ty = LinkType.Default) := by
        rw [List.mem_filter]
        exact ⟨he0in, by simp [hty]⟩
      exact ((buildHist_char g _ _ hbd).2.1 e0 hmem).2
    | Side =>
      have hmem : e0 ∈ (g.edges_in ((runGrouping g).nodeids[en.2.1])).filter
          (fun e => e.weight.ty = LinkType.Side) := by
        rw [List.mem_filter]
        exact ⟨he0in, by simp [hty]⟩
      exact ((buildHist_char g _ _ hbs).2.1 e0 hmem).2
  · -- LinkInv
    intro id n hn hty t sd f
    have hid : id < (runGrouping g).nodeids.length := by
      by_contra hge
      rw [hnone id (by omega)] at hn
      exact absurd hn (by simp)
    obtain ⟨r, node, hr, hnode, hop, hiff, hbd, hbs, hupd⟩ := hget id hid
    rw [hgetN id hid, hr] at hn
    injection hn with hn
    subst hn
    have hnc : node.ty ≠ CNodeType.Constant := fun hcc => hty (hiff.mpr hcc)
    obtain ⟨hpere, hcnt⟩ := hupd hnc
    unfold cntL cntE
    rw [hcnt, hcountE]
    have heo : g.edges_out ((runGrouping g).nodeids[id]) =
        g.edges.filter (fun e => e.source = (runGrouping g).nodeids[id]) := rfl
    rw [heo, List.countP_filter]
    apply List.countP_congr
    intro e0 he0
    by_cases hsrc : e0.source = (runGrouping g).nodeids[id]
    · rw [hsrc, hfself id hid]
      cases ht' : (runGrouping g).nodeids.findIdx? (fun x => x = e0.target) with
      | none => simp [ht', hsrc]
      | some tb => simp [ht', hsrc]
    · cases hs' : (runGrouping g).nodeids.findIdx? (fun x => x = e0.source) with
      | none =>
        cases ht' : (runGrouping g).nodeids.findIdx? (fun x => x = e0.target) <;>
          simp [hs', ht', hsrc]
      | some sb =>
        obtain ⟨hsb, hps⟩ := findIdx?_some_facts hs'
        have hsbid : ¬ sb = id := by
          intro hcc
          subst hcc
          have hthis : (runGrouping g).nodeids[sb] = e0.source := by simpa using hps
          exact hsrc hthis.symm
        cases ht' : (runGrouping g).nodeids.findIdx? (fun x => x = e0.target) <;>
          simp [hs', ht', hsrc, hsbid]
  · -- defect zero
    intro t sd b hb
    unfold defect
    by_cases ht : t < (runGrouping g).nodeids.length
    · obtain ⟨r, node, hr, hnode, hop, hiff, hbd, hbs, hupd⟩ := hget t ht
      have hhist : histVal s0 t sd b =
          (((g.edges_in ((runGrouping g).nodeids[t])).filter
            (fun e => e.weight.ty = (if sd then LinkType.Side else LinkType.Default))).countP
            (fun e => gOut g e.source - e.weight.ss == b) : Int) := by
        unfold histVal
        rw [hgetN t ht, hr]
        cases sd
        · simpa using (buildHist_char g _ _ hbd).2.2 b hb
        · simpa using (buildHist_char g _ _ hbs).2.2 b hb
      have hWF : ∀ e ∈ (g.edges_in ((runGrouping g).nodeids[t])).filter
          (fun e => e.weight.ty = (if sd then LinkType.Side else LinkType.Default)),
          (g.node? e.source).isSome = true := by
        intro e he
        cases sd
        · refine ((buildHist_char g _ _ hbd).2.1 e ?_).1
          simpa using he
        · refine ((buildHist_char g _ _ hbs).2.1 e ?_).1
          simpa using he
      have hsome : ∀ e0 ∈ g.edges, e0.target = (runGrouping g).nodeids[t] →
          e0.weight.ty = (if sd then LinkType.Side else LinkType.Default) →
          ∃ sb, (runGrouping g).nodeids.findIdx? (fun x => x = e0.source) = some sb := by
        intro e0 he0 htgt' hty'
        have hmem : e0 ∈ (g.edges_in ((runGrouping g).nodeids[t])).filter
            (fun e => e.weight.ty = (if sd then LinkType.Side else LinkType.Default)) := by
          rw [List.mem_filter]
          refine ⟨?_, by simp [hty']⟩
          unfold CompileGraph.edges_in
          rw [List.mem_filter]
          exact ⟨he0, by simp [htgt']⟩
        obtain ⟨n, hn⟩ := Option.isSome_iff_exists.mp (hWF e0 hmem)
        have hmemsrc := hcomplete _ _ hn
        have hex : ∃ x ∈ (runGrouping g).nodeids,
            (fun x => decide (x = e0.source)) x = true := ⟨e0.source, hmemsrc, by simp⟩
        exact ⟨_, List.findIdx?_eq_some_of_exists hex⟩
      have hcd : countDelE (staticEdges g) (outputOf s0) t sd b =
          ((g.edges_in ((runGrouping g).nodeids[t])).filter
            (fun e => e.weight.ty = (if sd then LinkType.Side else LinkType.Default))).countP
            (fun e => gOut g e.source - e.weight.ss == b) := by
        unfold countDelE
        rw [hcountE]
        unfold CompileGraph.edges_in
        rw [List.countP_filter, List.countP_filter]
        apply List.countP_congr
        intro e0 he0
        by_cases htgt' : e0.target = (runGrouping g).nodeids[t]
        · by_cases hty' : e0.weight.ty = (if sd then LinkType.Side else LinkType.Default)
          · obtain ⟨sb, hs'⟩ := hsome e0 he0 htgt' hty'
            obtain ⟨hsb, hps⟩ := findIdx?_some_facts hs'
            have hps' : (runGrouping g).nodeids[sb] = e0.source := by simpa using hps
            have hfun : (fun x => decide (x = e0.target)) =
                (fun x : Nat => decide (x = (runGrouping g).nodeids[t])) := by
              funext x
              rw [htgt']
            have ht' : (runGrouping g).nodeids.findIdx? (fun x => x = e0.target) =
                some t := by
              rw [hfun]
              exact hfself t ht
            have hout : outputOf s0 sb = gOut g e0.source := by
              rw [houtOf sb hsb, hps']
            simp only [hs', ht', hout]
            cases sd <;> cases hty2 : e0.weight.ty <;>
              simp [htgt', hty2] <;> simp [hty2] at hty'
          · cases hs' : (runGrouping g).nodeids.findIdx? (fun x => x = e0.source) <;>
              cases ht' : (runGrouping g).nodeids.findIdx? (fun x => x = e0.target) <;>
              cases sd <;> cases hty2 : e0.weight.ty <;>
              simp [hty2] at hty' <;> simp [hty2, hty']
        · cases hs' : (runGrouping g).nodeids.findIdx? (fun x => x = e0.source) with
          | none => simp [htgt']
          | some sb =>
            cases ht' : (runGrouping g).nodeids.findIdx? (fun x => x = e0.target) with
            | none => simp [htgt']
            | some tb =>
              have htb : ¬ tb = t := by
                intro hcc
                subst hcc
                obtain ⟨htb', hpt⟩ := findIdx?_some_facts ht'
                have hpt' : (runGrouping g).nodeids[tb] = e0.target := by simpa using hpt
                exact htgt' hpt'.symm
              simp [htgt', htb]
      rw [hhist, hcd]
      simp
    · have hh0 : histVal s0 t sd b = 0 := by
        unfold histVal
        rw [hnone t (by omega)]
      have hc0 : countDelE (staticEdges g) (outputOf s0) t sd b = 0 := by
        unfold countDelE
        rw [List.countP_eq_zero]
        intro en hen
        obtain ⟨e0, he0, h1, h2, hsrc, htgt, hside, hss⟩ := hEmem en hen
        simp only [Bool.and_eq_true, beq_iff_eq, not_and]
        intro htt
        exact absurd (htt.1 ▸ h2) (by omega)
      rw [hh0, hc0]
      simp

theorem compileB_base (g : CompileGraph) (ticks : List TickEntry) (s : Backend)
    (hc : compileB g ticks = some s) :
    Aux g s ∧ ∀ t sd b, b < 16 → defect g s t sd b = 0 := by
  unfold compileB at hc
  simp only [bind, Option.bind] at hc
  split at hc
  next => exact absurd hc (by simp)
  next pair hfold =>
    beta_reduce at hc
    obtain ⟨nodes, nbf⟩ := pair
    obtain ⟨hlenO, hpre, hkk⟩ := nodesFold_char g (runGrouping g).nodeids
      (runGrouping g).node_to_group (runGrouping g).nodeids.length
      (runGrouping g).nodeids.enum [] 0 (nodes, nbf) hfold
    have hlen2 : nodes.length = (runGrouping g).nodeids.length := by
      simpa using hlenO
    have hget : ∀ kk, ∀ hk : kk < (runGrouping g).nodeids.length, ∃ r node,
        nodes[kk]? = some r ∧
        g.node? ((runGrouping g).nodeids[kk]) = some node ∧
        r.output_power = node.state.output_strength ∧
        (r.ty = TNodeType.Constant ↔ node.ty = CNodeType.Constant) ∧
        buildHist g ((g.edges_in ((runGrouping g).nodeids[kk])).filter
          (fun e => e.weight.ty = LinkType.Default)) = some r.default_inputs.ss_counts ∧
        buildHist g ((g.edges_in ((runGrouping g).nodeids[kk])).filter
          (fun e => e.weight.ty = LinkType.Side)) = some r.side_inputs.ss_counts ∧
        (node.ty ≠ CNodeType.Constant →
          (∀ e ∈ g.edges_out ((runGrouping g).nodeids[kk]),
            (∃ bid, (runGrouping g).nodeids.findIdx? (fun x => x = e.target) = some bid ∧
              bid < (runGrouping g).nodeids.length) ∧
            (g.node? e.target).isSome = true) ∧
          (∀ p : ForwardLink → Bool, r.updates.countP p =
            (g.edges_out ((runGrouping g).nodeids[kk])).countP (fun e =>
              match (runGrouping g).nodeids.findIdx? (fun x => x = e.target) with
              | some bid => p ⟨bid, e.weight.ty = LinkType.Side, e.weight.ss⟩
              | none => false))) := by
      intro kk hk
      have hk' : kk < (runGrouping g).nodeids.enum.length := by simpa using hk
      obtain ⟨nbk, r, nbk2, hcn, hout⟩ := hkk kk hk'
      have hen : (runGrouping g).nodeids.enum.get ⟨kk, hk'⟩ =
          (kk, (runGrouping g).nodeids[kk]) := by
        rw [List.get_eq_getElem, List.getElem_enum]
      rw [hen] at hcn
      obtain ⟨node, hnode, hop, hiff, hbd, hbs, hupd⟩ :=
        compile_node_char g _ _ _ _ _ _ _ _ hcn
      refine ⟨r, node, ?_, hnode, hop, hiff, hbd, hbs, hupd⟩
      simpa using hout
    have hcore : ∃ s0 : Backend, s0.nodes = nodes ∧ coreEq s0 s := by
      refine ⟨_, rfl, foldlM_coreEq _ ?_ ticks _ s hc⟩
      intro s1 entry s2 hstep
      beta_reduce at hstep
      split at hstep
      next =>
        injection hstep with hstep
        subst hstep
        exact coreEq_refl s1
      next node_id hptn =>
        split at hstep
        next => exact absurd hstep (by simp)
        next grp hgrp =>
          beta_reduce at hstep
          split at hstep
          next => exact absurd hstep (by simp)
          next node hnodeg =>
            beta_reduce at hstep
            have hstep2 : some
                { s1 with
                  groups :=
                    { s1.groups with
                      groups := s1.groups.groups.set
                        ((runGrouping g).node_to_group.getD node_id 0)
                        (if entry.ticks_left = 1 then
                          { grp with
                            scheduler := (schedule_tick_sched grp.scheduler s1.groups.tick
                              node_id entry.ticks_left entry.tick_priority).1
                            tick := grp.tick.set 0 true }
                        else
                          { grp with
                            scheduler := (schedule_tick_sched grp.scheduler s1.groups.tick
                              node_id entry.ticks_left entry.tick_priority).1 }) }
                  nodes := s1.nodes.set node_id
                    { node with
                      pending_tick := (schedule_tick_sched grp.scheduler s1.groups.tick
                        node_id entry.ticks_left entry.tick_priority).2 } } = some s2 := hstep
            injection hstep2 with hstep2
            subst hstep2
            exact coreEq_of_nodes_set
              (n := { node with
                pending_tick := (schedule_tick_sched grp.scheduler s1.groups.tick
                  node_id entry.ticks_left entry.tick_priority).2 })
              hnodeg rfl rfl
    obtain ⟨s0, hs0n, hcore⟩ := hcore
    obtain ⟨hA, hD⟩ := base_aux g nodes hlen2 hget s0 hs0n
    refine ⟨Aux_coreEq hcore hA, ?_⟩
    intro t sd b hb
    rw [defect_coreEq hcore]
    exact hD t sd b hb

theorem reachable_inv (g : CompileGraph) (ticks : List TickEntry) (s : Backend)
    (h : Reachable g ticks s) :
    Aux g s ∧ ∀ t sd b, b < 16 → defect g s t sd b = 0 := by
  induction h with
  | base s hc => exact compileB_base g ticks s hc
  | set fuel priority node_id powered new_power s s' hr hnp hnc hex ih =>
    obtain ⟨hA, hD⟩ := ih
    obtain ⟨hA', hD'⟩ := exec_defect g fuel (.set priority node_id powered new_power)
      s s' hex hA ⟨hnp, hnc⟩
    refine ⟨hA', ?_⟩
    intro t sd b hb
    rw [hD' t sd b hb, hD t sd b hb]
    simp [opDelta]
  | tickN fuel priority group_id node_id s s' hr hex ih =>
    obtain ⟨hA, hD⟩ := ih
    obtain ⟨hA', hD'⟩ := exec_defect g fuel (.tickN priority group_id node_id)
      s s' hex hA trivial
    refine ⟨hA', ?_⟩
    intro t sd b hb
    rw [hD' t sd b hb, hD t sd b hb]
    simp [opDelta]
  | tick fuel s s' hr hex ih =>
    obtain ⟨hA, hD⟩ := ih
    obtain ⟨hA', hD'⟩ := exec_defect g fuel .tick s s' hex hA trivial
    refine ⟨hA', ?_⟩
    intro t sd b hb
    rw [hD' t sd b hb, hD t sd b hb]
    simp [opDelta]

theorem countDelE_sum (out : Nat → Nat) (t : Nat) (sd : Bool) :
    ∀ E : List (Nat × Nat × Bool × Nat), (∀ e ∈ E, out e.1 - e.2.2.2 < 16) →
    ∑ b ∈ Finset.range 16, countDelE E out t sd b = inDegreeE E t sd := by
  intro E
  induction E with
  | nil =>
    intro _
    simp [countDelE, inDegreeE]
  | cons e E ih =>
    intro hE
    have hrec := ih (fun e' he' => hE e' (List.mem_cons_of_mem e he'))
    have he16 := hE e (List.mem_cons_self e E)
    unfold countDelE inDegreeE at hrec ⊢
    simp only [List.countP_cons]
    rw [Finset.sum_add_distrib, hrec]
    by_cases hq : (e.2.1 == t && e.2.2.1 == sd) = true
    · have hsum : ∑ b ∈ Finset.range 16,
          (if (e.2.1 == t && e.2.2.1 == sd && (out e.1 - e.2.2.2 == b)) = true
            then 1 else 0) = 1 := by
        rw [Finset.sum_congr rfl (fun b _ => by
          rw [show (e.2.1 == t && e.2.2.1 == sd && (out e.1 - e.2.2.2 == b)) =
            (out e.1 - e.2.2.2 == b) from by rw [hq, Bool.true_and]])]
        rw [Finset.sum_congr rfl (fun b _ => by
          rw [show (if (out e.1 - e.2.2.2 == b) = true then 1 else 0) =
            (if out e.1 - e.2.2.2 = b then 1 else 0) from by
              by_cases hc : out e.1 - e.2.2.2 = b
              · rw [if_pos hc, if_pos (by simpa using hc)]
              · rw [if_neg hc, if_neg (by simpa using hc)]])]
        rw [Finset.sum_ite_eq]
        rw [if_pos (Finset.mem_range.mpr he16)]
      rw [hsum, hq]
      rfl
    · have hq' : (e.2.1 == t && e.2.2.1 == sd) = false := by
        cases hqq : (e.2.1 == t && e.2.2.1 == sd)
        · rfl
        · exact absurd hqq hq
      have hsum : ∑ b ∈ Finset.range 16,
          (if (e.2.1 == t && e.2.2.1 == sd && (out e.1 - e.2.2.2 == b)) = true
            then 1 else 0) = 0 := by
        rw [Finset.sum_congr rfl (fun b _ => by
          rw [show (e.2.1 == t && e.2.2.1 == sd && (out e.1 - e.2.2.2 == b)) = false
            from by rw [hq', Bool.false_and]])]
        rfl
      rw [hsum, hq']
      rfl

/-- **C7, amended.**  In every state reachable from `compile` by
`set_node` calls honouring the "signal strength is never larger than
15" contract *and never aimed at a `Constant` node*, `tick_node`, and
`tick`, every node's Default and Side histograms are exact: bucket `b`
holds the number of static in-edges of that link type whose currently
delivered strength (source `output_power` saturating-minus edge
distance) is `b`, and the 16 buckets sum to the in-degree of that link
type.  (The unrestricted claim is false: a `set_node` on a `Constant`
changes its `output_power` without any `updates` links to move the
histogram contributions, see the counterexample.) -/
theorem C7_histogram_invariant (g : CompileGraph) (ticks : List TickEntry)
    (s : Backend) (h : Reachable g ticks s) (t : Nat) (sd : Bool) :
    (∀ b, b < 16 → histVal s t sd b =
      (countDelE (staticEdges g) (outputOf s) t sd b : Int)) ∧
    (∑ b ∈ Finset.range 16, histVal s t sd b) =
      (inDegreeE (staticEdges g) t sd : Int) := by
  obtain ⟨hA, hD⟩ := reachable_inv g ticks s h
  have hbucket : ∀ b, b < 16 → histVal s t sd b =
      (countDelE (staticEdges g) (outputOf s) t sd b : Int) := by
    intro b hb
    have hz := hD t sd b hb
    unfold defect at hz
    omega
  refine ⟨hbucket, ?_⟩
  rw [Finset.sum_congr rfl (fun b hb => hbucket b (Finset.mem_range.mp hb))]
  rw [← Nat.cast_sum]
  exact congrArg (fun n : Nat => (n : Int))
    (countDelE_sum (outputOf s) t sd (staticEdges g) hA.2.1)

/-- **C7, counterexample.**  In `c7CxGraph` (`Constant(15)` feeding a
lamp), after `compile` a `set_node` dropping the constant to `0`
leaves the lamp's Default bucket 15 at `1` while no static edge
delivers strength 15 any more — yet the lamp's Default in-degree is
1, so "each bucket counts the edges currently delivering that
strength" fails for the claimed unrestricted operation sequence. -/
theorem C7_histogram_counterexample :
    ((compileB c7CxGraph []).bind (exec 8 (.set 3 0 false 0))).map
      (fun s1 => (histVal s1 1 false 15,
        (countDelE (staticEdges c7CxGraph) (outputOf s1) 1 false 15 : Int))) =
      some (1, 0) ∧ inDegreeE (staticEdges c7CxGraph) 1 false = 1 := by
  decide

/-- **C7, witness.**  The invariant evaluated at the compiled state of
`c7CxGraph`, lamp node `1`, Default link type. -/
theorem C7_histogram_invariant_witness :
    (∀ b, b < 16 → histVal c7Base 1 false b =
      (countDelE (staticEdges c7CxGraph) (outputOf c7Base) 1 false b : Int)) ∧
    (∑ b ∈ Finset.range 16, histVal c7Base 1 false b) =
      (inDegreeE (staticEdges c7CxGraph) 1 false : Int) :=
  C7_histogram_invariant c7CxGraph [] c7Base (.base c7Base (by decide)) 1 false

end Threaded

end MCHPRS
